import Mathlib

/-!
openffucontrol-qtmodbus, a Modbus RTU master.

A shallow embedding of `src/src/modbus.cpp` and `src/src/modbustelegram.cpp`.

* A `QByteArray` is a list of bytes; a byte is the bit pattern of one `char`.
* Unsigned machine integers are natural numbers, reduced `% 2^w` wherever the
  source computes in `w` bits.
* Whether plain `char` is signed is implementation-defined in C++; the functions
  that promote a `char` to `int` take that choice as the parameter `signedChar`.
* Code that can read outside an array, dereference a null pointer, overflow a
  signed integer or loop forever returns `Except Fault _`.
* The engine is a record of the member variables of `class ModBus`; every member
  function is a function on that record.  Signals are appended to `emitted`.
-/

set_option autoImplicit false

/-! ## Bytes and byte arrays -/

/-- An 8-bit unsigned value; also the bit pattern of a `char`. -/
abbrev quint8 := Fin 256

/-- A Qt byte array, as the list of the bit patterns of its `char`s. -/
abbrev QByteArray := List quint8

/-- The ways in which a run of the embedded code can fail to return a value. -/
inductive Fault where
  | outOfRange
  | nullPointer
  | intOverflow
  | noReturn
deriving DecidableEq, Repr

deriving instance DecidableEq for Except

/-- Conversion of an integer value to `char` / `unsigned char` / `quint8`: the low 8 bits. -/
def toChar (n : Nat) : quint8 := ⟨n % 256, Nat.mod_lt n (by decide)⟩

/-- The value a `char` has after integer promotion to `int`: sign-extended where plain
`char` is signed, zero-extended where it is unsigned. -/
def charValue (signedChar : Bool) (c : quint8) : Int :=
  if signedChar && decide (128 ≤ c.val) then (c.val : Int) - 256 else (c.val : Int)

/-- C++ `x & m` on `int` for a mask `0 ≤ m < 2^31`: the bits of the 32-bit two's
complement pattern of `x` that `m` selects. -/
def intAnd (x : Int) (m : Nat) : Nat := (x % 2 ^ 32).toNat &&& m

/-- Member `QByteArray::at(i)`: the `char` at index `i`; reading outside
`0 .. size-1` is a fault. -/
def QByteArray.at (a : QByteArray) (i : Int) : Except Fault quint8 :=
  if 0 ≤ i ∧ i < (a.length : Int) then
    match a.get? i.toNat with
    | some c => .ok c
    | none => .error .outOfRange
  else .error .outOfRange

/-- Member `QByteArray::remove(pos, len)`: nothing happens when `pos` is out of range. -/
def QByteArray.remove (a : QByteArray) (pos len : Int) : QByteArray :=
  if 0 ≤ pos ∧ pos < (a.length : Int) then a.take pos.toNat ++ a.drop (pos + len).toNat else a

/-- Member `QByteArray::mid(pos, len)` for `0 ≤ pos`: `len` bytes starting at
`pos`, or all bytes from `pos` when `len` is negative or reaches past the end. -/
def QByteArray.mid (a : QByteArray) (pos len : Int) : QByteArray :=
  if len < 0 then a.drop pos.toNat else (a.drop pos.toNat).take len.toNat

/-! ## CRC codec (`ModBus::checksum`, `ModBus::checksumOK`) -/

/-- The inner loop of `ModBus::checksum` (`for (quint8 j=0; j<=7; j++)`), with the
number of passes still to run: take the low bit, shift right, and XOR `polynom`
into the register when the bit was set. -/
def ModBus.checksum_bits : Nat → Nat → Nat
  | 0, crc => crc
  | n + 1, crc =>
    let c : Bool := decide ((crc &&& 0x001) ≠ 0)
    let crc := crc >>> 1
    let crc := if c then (crc ^^^ 0xA001) % 65536 else crc
    ModBus.checksum_bits n crc

/-- The body of the outer loop of `ModBus::checksum` for one data byte already
cast to `uint8_t`. -/
def ModBus.checksum_byte (crc : Nat) (d : quint8) : Nat :=
  let crc_hi := (crc >>> 8) % 256
  let crc_low := ((crc &&& 0xFF) ^^^ d.val) % 256
  let crc := ((crc_hi <<< 8) ||| crc_low) % 65536
  ModBus.checksum_bits 8 crc

/-- The outer loop of `ModBus::checksum`, `for (i=0; i < data.length(); i++)` with
`quint16 i`: the index is incremented modulo `2^16`.  `fuel` bounds the number of
evaluations of the loop condition; running out of it is `Fault.noReturn`. -/
def ModBus.checksum_loop (data : QByteArray) : Nat → Nat → Nat → Except Fault Nat
  | 0, _, _ => .error .noReturn
  | fuel + 1, i, crc =>
    if i < data.length then
      match data.at (i : Int) with
      | .error e => .error e
      | .ok d => ModBus.checksum_loop data fuel ((i + 1) % 65536) (ModBus.checksum_byte crc d)
    else .ok crc

/-- Function `ModBus::checksum`.  The loop condition is evaluated `length + 1` times
when the loop ends at all, which is the fuel given. -/
def ModBus.checksum (data : QByteArray) : Except Fault Nat :=
  ModBus.checksum_loop data (data.length + 1) 0 0xffff

/-- Function `ModBus::checksumOK`. -/
def ModBus.checksumOK (data : QByteArray) : Except Fault Bool :=
  match data.at ((data.length : Int) - 2) with
  | .error e => .error e
  | .ok lo =>
    match data.at ((data.length : Int) - 1) with
    | .error e => .error e
    | .ok hi =>
      let crc := lo.val
      let crc := (crc ||| (hi.val <<< 8)) % 65536
      let data := data.remove ((data.length : Int) - 2) 2
      match ModBus.checksum data with
      | .error e => .error e
      | .ok crc_calculated => .ok (decide (crc_calculated = crc))

/-- The value of the local `out` of `ModBus::writeTelegramRawNow` when it is handed
to `m_port->write`. -/
def ModBus.writeTelegramRawNow_out (slaveAddress functionCode : quint8) (data : QByteArray) :
    Except Fault QByteArray :=
  let out : QByteArray := []
  let out := out ++ [slaveAddress]
  let out := out ++ [functionCode]
  let out := out ++ data
  match ModBus.checksum out with
  | .error e => .error e
  | .ok cs =>
    let out := out ++ [toChar (cs &&& 0xFF)]
    let out := out ++ [toChar (cs >>> 8)]
    .ok out

/-- The Modbus CRC-16 as the specification words it, not taken from the code: the
register starts at `0xFFFF`; each byte is XORed into the low byte of the register, and
then eight times the register is shifted right by one and `0xA001` is XORed in when
the bit shifted out was 1.  This is one such shift. -/
def crc16_spec_shift (reg : Nat) : Nat :=
  if reg % 2 = 1 then (reg / 2) ^^^ 0xA001 else reg / 2

/-- One byte of the reference CRC-16: XOR into the low byte, then eight shifts. -/
def crc16_spec_byte (reg : Nat) (b : quint8) : Nat :=
  crc16_spec_shift^[8] (reg ^^^ b.val)

/-- The reference Modbus CRC-16 of a byte sequence. -/
def crc16_spec (bytes : QByteArray) : Nat :=
  bytes.foldl crc16_spec_byte 0xFFFF

/-! ## Telegram record (`modbustelegram.cpp`) -/

/-- A 16-bit unsigned value. -/
abbrev quint16 := Fin 65536

/-- A 64-bit unsigned value. -/
abbrev quint64 := Fin (2 ^ 64)

/-- Conversion of a natural number to `quint16`: reduction modulo `2^16`. -/
def toQuint16 (n : Nat) : quint16 := ⟨n % 65536, Nat.mod_lt n (by decide)⟩

/-- Conversion of a natural number to `quint64`: reduction modulo `2^64`. -/
def toQuint64 (n : Nat) : quint64 := ⟨n % 2 ^ 64, Nat.mod_lt n (by decide)⟩

/-- The members of `class ModBusTelegram` that the code reads or writes. -/
structure ModBusTelegram where
  slaveAddress : quint8
  functionCode : quint8
  data : QByteArray
  repeatCount : Int
  m_id : quint64
deriving DecidableEq

/-- The two function-local `static quint64 id` variables: `idDefault` belongs to the
constructor `ModBusTelegram()`, `idData` to the constructor
`ModBusTelegram(quint8, quint8, QByteArray)`. -/
structure TelegramIds where
  idDefault : quint64
  idData : quint64
deriving DecidableEq

/-- The values of the two static counters at process start (`static quint64 id = 1`). -/
def TelegramIds.start : TelegramIds := { idDefault := 1, idData := 1 }

/-- The statements `id++; if (id == 0) id = 1;` on a `quint64`. -/
def TelegramIds.advance (id : quint64) : quint64 :=
  let id := toQuint64 (id.val + 1)
  if id = 0 then 1 else id

/-- Constructor `ModBusTelegram::ModBusTelegram()`.  It leaves `slaveAddress` and
`functionCode` uninitialised; their indeterminate values are the first two arguments. -/
def ModBusTelegram.ctor (slaveAddress functionCode : quint8) (ids : TelegramIds) :
    ModBusTelegram × TelegramIds :=
  ({ slaveAddress := slaveAddress, functionCode := functionCode, data := [],
     repeatCount := 1, m_id := ids.idDefault },
   { ids with idDefault := TelegramIds.advance ids.idDefault })

/-- Constructor `ModBusTelegram::ModBusTelegram(quint8, quint8, QByteArray)`. -/
def ModBusTelegram.ctor_data (slaveAddress functionCode : quint8) (data : QByteArray)
    (ids : TelegramIds) : ModBusTelegram × TelegramIds :=
  ({ slaveAddress := slaveAddress, functionCode := functionCode, data := data,
     repeatCount := 1, m_id := ids.idData },
   { ids with idData := TelegramIds.advance ids.idData })

/-- Function `ModBusTelegram::needsAnswer`. -/
def ModBusTelegram.needsAnswer (t : ModBusTelegram) : Bool :=
  if t.slaveAddress = 0 then false else true

/-- Function `ModBusTelegram::getID`. -/
def ModBusTelegram.getID (t : ModBusTelegram) : quint64 := t.m_id

/-- Which of the two constructors a construction uses. -/
inductive Construction where
  | noArgs
  | withData
deriving DecidableEq

/-- One construction: the telegram's id and the counters afterwards.  The id does
not depend on the other constructor arguments, which are left out. -/
def Construction.run (ids : TelegramIds) : Construction → quint64 × TelegramIds
  | .noArgs => let r := ModBusTelegram.ctor 0 0 ids; (r.1.getID, r.2)
  | .withData => let r := ModBusTelegram.ctor_data 0 0 [] ids; (r.1.getID, r.2)

/-- The ids, in order, of the telegrams built by a sequence of constructions. -/
def Construction.ids : TelegramIds → List Construction → List quint64
  | _, [] => []
  | ids, c :: cs => (Construction.run ids c).1 :: Construction.ids (Construction.run ids c).2 cs

/-! ## Engine state and signals (`modbus.h`) -/

/-- The signals of `class ModBus` that the code emits. -/
inductive Signal where
  | signal_responseRawComplete (telegramID : quint64) (data : QByteArray)
  | signal_responseRaw (telegramID : quint64) (address functionCode : quint8) (data : QByteArray)
  | signal_transactionFinished
  | signal_transactionLost (id : quint64)
  | signal_exception (telegramID : quint64) (exceptionCode : quint8)
  | signal_coilsRead (telegramID : quint64) (slaveAddress : quint8) (dataStartAddress : quint16)
      (on_ : List Bool)
  | signal_discreteInputsRead (telegramID : quint64) (slaveAddress : quint8)
      (dataStartAddress : quint16) (on_ : List Bool)
  | signal_holdingRegistersRead (telegramID : quint64) (slaveAddress : quint8)
      (dataStartAddress : quint16) (data : List quint16)
  | signal_inputRegistersRead (telegramID : quint64) (slaveAddress : quint8)
      (dataStartAddress : quint16) (data : List quint16)
deriving DecidableEq

/-- The member variables of `class ModBus`.  A timer is `true` while it is active.
`portOpen` is `m_port->isOpen()`, `written` the byte arrays passed to
`m_port->write` (oldest first) and `emitted` the signals emitted (oldest first).
The members `m_telegramQueue`, `m_requestedCount`, `m_requestedDataAddress` and
`m_requestedDataStartAddress` are used by `modbus.cpp` but declared nowhere in the
sources; they carry the types of the values assigned to them. -/
structure ModBus where
  portOpen : Bool
  written : List QByteArray
  m_readBuffer : QByteArray
  m_requestTimer : Bool
  m_delayTxTimer : Bool
  m_rxIdleTimer : Bool
  m_transactionPending : Bool
  m_telegramQueue : List ModBusTelegram
  m_currentTelegram : Option ModBusTelegram
  m_rx_telegrams : quint64
  m_crc_errors : quint64
  m_requestedCount : quint16
  m_requestedDataAddress : quint16
  m_requestedDataStartAddress : quint16
  emitted : List Signal
deriving DecidableEq

/-- Constructor `ModBus::ModBus`: nothing pending, no current telegram, counters and
request context zero, all timers idle, port not yet opened. -/
def ModBus.ctor : ModBus :=
  { portOpen := false, written := [], m_readBuffer := [],
    m_requestTimer := false, m_delayTxTimer := false, m_rxIdleTimer := false,
    m_transactionPending := false, m_telegramQueue := [], m_currentTelegram := none,
    m_rx_telegrams := 0, m_crc_errors := 0,
    m_requestedCount := 0, m_requestedDataAddress := 0, m_requestedDataStartAddress := 0,
    emitted := [] }

/-- Function `ModBus::open`; `openOK` is the result of `m_port->open`. -/
def ModBus.open (s : ModBus) (openOK : Bool) : ModBus :=
  { s with portOpen := s.portOpen || openOK }

/-- The statement `emit sig`.  The constructor connects `signal_transactionFinished`
to `m_delayTxTimer.start()`; the other receivers are application code, which is
taken not to call back into the engine while the signal is delivered. -/
def ModBus.emit (s : ModBus) (sig : Signal) : ModBus :=
  let s := { s with emitted := s.emitted ++ [sig] }
  if sig = .signal_transactionFinished then { s with m_delayTxTimer := true } else s

/-! ## Frame encoder and transaction engine (`modbus.cpp`) -/

/-- Function `ModBus::writeTelegramRawNow`. -/
def ModBus.writeTelegramRawNow (s : ModBus) (slaveAddress functionCode : quint8)
    (data : QByteArray) : Except Fault ModBus :=
  match ModBus.writeTelegramRawNow_out slaveAddress functionCode data with
  | .error e => .error e
  | .ok out => if s.portOpen then .ok { s with written := s.written ++ [out] } else .ok s

/-- Function `ModBus::writeTelegramNow`, called on `m_currentTelegram` (its only call
site).  `repeatCount--` on the 32-bit `int` overflows at `-2^31`. -/
def ModBus.writeTelegramNow (s : ModBus) : Except Fault (quint64 × ModBus) :=
  match s.m_currentTelegram with
  | none => .error .nullPointer
  | some telegram =>
    let slaveAddress := telegram.slaveAddress
    let functionCode := telegram.functionCode
    let data := telegram.data
    if telegram.repeatCount ≤ -(2 ^ 31) then .error .intOverflow
    else
      let telegram := { telegram with repeatCount := telegram.repeatCount - 1 }
      let s := { s with m_currentTelegram := some telegram }
      match ModBus.writeTelegramRawNow s slaveAddress functionCode data with
      | .error e => .error e
      | .ok s => .ok (telegram.getID, s)

/-- The tail of `ModBus::slot_tryToSendNextTelegram` from `m_transactionPending = true`. -/
def ModBus.slot_tryToSendNextTelegram_send (s : ModBus) : Except Fault ModBus :=
  let s := { s with m_transactionPending := true }
  let s := { s with m_requestTimer := true }
  match ModBus.writeTelegramNow s with
  | .error e => .error e
  | .ok r => .ok r.2

/-- Function `ModBus::slot_tryToSendNextTelegram`. -/
def ModBus.slot_tryToSendNextTelegram (s : ModBus) : Except Fault ModBus :=
  let s :=
    match s.m_currentTelegram with
    | some t => if t.repeatCount = 0 then { s with m_currentTelegram := none } else s
    | none => s
  match s.m_currentTelegram with
  | none =>
    match s.m_telegramQueue with
    | [] => .ok { s with m_transactionPending := false }
    | t :: rest =>
      ModBus.slot_tryToSendNextTelegram_send
        { s with m_currentTelegram := some t, m_telegramQueue := rest }
  | some _ => ModBus.slot_tryToSendNextTelegram_send s

/-- Function `ModBus::writeTelegramToQueue` as defined in `modbus.cpp`. -/
def ModBus.writeTelegramToQueue (s : ModBus) (telegram : ModBusTelegram) :
    Except Fault (quint64 × ModBus) :=
  let telegramID := telegram.getID
  let s := { s with m_telegramQueue := s.m_telegramQueue ++ [telegram] }
  if !s.m_transactionPending then
    match ModBus.slot_tryToSendNextTelegram s with
    | .error e => .error e
    | .ok s => .ok (telegramID, s)
  else .ok (telegramID, s)

/-- Function `ModBus::readCoils`; callers that omit `functionCode` pass `0x01`. -/
def ModBus.readCoils (s : ModBus) (ids : TelegramIds) (slaveAddress : quint8)
    (dataStartAddress count : quint16) (functionCode : quint8) :
    Except Fault (quint64 × ModBus × TelegramIds) :=
  let payload : QByteArray := []
  let payload := payload ++ [toChar (dataStartAddress.val >>> 8)]
  let payload := payload ++ [toChar (dataStartAddress.val &&& 0xff)]
  let payload := payload ++ [toChar (count.val >>> 8)]
  let payload := payload ++ [toChar (count.val &&& 0xff)]
  let s := { s with m_requestedCount := count }
  let s := { s with m_requestedDataStartAddress := dataStartAddress }
  let r := ModBusTelegram.ctor_data slaveAddress functionCode payload ids
  match ModBus.writeTelegramToQueue s r.1 with
  | .error e => .error e
  | .ok q => .ok (q.1, q.2, r.2)

/-- Function `ModBus::readHoldingRegisters`; `count` is a `quint8` here, and callers
that omit `functionCode` pass `0x03`. -/
def ModBus.readHoldingRegisters (s : ModBus) (ids : TelegramIds) (slaveAddress : quint8)
    (dataStartAddress : quint16) (count : quint8) (functionCode : quint8) :
    Except Fault (quint64 × ModBus × TelegramIds) :=
  let payload : QByteArray := []
  let payload := payload ++ [toChar (dataStartAddress.val >>> 8)]
  let payload := payload ++ [toChar (dataStartAddress.val &&& 0xff)]
  let payload := payload ++ [toChar (count.val >>> 8)]
  let payload := payload ++ [toChar (count.val &&& 0xff)]
  let s := { s with m_requestedCount := toQuint16 count.val }
  let s := { s with m_requestedDataStartAddress := dataStartAddress }
  let r := ModBusTelegram.ctor_data slaveAddress functionCode payload ids
  match ModBus.writeTelegramToQueue s r.1 with
  | .error e => .error e
  | .ok q => .ok (q.1, q.2, r.2)

/-! ## Frame decoder (`ModBus::tryToParseResponseRaw`, `ModBus::parseResponse`) -/

/-- Conversion of an `int` to `quint16`: reduction modulo `2^16`. -/
def toU16 (x : Int) : quint16 := toQuint16 (x % 65536).toNat

/-- The `while` loop of `case 1: case 2:` in `ModBus::parseResponse`, with `quint16 bit`,
`quint8 byte` and the list `on`.  `fuel` bounds the number of evaluations of the loop
condition. -/
def ModBus.parseResponse_bits (signedChar : Bool) (payload : QByteArray)
    (m_requestedCount : quint16) : Nat → Nat → Nat → List Bool → Except Fault (List Bool)
  | 0, _, _, _ => .error .noReturn
  | fuel + 1, bit, byte, on_ =>
    if payload.length > byte + 1 then
      match payload.at ((byte : Int) + 1) with
      | .error e => .error e
      | .ok c =>
        let on_ :=
          if intAnd (charValue signedChar c) (1 <<< bit) ≠ 0 then on_ ++ [true]
          else on_ ++ [false]
        if on_.length = m_requestedCount.val then .ok on_
        else
          let bit := (bit + 1) % 65536
          if bit = 8 then
            ModBus.parseResponse_bits signedChar payload m_requestedCount fuel 0
              ((byte + 1) % 256) on_
          else
            ModBus.parseResponse_bits signedChar payload m_requestedCount fuel bit byte on_
    else .ok on_

/-- The statements `quint16 word = 0; word += payload.at(i*2 + 1) << 8;
word += payload.at(i*2 + 2);` for the two `char`s read.  Each `char` is promoted to
`int` before `<< 8` and `+=`; `x << 8` is `x * 2^8`, and `+=` on the `quint16 word`
reduces modulo `2^16`. -/
def ModBus.parseResponse_word (signedChar : Bool) (hi lo : quint8) : quint16 :=
  let word : quint16 := 0
  let word := toU16 ((word.val : Int) + charValue signedChar hi * 2 ^ 8)
  let word := toU16 ((word.val : Int) + charValue signedChar lo)
  word

/-- The `for (quint16 i = 0; i < m_requestedCount; i++)` loop of `case 3: case 4:` in
`ModBus::parseResponse`; every pass appends one word to `data`. -/
def ModBus.parseResponse_words (signedChar : Bool) (payload : QByteArray)
    (m_requestedCount : quint16) : Nat → Nat → List quint16 → Except Fault (List quint16)
  | 0, _, _ => .error .noReturn
  | fuel + 1, i, data =>
    if i < m_requestedCount.val then
      match payload.at ((i : Int) * 2 + 1) with
      | .error e => .error e
      | .ok hi =>
        match payload.at ((i : Int) * 2 + 2) with
        | .error e => .error e
        | .ok lo =>
          ModBus.parseResponse_words signedChar payload m_requestedCount fuel
            ((i + 1) % 65536) (data ++ [ModBus.parseResponse_word signedChar hi lo])
    else .ok data

/-- Function `ModBus::parseResponse`.  The `switch` is written as a chain of tests;
the cases 5 to 16 and `default` do nothing. -/
def ModBus.parseResponse (signedChar : Bool) (s : ModBus) (telegramID : quint64)
    (slaveAddress functionCode : quint8) (payload : QByteArray) : Except Fault ModBus :=
  if functionCode = 1 ∨ functionCode = 2 then
    let dataStartAddress := s.m_requestedDataStartAddress
    if payload.length < 1 then .ok s
    else
      match payload.at 0 with
      | .error e => .error e
      | .ok bytes =>
        if payload.length ≠ bytes.val + 1 then .ok s
        else
          match ModBus.parseResponse_bits signedChar payload s.m_requestedCount
              (8 * payload.length + 1) 0 0 [] with
          | .error e => .error e
          | .ok on_ =>
            if functionCode = 1 then
              .ok (s.emit (.signal_coilsRead telegramID slaveAddress dataStartAddress on_))
            else if functionCode = 2 then
              .ok (s.emit (.signal_discreteInputsRead telegramID slaveAddress dataStartAddress on_))
            else .ok s
  else if functionCode = 3 ∨ functionCode = 4 then
    let dataStartAddress := s.m_requestedDataStartAddress
    if payload.length < 1 then .ok s
    else
      match payload.at 0 with
      | .error e => .error e
      | .ok bytes =>
        if payload.length ≠ bytes.val + 1 then .ok s
        else if payload.length ≠ s.m_requestedCount.val * 2 + 1 then .ok s
        else
          match ModBus.parseResponse_words signedChar payload s.m_requestedCount
              (s.m_requestedCount.val + 1) 0 [] with
          | .error e => .error e
          | .ok data =>
            if functionCode = 3 then
              .ok (s.emit (.signal_holdingRegistersRead telegramID slaveAddress dataStartAddress data))
            else if functionCode = 4 then
              .ok (s.emit (.signal_inputRegistersRead telegramID slaveAddress dataStartAddress data))
            else .ok s
  else .ok s

/-- The part of `ModBus::tryToParseResponseRaw` after `if (exception)` is taken, for the
current telegram `cur`. -/
def ModBus.tryToParseResponseRaw_exception (s : ModBus) (cur : ModBusTelegram) :
    Except Fault ModBus :=
  let buffer := s.m_readBuffer
  if buffer.length < 5 then .ok s
  else
    match buffer.at 2 with
    | .error e => .error e
    | .ok exceptionCode =>
      match ModBus.checksumOK buffer with
      | .error e => .error e
      | .ok ok =>
        if !ok then
          .ok { s with m_readBuffer := [], m_crc_errors := toQuint64 (s.m_crc_errors.val + 1) }
        else
          let s := { s with m_requestTimer := false }
          let s := { s with m_rx_telegrams := toQuint64 (s.m_rx_telegrams.val + 1) }
          let s := s.emit (.signal_exception cur.getID exceptionCode)
          let s := s.emit (.signal_responseRawComplete cur.getID buffer)
          let s := s.emit .signal_transactionFinished
          .ok { s with m_readBuffer := [] }

/-- The part of `ModBus::tryToParseResponseRaw` after the `if (exception)` block, for
the current telegram `cur`. -/
def ModBus.tryToParseResponseRaw_normal (signedChar : Bool) (s : ModBus) (cur : ModBusTelegram)
    (address functionCode : quint8) : Except Fault ModBus :=
  let buffer := s.m_readBuffer
  if buffer.length > 255 then .ok { s with m_readBuffer := [] }
  else
    match ModBus.checksumOK buffer with
    | .error e => .error e
    | .ok ok =>
      if !ok then
        .ok { s with m_readBuffer := [], m_crc_errors := toQuint64 (s.m_crc_errors.val + 1) }
      else
        let s := { s with m_requestTimer := false }
        let s := { s with m_rx_telegrams := toQuint64 (s.m_rx_telegrams.val + 1) }
        let data := buffer.mid 2 ((buffer.length : Int) - 4)
        let s := s.emit (.signal_responseRawComplete cur.getID buffer)
        let s := s.emit (.signal_responseRaw cur.getID address functionCode data)
        match ModBus.parseResponse signedChar s cur.getID address functionCode data with
        | .error e => .error e
        | .ok s =>
          let s := s.emit .signal_transactionFinished
          .ok { s with m_readBuffer := [] }

/-- Function `ModBus::tryToParseResponseRaw`, called on `&m_readBuffer` (its only call
site). -/
def ModBus.tryToParseResponseRaw (signedChar : Bool) (s : ModBus) : Except Fault ModBus :=
  let buffer := s.m_readBuffer
  if buffer.length < 4 then .ok s
  else
    match s.m_currentTelegram with
    | none => .ok { s with m_readBuffer := [] }
    | some cur =>
      match buffer.at 0 with
      | .error e => .error e
      | .ok address =>
        match buffer.at 1 with
        | .error e => .error e
        | .ok fc =>
          let functionCode := toChar (intAnd (charValue signedChar fc) 0x7F)
          let exception : Bool := decide (intAnd (charValue signedChar fc) 0x80 ≠ 0)
          if exception then ModBus.tryToParseResponseRaw_exception s cur
          else ModBus.tryToParseResponseRaw_normal signedChar s cur address functionCode

/-! ## Slots and the operations of the engine -/

/-- Function `ModBus::slot_readyRead`; `incoming` are the bytes the port holds. -/
def ModBus.slot_readyRead (s : ModBus) (incoming : QByteArray) : ModBus :=
  incoming.foldl
    (fun s c => { s with m_readBuffer := s.m_readBuffer ++ [c], m_rxIdleTimer := true }) s

/-- Function `ModBus::slot_requestTimer_fired`. -/
def ModBus.slot_requestTimer_fired (s : ModBus) : Except Fault ModBus :=
  match s.m_currentTelegram with
  | none => .error .nullPointer
  | some cur =>
    let s := if cur.needsAnswer then s.emit (.signal_transactionLost cur.getID) else s
    .ok (s.emit .signal_transactionFinished)

/-- Function `ModBus::slot_rxIdleTimer_fired`. -/
def ModBus.slot_rxIdleTimer_fired (signedChar : Bool) (s : ModBus) : Except Fault ModBus :=
  ModBus.tryToParseResponseRaw signedChar s

/-- Function `ModBus::close`. -/
def ModBus.close (s : ModBus) : ModBus := { s with portOpen := false }

/-- The operations that change the engine.  `requestContext` stands for the
assignments to `m_requestedCount`, `m_requestedDataAddress` and
`m_requestedDataStartAddress` that the request functions make before they queue
their telegram. -/
inductive Operation where
  | writeTelegramToQueue (telegram : ModBusTelegram)
  | slot_tryToSendNextTelegram
  | requestTimerExpiry
  | decoderRun
  | readyRead (incoming : QByteArray)
  | requestContext (count dataAddress dataStartAddress : quint16)
  | openPort (openOK : Bool)
  | closePort

/-- One operation.  A single-shot timer is inactive when its slot runs.  No operation
is guarded here, so the states reached are a superset of those the event loop can
reach. -/
def ModBus.step (signedChar : Bool) (s : ModBus) : Operation → Except Fault ModBus
  | .writeTelegramToQueue telegram =>
    match ModBus.writeTelegramToQueue s telegram with
    | .error e => .error e
    | .ok r => .ok r.2
  | .slot_tryToSendNextTelegram =>
    ModBus.slot_tryToSendNextTelegram { s with m_delayTxTimer := false }
  | .requestTimerExpiry => ModBus.slot_requestTimer_fired { s with m_requestTimer := false }
  | .decoderRun => ModBus.slot_rxIdleTimer_fired signedChar { s with m_rxIdleTimer := false }
  | .readyRead incoming => .ok (ModBus.slot_readyRead s incoming)
  | .requestContext count dataAddress dataStartAddress =>
    .ok { s with m_requestedCount := count, m_requestedDataAddress := dataAddress,
                 m_requestedDataStartAddress := dataStartAddress }
  | .openPort openOK => .ok (ModBus.open s openOK)
  | .closePort => .ok (ModBus.close s)

/-- The states reached from the constructed engine by operations that return. -/
inductive ModBus.Reachable (signedChar : Bool) : ModBus → Prop where
  | ctor : ModBus.Reachable signedChar ModBus.ctor
  | step (s s' : ModBus) (op : Operation) :
      ModBus.Reachable signedChar s → ModBus.step signedChar s op = .ok s' →
      ModBus.Reachable signedChar s'

/-- The operations of a list, run in order from `s`; the first fault ends the run. -/
def ModBus.run (signedChar : Bool) (s : ModBus) : List Operation → Except Fault ModBus
  | [] => .ok s
  | op :: ops =>
    match ModBus.step signedChar s op with
    | .error e => .error e
    | .ok s => ModBus.run signedChar s ops

/-! ## Vocabulary of the specification -/

/-- Coil `k` of a read-coils PDU `[byte_count][data bytes]`: bit `k mod 8`, counted from
the least significant bit, of PDU byte `1 + k div 8`. -/
def coilBit (payload : QByteArray) (k : Nat) : Bool :=
  (payload.getD (1 + k / 8) 0).val.testBit (k % 8)

/-- Whether a signal is a decoded read event (`signal_coilsRead`,
`signal_discreteInputsRead`, `signal_holdingRegistersRead`, `signal_inputRegistersRead`)
of telegram `id`. -/
def Signal.isDecodedFor (id : quint64) : Signal → Bool
  | .signal_coilsRead i _ _ _ => decide (i = id)
  | .signal_discreteInputsRead i _ _ _ => decide (i = id)
  | .signal_holdingRegistersRead i _ _ _ => decide (i = id)
  | .signal_inputRegistersRead i _ _ _ => decide (i = id)
  | _ => false

/-- Whether a signal is `signal_exception` of telegram `id`. -/
def Signal.isExceptionFor (id : quint64) : Signal → Bool
  | .signal_exception i _ => decide (i = id)
  | _ => false

/-- Whether a signal is `signal_responseRawComplete` of telegram `id`. -/
def Signal.isRawCompleteFor (id : quint64) : Signal → Bool
  | .signal_responseRawComplete i _ => decide (i = id)
  | _ => false

/-- The ordering the specification states for the signals `es` of one decoder run:
every decoded event and every exception event of telegram `id` has a `raw_complete`
of `id` before it, and `transaction_finished` is the last signal. -/
def eventOrder (id : quint64) (es : List Signal) : Prop :=
  (∀ (pre post : List Signal) (e : Signal), es = pre ++ e :: post →
    (e.isDecodedFor id = true ∨ e.isExceptionFor id = true) →
    ∃ r ∈ pre, r.isRawCompleteFor id = true) ∧
  es.getLast? = some .signal_transactionFinished

/-- Whether the event loop can run an operation in state `s`: a timer slot runs only
while its timer is active; calls from the application and byte arrival are always
possible. -/
def Operation.enabled (s : ModBus) : Operation → Bool
  | .slot_tryToSendNextTelegram => s.m_delayTxTimer
  | .requestTimerExpiry => s.m_requestTimer
  | .decoderRun => s.m_rxIdleTimer
  | _ => true

/-- Whether every operation of a list is enabled at the moment the event loop reaches
it, when the list is run from `s`. -/
def ModBus.loopEnabled (signedChar : Bool) (s : ModBus) : List Operation → Bool
  | [] => true
  | op :: ops =>
    op.enabled s &&
      match ModBus.step signedChar s op with
      | .error _ => false
      | .ok s => ModBus.loopEnabled signedChar s ops

/-- The operations of `n` attempts that each end by request-timer expiry:
`slot_tryToSendNextTelegram` followed by the expiry, `n` times. -/
def ModBus.lostAttempts : Nat → List Operation
  | 0 => []
  | n + 1 => .slot_tryToSendNextTelegram :: .requestTimerExpiry :: ModBus.lostAttempts n

/-- The frame `writeTelegramNow` hands to `writeTelegramRawNow` for a telegram. -/
def ModBusTelegram.frame (t : ModBusTelegram) : Except Fault QByteArray :=
  ModBus.writeTelegramRawNow_out t.slaveAddress t.functionCode t.data

/-- Whether a signal is `signal_transactionLost`. -/
def Signal.isTransactionLost : Signal → Bool
  | .signal_transactionLost _ => true
  | _ => false

/-- The engine after the telegram `(slave 1, function 3, payload 00 10 00 02, id 1)` was
queued on the constructed engine: the telegram is current, its repeat budget is used,
the request timer runs and, the port being closed, nothing was written. -/
def ModBus.sample_awaitingReply : ModBus :=
  { ModBus.ctor with
    m_transactionPending := true, m_requestTimer := true,
    m_currentTelegram := some (ModBusTelegram.mk 1 3 [0x00, 0x10, 0x00, 0x02] 0 1) }

/-- Whether an operation is `slot_tryToSendNextTelegram`. -/
def Operation.isTrySend : Operation → Bool
  | .slot_tryToSendNextTelegram => true
  | _ => false

/-- Function `ModBus::readDiscreteInputs`; callers that omit `functionCode` pass `0x02`. -/
def ModBus.readDiscreteInputs (s : ModBus) (ids : TelegramIds) (slaveAddress : quint8)
    (dataStartAddress count : quint16) (functionCode : quint8) :
    Except Fault (quint64 × ModBus × TelegramIds) :=
  let payload : QByteArray := []
  let payload := payload ++ [toChar (dataStartAddress.val >>> 8)]
  let payload := payload ++ [toChar (dataStartAddress.val &&& 0xff)]
  let payload := payload ++ [toChar (count.val >>> 8)]
  let payload := payload ++ [toChar (count.val &&& 0xff)]
  let s := { s with m_requestedCount := count }
  let s := { s with m_requestedDataStartAddress := dataStartAddress }
  let r := ModBusTelegram.ctor_data slaveAddress functionCode payload ids
  match ModBus.writeTelegramToQueue s r.1 with
  | .error e => .error e
  | .ok q => .ok (q.1, q.2, r.2)

/-- Function `ModBus::readInputRegisters`; `count` is a `quint8` here, and callers that
omit `functionCode` pass `0x04`. -/
def ModBus.readInputRegisters (s : ModBus) (ids : TelegramIds) (slaveAddress : quint8)
    (dataStartAddress : quint16) (count : quint8) (functionCode : quint8) :
    Except Fault (quint64 × ModBus × TelegramIds) :=
  let payload : QByteArray := []
  let payload := payload ++ [toChar (dataStartAddress.val >>> 8)]
  let payload := payload ++ [toChar (dataStartAddress.val &&& 0xff)]
  let payload := payload ++ [toChar (count.val >>> 8)]
  let payload := payload ++ [toChar (count.val &&& 0xff)]
  let s := { s with m_requestedCount := toQuint16 count.val }
  let s := { s with m_requestedDataStartAddress := dataStartAddress }
  let r := ModBusTelegram.ctor_data slaveAddress functionCode payload ids
  match ModBus.writeTelegramToQueue s r.1 with
  | .error e => .error e
  | .ok q => .ok (q.1, q.2, r.2)

/-- The `while (!data.isEmpty())` loop of `ModBus::writeMultipleRegisters`: every pass
takes the first word off the list and appends its high byte, then its low byte. -/
def ModBus.writeMultipleRegisters_loop (payload : QByteArray) : List quint16 → QByteArray
  | [] => payload
  | word :: data =>
    let payload := payload ++ [toChar (word.val >>> 8)]
    let payload := payload ++ [toChar (word.val &&& 0xff)]
    ModBus.writeMultipleRegisters_loop payload data

/-- The value of the local `payload` of `ModBus::writeMultipleRegisters` when the
telegram is constructed.  `quint16 count = data.count()` reduces the length modulo
`2^16`, and `unsigned char bytes = count * 2` reduces the product modulo `2^8`. -/
def ModBus.writeMultipleRegisters_payload (dataStartAddress : quint16) (data : List quint16) :
    QByteArray :=
  let payload : QByteArray := []
  let count := toQuint16 data.length
  let payload := payload ++ [toChar (dataStartAddress.val >>> 8)]
  let payload := payload ++ [toChar (dataStartAddress.val &&& 0xff)]
  let payload := payload ++ [toChar (count.val >>> 8)]
  let payload := payload ++ [toChar (count.val &&& 0xff)]
  let bytes := toChar (count.val * 2)
  let payload := payload ++ [bytes]
  ModBus.writeMultipleRegisters_loop payload data

/-- Function `ModBus::writeMultipleRegisters`; callers that omit `functionCode` pass
`0x10`. -/
def ModBus.writeMultipleRegisters (s : ModBus) (ids : TelegramIds) (slaveAddress : quint8)
    (dataStartAddress : quint16) (data : List quint16) (functionCode : quint8) :
    Except Fault (quint64 × ModBus × TelegramIds) :=
  let count := toQuint16 data.length
  let s := { s with m_requestedCount := count }
  let s := { s with m_requestedDataStartAddress := dataStartAddress }
  let payload := ModBus.writeMultipleRegisters_payload dataStartAddress data
  let r := ModBusTelegram.ctor_data slaveAddress functionCode payload ids
  match ModBus.writeTelegramToQueue s r.1 with
  | .error e => .error e
  | .ok q => .ok (q.1, q.2, r.2)

/-- The `while (!on.isEmpty())` loop of `ModBus::writeMultipleCoils` with `quint8 bit`,
`quint8 byte` and the local `payload`; the result is their values when the loop ends. -/
def ModBus.writeMultipleCoils_loop : List Bool → Nat → Nat → QByteArray → Nat × Nat × QByteArray
  | [], bit, byte, payload => (bit, byte, payload)
  | c :: on_, bit, byte, payload =>
    let byte := if c then (byte + (1 <<< bit)) % 256 else byte
    let bit := (bit + 1) % 256
    if bit = 8 then ModBus.writeMultipleCoils_loop on_ 0 0 (payload ++ [toChar byte])
    else ModBus.writeMultipleCoils_loop on_ bit byte payload

/-- The value of the local `payload` of `ModBus::writeMultipleCoils` when the telegram is
constructed.  `quint16 count = on.count()` reduces the length modulo `2^16`, and
`unsigned char bytes` holds `count / 8`, plus 1 when `count % 8 != 0`, modulo `2^8`. -/
def ModBus.writeMultipleCoils_payload (dataStartAddress : quint16) (on_ : List Bool) :
    QByteArray :=
  let payload : QByteArray := []
  let count := toQuint16 on_.length
  let payload := payload ++ [toChar (dataStartAddress.val >>> 8)]
  let payload := payload ++ [toChar (dataStartAddress.val &&& 0xff)]
  let payload := payload ++ [toChar (count.val >>> 8)]
  let payload := payload ++ [toChar (count.val &&& 0xff)]
  let bytes := toChar (count.val / 8)
  let bytes := if count.val % 8 ≠ 0 then toChar (bytes.val + 1) else bytes
  let payload := payload ++ [bytes]
  let r := ModBus.writeMultipleCoils_loop on_ 0 0 payload
  if r.1 ≠ 0 then r.2.2 ++ [toChar r.2.1] else r.2.2

/-- Function `ModBus::writeMultipleCoils`; callers that omit `functionCode` pass `0x0f`. -/
def ModBus.writeMultipleCoils (s : ModBus) (ids : TelegramIds) (slaveAddress : quint8)
    (dataStartAddress : quint16) (on_ : List Bool) (functionCode : quint8) :
    Except Fault (quint64 × ModBus × TelegramIds) :=
  let count := toQuint16 on_.length
  let s := { s with m_requestedCount := count }
  let s := { s with m_requestedDataStartAddress := dataStartAddress }
  let payload := ModBus.writeMultipleCoils_payload dataStartAddress on_
  let r := ModBusTelegram.ctor_data slaveAddress functionCode payload ids
  match ModBus.writeTelegramToQueue s r.1 with
  | .error e => .error e
  | .ok q => .ok (q.1, q.2, r.2)

/-- The byte that packs eight coils, the first in the least significant bit. -/
def coilsToByte (b0 b1 b2 b3 b4 b5 b6 b7 : Bool) : quint8 :=
  toChar (b0.toNat + 2 * b1.toNat + 4 * b2.toNat + 8 * b3.toNat + 16 * b4.toNat
    + 32 * b5.toNat + 64 * b6.toNat + 128 * b7.toNat)

/-- Data byte `j` of a list of coils as the specification words it: bit `i` of the byte,
counted from the least significant bit, is coil `8 * j + i`, and a bit without a coil
is 0. -/
def coilsByte (on_ : List Bool) (j : Nat) : quint8 :=
  coilsToByte (on_.getD (8 * j) false) (on_.getD (8 * j + 1) false)
    (on_.getD (8 * j + 2) false) (on_.getD (8 * j + 3) false) (on_.getD (8 * j + 4) false)
    (on_.getD (8 * j + 5) false) (on_.getD (8 * j + 6) false) (on_.getD (8 * j + 7) false)

/-- What the specification states of a read request `call` for a slave address, a
function code, a start address and a count: the call is the submission, through
`writeTelegramToQueue`, of a telegram with that slave address and function code whose
payload is exactly the four bytes `start >> 8`, `start & 0xFF`, `count >> 8`,
`count & 0xFF`, made after `count` and `start` were recorded in the last-request context;
whenever the call returns, it returns the telegram's id and the context still holds
`count` and `start`; and the call returns when a transaction is pending or the engine is
idle with an empty queue. -/
def ModBus.buildsReadRequest
    (call : ModBus → TelegramIds → Except Fault (quint64 × ModBus × TelegramIds))
    (slaveAddress functionCode : quint8) (start count : Nat) : Prop :=
  ∀ (s : ModBus) (ids : TelegramIds),
    call s ids
      = (ModBus.writeTelegramToQueue
          { s with m_requestedCount := toQuint16 count,
                   m_requestedDataStartAddress := toQuint16 start }
          (ModBusTelegram.mk slaveAddress functionCode
            [toChar (start >>> 8), toChar (start &&& 0xFF),
             toChar (count >>> 8), toChar (count &&& 0xFF)] 1 ids.idData)).map
        (fun q => (q.1, q.2, { ids with idData := TelegramIds.advance ids.idData })) ∧
    (∀ r, call s ids = .ok r →
      r.1 = ids.idData ∧ r.2.1.m_requestedCount.val = count ∧
      r.2.1.m_requestedDataStartAddress.val = start) ∧
    (s.m_transactionPending = true ∨
        (s.m_currentTelegram = none ∧ s.m_telegramQueue = []) →
      ∃ r, call s ids = .ok r)

/-- The values of the index `i` of the loop of `ModBus::checksum` at the successive
evaluations of the loop condition `i < data.length()`, starting from the value `i`:
the same test and the same increment modulo `2^16` as in `checksum_loop`, for at most
`fuel` evaluations. -/
def ModBus.checksum_indices (data : QByteArray) : Nat → Nat → List Nat
  | 0, _ => []
  | fuel + 1, i =>
    if i < data.length then i :: ModBus.checksum_indices data fuel ((i + 1) % 65536)
    else [i]

/-- The states the engine reaches on its event loop: from the constructed engine, by
operations that return, each of them enabled when it runs (a timer slot runs only while
its timer is active). -/
inductive ModBus.LoopReachable (signedChar : Bool) : ModBus → Prop where
  | ctor : ModBus.LoopReachable signedChar ModBus.ctor
  | step (s s' : ModBus) (op : Operation) :
      ModBus.LoopReachable signedChar s → op.enabled s = true →
      ModBus.step signedChar s op = .ok s' → ModBus.LoopReachable signedChar s'

/-- The bookkeeping of the timers on the event loop: while the request timer is active a
telegram is current; while the delay timer is active the request timer is not; and
while no transaction is pending no telegram is current and the delay timer is not
active. -/
def ModBus.timerInv (s : ModBus) : Prop :=
  (s.m_requestTimer = true → s.m_currentTelegram.isSome = true) ∧
  (s.m_delayTxTimer = true → s.m_requestTimer = false) ∧
  (s.m_transactionPending = false →
    s.m_currentTelegram = none ∧ s.m_delayTxTimer = false)

/-! ## Theorems -/

theorem checksum_bit_step (crc : Nat) (h : crc < 65536) :
    (if decide ((crc &&& 0x001) ≠ 0) then ((crc >>> 1) ^^^ 0xA001) % 65536 else crc >>> 1)
      = crc16_spec_shift crc := by
  have h1 : crc &&& 1 = crc % 2 := Nat.and_one_is_mod crc
  have h2 : crc >>> 1 = crc / 2 := by simp [Nat.shiftRight_eq_div_pow]
  have h3 : (crc / 2) ^^^ 0xA001 < 2 ^ 16 := Nat.xor_lt_two_pow (by omega) (by norm_num)
  unfold crc16_spec_shift
  rw [h1, h2]
  by_cases hc : crc % 2 = 1
  · have : crc % 2 ≠ 0 := by omega
    simp only [this, hc, ne_eq, not_false_eq_true, decide_True, if_true]
    exact Nat.mod_eq_of_lt h3
  · have : crc % 2 = 0 := by omega
    simp [this]

theorem crc16_shift_lt (reg : Nat) (h : reg < 65536) : crc16_spec_shift reg < 65536 := by
  unfold crc16_spec_shift
  split
  · exact Nat.xor_lt_two_pow (n := 16) (by omega) (by norm_num)
  · omega

theorem crc16_shift_iterate_lt (n reg : Nat) (h : reg < 65536) : crc16_spec_shift^[n] reg < 65536 := by
  induction n generalizing reg with
  | zero => simpa using h
  | succ n ih => rw [Function.iterate_succ_apply]; exact ih _ (crc16_shift_lt reg h)

theorem checksum_bits_eq (n crc : Nat) (h : crc < 65536) :
    ModBus.checksum_bits n crc = crc16_spec_shift^[n] crc := by
  induction n generalizing crc with
  | zero => rfl
  | succ n ih =>
    rw [Function.iterate_succ_apply]
    unfold ModBus.checksum_bits
    simp only []
    rw [checksum_bit_step crc h]
    exact ih _ (crc16_shift_lt crc h)

theorem checksum_merge_pow (crc d : Nat) (h : crc < 2 ^ 16) (hd : d < 2 ^ 8) :
    ((((crc >>> 8) % 2 ^ 8) <<< 8) ||| (((crc &&& (2 ^ 8 - 1)) ^^^ d) % 2 ^ 8)) % 2 ^ 16
      = crc ^^^ d := by
  apply Nat.eq_of_testBit_eq
  intro i
  simp only [Nat.testBit_mod_two_pow, Nat.testBit_or, Nat.testBit_shiftLeft, Nat.testBit_xor,
    Nat.testBit_and, Nat.testBit_two_pow_sub_one, Nat.testBit_shiftRight]
  by_cases h8 : i < 8
  · have : ¬ (8 ≤ i) := by omega
    have : i < 16 := by omega
    simp [*]
  · have h8' : 8 ≤ i := by omega
    have hdi : d.testBit i = false :=
      Nat.testBit_lt_two_pow (lt_of_lt_of_le hd (Nat.pow_le_pow_right (by norm_num) h8'))
    by_cases h16 : i < 16
    · have : i - 8 < 8 := by omega
      have : 8 + (i - 8) = i := by omega
      simp [*]
    · have hci : crc.testBit i = false :=
        Nat.testBit_lt_two_pow (lt_of_lt_of_le h
          (Nat.pow_le_pow_right (by norm_num) (by omega : 16 ≤ i)))
      simp [*]

theorem checksum_merge (crc : Nat) (d : quint8) (h : crc < 65536) :
    ((((crc >>> 8) % 256) <<< 8) ||| (((crc &&& 0xFF) ^^^ d.val) % 256)) % 65536 = crc ^^^ d.val :=
  checksum_merge_pow crc d.val h d.isLt

theorem checksum_byte_eq (crc : Nat) (d : quint8) (h : crc < 65536) :
    ModBus.checksum_byte crc d = crc16_spec_byte crc d := by
  unfold ModBus.checksum_byte crc16_spec_byte
  simp only []
  rw [checksum_merge crc d h]
  have hx : crc ^^^ d.val < 65536 :=
    Nat.xor_lt_two_pow (n := 16) (by simpa using h) (lt_trans d.isLt (by norm_num))
  exact checksum_bits_eq 8 _ hx

theorem crc16_byte_lt (reg : Nat) (b : quint8) (h : reg < 65536) : crc16_spec_byte reg b < 65536 := by
  unfold crc16_spec_byte
  exact crc16_shift_iterate_lt 8 _
    (Nat.xor_lt_two_pow (n := 16) (by simpa using h) (lt_trans b.isLt (by norm_num)))

theorem QByteArray.at_natCast (a : QByteArray) (i : Nat) (h : i < a.length) :
    a.at (i : Int) = .ok a[i] := by
  unfold QByteArray.at
  have h1 : (0 : Int) ≤ (i : Int) ∧ (i : Int) < (a.length : Int) := ⟨by omega, by omega⟩
  rw [if_pos h1]
  simp [List.get?_eq_getElem?, List.getElem?_eq_getElem h]

theorem checksum_loop_eq (data : QByteArray) (hlen : data.length ≤ 65535) :
    ∀ (fuel i crc : Nat), i ≤ data.length → data.length - i < fuel →
      ModBus.checksum_loop data fuel i crc = .ok ((data.drop i).foldl ModBus.checksum_byte crc) := by
  intro fuel
  induction fuel with
  | zero => intro i crc _ hf; omega
  | succ fuel ih =>
    intro i crc hi hf
    unfold ModBus.checksum_loop
    by_cases hlt : i < data.length
    · rw [if_pos hlt, QByteArray.at_natCast data i hlt]
      simp only []
      have hmod : (i + 1) % 65536 = i + 1 := Nat.mod_eq_of_lt (by omega)
      rw [hmod, ih (i + 1) _ (by omega) (by omega)]
      rw [List.drop_eq_getElem_cons hlt, List.foldl_cons]
    · rw [if_neg hlt]
      have : i = data.length := by omega
      subst this
      simp

theorem checksum_eq_foldl (data : QByteArray) (hlen : data.length ≤ 65535) :
    ModBus.checksum data = .ok (data.foldl ModBus.checksum_byte 0xffff) := by
  unfold ModBus.checksum
  rw [checksum_loop_eq data hlen (data.length + 1) 0 0xffff (by omega) (by omega)]
  simp

theorem foldl_checksum_byte_eq (l : QByteArray) :
    ∀ crc : Nat, crc < 65536 →
      l.foldl ModBus.checksum_byte crc = l.foldl crc16_spec_byte crc ∧ l.foldl crc16_spec_byte crc < 65536 := by
  induction l with
  | nil => intro crc h; exact ⟨rfl, h⟩
  | cons b l ih =>
    intro crc h
    rw [List.foldl_cons, List.foldl_cons, checksum_byte_eq crc b h]
    exact ih _ (crc16_byte_lt crc b h)

theorem crc16_lt (data : QByteArray) : crc16_spec data < 65536 :=
  (foldl_checksum_byte_eq data 0xFFFF (by norm_num)).2

theorem checksum_eq_crc16 (data : QByteArray) (hlen : data.length ≤ 65535) :
    ModBus.checksum data = .ok (crc16_spec data) := by
  rw [checksum_eq_foldl data hlen]
  unfold crc16_spec
  rw [(foldl_checksum_byte_eq data 0xffff (by norm_num)).1]

theorem QByteArray.at_append_lo (body : QByteArray) (lo hi : quint8) :
    QByteArray.at (body ++ [lo, hi]) (((body ++ [lo, hi]).length : Int) - 2) = .ok lo := by
  have e : (((body ++ [lo, hi]).length : Int) - 2) = ((body.length : Nat) : Int) := by
    simp
  rw [e, QByteArray.at_natCast _ _ (by simp)]
  simp [List.getElem_append_right]

theorem QByteArray.at_append_hi (body : QByteArray) (lo hi : quint8) :
    QByteArray.at (body ++ [lo, hi]) (((body ++ [lo, hi]).length : Int) - 1) = .ok hi := by
  have e : (((body ++ [lo, hi]).length : Int) - 1) = ((body.length + 1 : Nat) : Int) := by
    simp; omega
  rw [e, QByteArray.at_natCast _ _ (by simp)]
  simp [List.getElem_append_right]

theorem QByteArray.remove_append_two (body : QByteArray) (lo hi : quint8) :
    QByteArray.remove (body ++ [lo, hi]) (((body ++ [lo, hi]).length : Int) - 2) 2 = body := by
  have e : (((body ++ [lo, hi]).length : Int) - 2) = ((body.length : Nat) : Int) := by
    simp
  unfold QByteArray.remove
  rw [e]
  have h1 : (0 : Int) ≤ (body.length : Int) ∧ (body.length : Int) < ((body ++ [lo, hi]).length : Int) := by
    constructor
    · omega
    · simp
  rw [if_pos h1]
  have e2 : ((body.length : Int) + 2).toNat = body.length + 2 := by omega
  rw [e2, Int.toNat_ofNat]
  simp [List.take_append_eq_append_take, List.drop_append_eq_append_drop]

theorem ModBus.checksumOK_append (body : QByteArray) (lo hi : quint8) (h : body.length ≤ 65535) :
    ModBus.checksumOK (body ++ [lo, hi])
      = .ok (decide (crc16_spec body = (lo.val ||| (hi.val <<< 8)) % 65536)) := by
  unfold ModBus.checksumOK
  rw [QByteArray.at_append_lo, QByteArray.at_append_hi]
  simp only []
  rw [QByteArray.remove_append_two, checksum_eq_crc16 body h]

theorem and_255_eq_mod (n : Nat) : n &&& 0xFF = n % 256 :=
  Nat.and_pow_two_sub_one_eq_mod n 8

theorem shiftRight_8_eq_div (n : Nat) : n >>> 8 = n / 256 :=
  Nat.shiftRight_eq_div_pow n 8

theorem lo_or_hi_shift (lo hi : Nat) (hlo : lo < 256) : lo ||| (hi <<< 8) = lo + 256 * hi := by
  rw [Nat.shiftLeft_eq, Nat.or_comm, Nat.mul_comm]
  have key := Nat.mul_add_lt_is_or (i := 8) (b := lo) (by simpa using hlo) hi
  rw [← key]
  omega

theorem crc_trailer_value (cs : Nat) (h : cs < 65536) :
    ((toChar (cs &&& 0xFF)).val ||| ((toChar (cs >>> 8)).val <<< 8)) % 65536 = cs := by
  unfold toChar
  simp only [and_255_eq_mod, shiftRight_8_eq_div]
  rw [lo_or_hi_shift _ _ (by omega)]
  omega

theorem ModBus.writeTelegramRawNow_out_eq (slaveAddress functionCode : quint8) (data : QByteArray)
    (h : data.length ≤ 65533) :
    ModBus.writeTelegramRawNow_out slaveAddress functionCode data
      = .ok (slaveAddress :: functionCode :: data ++
          [toChar (crc16_spec (slaveAddress :: functionCode :: data) &&& 0xFF),
           toChar (crc16_spec (slaveAddress :: functionCode :: data) >>> 8)]) := by
  unfold ModBus.writeTelegramRawNow_out
  simp only [List.nil_append, List.singleton_append, List.cons_append]
  rw [checksum_eq_crc16 _ (by simp; omega)]
  simp

/-- C1. CRC round trip: for every slave address, function code and payload of at most
252 bytes, `writeTelegramRawNow` builds a frame (address, function code, payload,
checksum low byte, checksum high byte) and `checksumOK` accepts that frame. -/
theorem ModBus.checksumOK_writeTelegramRawNow (slaveAddress functionCode : quint8)
    (data : QByteArray) (h : data.length ≤ 252) :
    ∃ out, ModBus.writeTelegramRawNow_out slaveAddress functionCode data = .ok out ∧
      out.take (data.length + 2) = slaveAddress :: functionCode :: data ∧
      out.length = data.length + 4 ∧
      ModBus.checksumOK out = .ok true := by
  refine ⟨_, ModBus.writeTelegramRawNow_out_eq slaveAddress functionCode data (by omega),
    ?_, by simp, ?_⟩
  · have : data.length + 2 = (slaveAddress :: functionCode :: data).length := by simp
    rw [this, List.take_left]
  have hb : (slaveAddress :: functionCode :: data).length ≤ 65535 := by simp; omega
  have key := ModBus.checksumOK_append (slaveAddress :: functionCode :: data)
    (toChar (crc16_spec (slaveAddress :: functionCode :: data) &&& 0xFF))
    (toChar (crc16_spec (slaveAddress :: functionCode :: data) >>> 8)) hb
  rw [crc_trailer_value _ (crc16_lt _)] at key
  simpa using key

set_option maxRecDepth 100000 in
/-- C1 at the read-holding-registers request of scenario 1. -/
theorem ModBus.checksumOK_writeTelegramRawNow_witness :
    ([0x00, 0x10, 0x00, 0x02] : QByteArray).length ≤ 252 ∧
    ∃ out, ModBus.writeTelegramRawNow_out 1 3 [0x00, 0x10, 0x00, 0x02] = .ok out ∧
      out.take (([0x00, 0x10, 0x00, 0x02] : QByteArray).length + 2)
        = 1 :: 3 :: [0x00, 0x10, 0x00, 0x02] ∧
      out.length = ([0x00, 0x10, 0x00, 0x02] : QByteArray).length + 4 ∧
      ModBus.checksumOK out = .ok true :=
  ⟨by decide, ModBus.checksumOK_writeTelegramRawNow 1 3 [0x00, 0x10, 0x00, 0x02] (by decide)⟩

/-- C2. For every byte sequence of at most 65535 bytes, `checksum` returns the Modbus
CRC-16 of the reference definition `crc16_spec`: register `0xFFFF` at the start, each byte
XORed into the low byte, then eight right shifts, each followed by an XOR with
`0xA001` when the bit shifted out was 1. -/
theorem ModBus.checksum_eq_reference (data : QByteArray) (h : data.length ≤ 65535) :
    ModBus.checksum data = .ok (crc16_spec data) :=
  checksum_eq_crc16 data h

/-- C2 at the six bytes `01 03 00 10 00 02`. -/
theorem ModBus.checksum_eq_reference_witness :
    ([0x01, 0x03, 0x00, 0x10, 0x00, 0x02] : QByteArray).length ≤ 65535 ∧
    ModBus.checksum [0x01, 0x03, 0x00, 0x10, 0x00, 0x02]
      = .ok (crc16_spec [0x01, 0x03, 0x00, 0x10, 0x00, 0x02]) :=
  ⟨by decide, ModBus.checksum_eq_reference [0x01, 0x03, 0x00, 0x10, 0x00, 0x02] (by decide)⟩

theorem toChar_val_of_lt (n : Nat) (h : n < 256) : (toChar n).val = n := by
  unfold toChar
  exact Nat.mod_eq_of_lt h

theorem ModBus.writeTelegramRawNow_out_shape (slaveAddress functionCode : quint8)
    (data out : QByteArray)
    (h : ModBus.writeTelegramRawNow_out slaveAddress functionCode data = .ok out) :
    ∃ cs, ModBus.checksum (slaveAddress :: functionCode :: data) = .ok cs ∧
      out = slaveAddress :: functionCode :: data ++ [toChar (cs % 256), toChar (cs / 256)] := by
  unfold ModBus.writeTelegramRawNow_out at h
  simp only [List.nil_append, List.singleton_append, List.cons_append] at h
  cases hc : ModBus.checksum (slaveAddress :: functionCode :: data) with
  | error e => rw [hc] at h; cases h
  | ok cs =>
    rw [hc] at h
    refine ⟨cs, rfl, ?_⟩
    simp only [Except.ok.injEq] at h
    rw [← h, and_255_eq_mod, shiftRight_8_eq_div]
    simp

set_option maxRecDepth 100000 in
/-- C3. The frame handed to the serial port is address, function code, payload, CRC
low byte, CRC high byte, of length payload length + 4, where the CRC is `checksum` of
the first three parts: (1) for every payload of at most 65533 bytes
`writeTelegramRawNow` returns and, with the port open, appends exactly that frame to
the bytes written; (2) for every telegram, whatever frame it builds has that shape;
(3) `readHoldingRegisters(1, 0x0010, 2)` on a fresh engine with an open port writes
exactly `01 03 00 10 00 02 C5 CE`. -/
theorem ModBus.writeTelegramRawNow_frame :
    (∀ (s : ModBus) (slaveAddress functionCode : quint8) (data : QByteArray),
      data.length ≤ 65533 → s.portOpen = true →
      ∃ cs lo hi, ModBus.checksum (slaveAddress :: functionCode :: data) = .ok cs ∧
        lo.val = cs % 256 ∧ hi.val = cs / 256 ∧
        ModBus.writeTelegramRawNow s slaveAddress functionCode data
          = .ok { s with written :=
              s.written ++ [slaveAddress :: functionCode :: data ++ [lo, hi]] } ∧
        (slaveAddress :: functionCode :: data ++ [lo, hi]).length = data.length + 4) ∧
    (∀ (slaveAddress functionCode : quint8) (data out : QByteArray),
      ModBus.writeTelegramRawNow_out slaveAddress functionCode data = .ok out →
      ∃ cs, ModBus.checksum (slaveAddress :: functionCode :: data) = .ok cs ∧
        out = slaveAddress :: functionCode :: data ++ [toChar (cs % 256), toChar (cs / 256)] ∧
        out.length = data.length + 4) ∧
    ((ModBus.readHoldingRegisters (ModBus.ctor.open true) TelegramIds.start 1 0x0010 2 3).map
        (fun r => (r.2.1.written, r.2.1.m_currentTelegram))
      = .ok ([[0x01, 0x03, 0x00, 0x10, 0x00, 0x02, 0xC5, 0xCE]],
          some (ModBusTelegram.mk 1 3 [0x00, 0x10, 0x00, 0x02] 0 1))) := by
  refine ⟨?_, ?_, ?_⟩
  · intro s slaveAddress functionCode data hlen hopen
    have hcs := crc16_lt (slaveAddress :: functionCode :: data)
    refine ⟨crc16_spec (slaveAddress :: functionCode :: data),
      toChar (crc16_spec (slaveAddress :: functionCode :: data) &&& 0xFF),
      toChar (crc16_spec (slaveAddress :: functionCode :: data) >>> 8),
      checksum_eq_crc16 _ (by simp; omega), ?_, ?_, ?_, by simp⟩
    · rw [and_255_eq_mod]; exact toChar_val_of_lt _ (Nat.mod_lt _ (by decide))
    · rw [shiftRight_8_eq_div]; exact toChar_val_of_lt _ (by omega)
    · unfold ModBus.writeTelegramRawNow
      rw [ModBus.writeTelegramRawNow_out_eq slaveAddress functionCode data hlen]
      simp [hopen]
  · intro slaveAddress functionCode data out h
    obtain ⟨cs, h1, h2⟩ := ModBus.writeTelegramRawNow_out_shape slaveAddress functionCode data out h
    exact ⟨cs, h1, h2, by rw [h2]; simp⟩
  · decide

set_option maxRecDepth 100000 in
/-- C3 at the telegram of scenario 1, written through an open port. -/
theorem ModBus.writeTelegramRawNow_frame_witness :
    ∃ cs lo hi, ModBus.checksum (1 :: 3 :: [0x00, 0x10, 0x00, 0x02]) = .ok cs ∧
        lo.val = cs % 256 ∧ hi.val = cs / 256 ∧
        ModBus.writeTelegramRawNow (ModBus.ctor.open true) 1 3 [0x00, 0x10, 0x00, 0x02]
          = .ok { (ModBus.ctor.open true) with written :=
              (ModBus.ctor.open true).written ++ [1 :: 3 :: [0x00, 0x10, 0x00, 0x02] ++ [lo, hi]] } ∧
        (1 :: 3 :: ([0x00, 0x10, 0x00, 0x02] : QByteArray) ++ [lo, hi]).length
          = ([0x00, 0x10, 0x00, 0x02] : QByteArray).length + 4 :=
  ModBus.writeTelegramRawNow_frame.1 (ModBus.ctor.open true) 1 3 [0x00, 0x10, 0x00, 0x02]
    (by decide) (by decide)

/-! ### Decoding of register words -/

theorem ModBus.parseResponse_word_val (signedChar : Bool) (hi lo : quint8) :
    (ModBus.parseResponse_word signedChar hi lo).val
      = (256 * hi.val + lo.val
          + (if signedChar = true ∧ 128 ≤ lo.val then 65536 - 256 else 0)) % 65536 := by
  have hhi := hi.isLt
  have hlo := lo.isLt
  unfold ModBus.parseResponse_word toU16 toQuint16 charValue
  simp only [Fin.val_zero, Nat.cast_zero, zero_add]
  cases signedChar <;> by_cases h1 : 128 ≤ hi.val <;> by_cases h2 : 128 ≤ lo.val <;>
    simp [h1, h2] <;> omega

theorem ModBus.parseResponse_word_unsigned (hi lo : quint8) :
    (ModBus.parseResponse_word false hi lo).val = 256 * hi.val + lo.val := by
  have hhi := hi.isLt
  have hlo := lo.isLt
  rw [ModBus.parseResponse_word_val]
  simp
  omega

theorem ModBus.parseResponse_words_eq (signedChar : Bool) (payload : QByteArray)
    (m_requestedCount : quint16) (hlen : payload.length = m_requestedCount.val * 2 + 1) :
    ∀ (fuel i : Nat) (data : List quint16), i ≤ m_requestedCount.val →
      m_requestedCount.val - i < fuel →
      ModBus.parseResponse_words signedChar payload m_requestedCount fuel i data
        = .ok (data ++ (List.range' i (m_requestedCount.val - i)).map
            (fun k => ModBus.parseResponse_word signedChar
              (payload.getD (2 * k + 1) 0) (payload.getD (2 * k + 2) 0))) := by
  intro fuel
  induction fuel with
  | zero => intro i data _ hf; omega
  | succ fuel ih =>
    intro i data hi hf
    have hrc := m_requestedCount.isLt
    unfold ModBus.parseResponse_words
    by_cases hlt : i < m_requestedCount.val
    · rw [if_pos hlt]
      have e1 : (i : Int) * 2 + 1 = ((2 * i + 1 : Nat) : Int) := by push_cast; ring
      have e2 : (i : Int) * 2 + 2 = ((2 * i + 2 : Nat) : Int) := by push_cast; ring
      have b1 : 2 * i + 1 < payload.length := by omega
      have b2 : 2 * i + 2 < payload.length := by omega
      rw [e1, e2, QByteArray.at_natCast payload _ b1, QByteArray.at_natCast payload _ b2]
      simp only []
      have hmod : (i + 1) % 65536 = i + 1 := Nat.mod_eq_of_lt (by omega)
      rw [hmod, ih (i + 1) _ (by omega) (by omega)]
      have hr : m_requestedCount.val - i = (m_requestedCount.val - (i + 1)) + 1 := by omega
      rw [hr, List.range'_succ]
      simp [List.getD_eq_getElem?_getD, List.getElem?_eq_getElem b1, List.getElem?_eq_getElem b2]
    · rw [if_neg hlt]
      have : m_requestedCount.val - i = 0 := by omega
      rw [this]
      simp

/-- The words `case 3: case 4:` decodes from a PDU for `n` requested registers. -/
theorem ModBus.parseResponse_words_run (signedChar : Bool) (payload : QByteArray)
    (m_requestedCount : quint16) (hlen : payload.length = m_requestedCount.val * 2 + 1) :
    ModBus.parseResponse_words signedChar payload m_requestedCount (m_requestedCount.val + 1) 0 []
      = .ok ((List.range m_requestedCount.val).map
          (fun k => ModBus.parseResponse_word signedChar
            (payload.getD (2 * k + 1) 0) (payload.getD (2 * k + 2) 0))) := by
  rw [ModBus.parseResponse_words_eq signedChar payload m_requestedCount hlen _ 0 []
    (by omega) (by omega)]
  simp [List.range_eq_range']

theorem QByteArray.at_zero (a : QByteArray) (h : 1 ≤ a.length) :
    a.at 0 = .ok (a.getD 0 0) := by
  have := QByteArray.at_natCast a 0 (by omega)
  simp only [Nat.cast_zero] at this
  rw [this]
  simp [List.getD_eq_getElem?_getD, List.getElem?_eq_getElem (show 0 < a.length by omega)]

/-- What `parseResponse` does for function codes 3 and 4, on every PDU. -/
theorem ModBus.parseResponse_registers (signedChar : Bool) (s : ModBus) (telegramID : quint64)
    (slaveAddress functionCode : quint8) (payload : QByteArray)
    (hfc : functionCode = 3 ∨ functionCode = 4) :
    ModBus.parseResponse signedChar s telegramID slaveAddress functionCode payload
      = if 1 ≤ payload.length ∧ payload.length = (payload.getD 0 0).val + 1 ∧
            payload.length = s.m_requestedCount.val * 2 + 1 then
          .ok (s.emit
            ((if functionCode = 3 then Signal.signal_holdingRegistersRead
              else Signal.signal_inputRegistersRead)
              telegramID slaveAddress s.m_requestedDataStartAddress
              ((List.range s.m_requestedCount.val).map
                (fun k => ModBus.parseResponse_word signedChar
                  (payload.getD (2 * k + 1) 0) (payload.getD (2 * k + 2) 0)))))
        else .ok s := by
  have h12 : ¬ (functionCode = 1 ∨ functionCode = 2) := by
    rcases hfc with h | h <;> subst h <;> decide
  unfold ModBus.parseResponse
  rw [if_neg h12, if_pos hfc]
  by_cases h1 : payload.length < 1
  · have : ¬ (1 ≤ payload.length ∧ payload.length = (payload.getD 0 0).val + 1 ∧
        payload.length = s.m_requestedCount.val * 2 + 1) := by omega
    rw [if_pos h1, if_neg this]
  · rw [if_neg h1, QByteArray.at_zero payload (by omega)]
    simp only []
    by_cases h2 : payload.length = (payload.getD 0 0).val + 1
    · by_cases h3 : payload.length = s.m_requestedCount.val * 2 + 1
      · rw [if_neg (by simpa using h2), if_neg (by simpa using h3),
          if_pos ⟨by omega, h2, h3⟩, ModBus.parseResponse_words_run signedChar payload _ h3]
        rcases hfc with h | h <;> subst h <;> simp
      · rw [if_neg (by simpa using h2), if_pos (by simpa using h3), if_neg (by tauto)]
    · rw [if_pos (by simpa using h2), if_neg (by tauto)]

/-! ### Decoding of coil bits -/

set_option maxRecDepth 100000 in
theorem intAnd_charValue_bit :
    ∀ (signedChar : Bool) (c : quint8) (bit : Fin 8),
      decide (intAnd (charValue signedChar c) (1 <<< bit.val) ≠ 0) = c.val.testBit bit.val := by
  decide!

theorem ModBus.parseResponse_bits_eq (signedChar : Bool) (payload : QByteArray)
    (m_requestedCount : quint16) (hlen1 : 1 ≤ payload.length) (hlen : payload.length ≤ 256) :
    ∀ (fuel bit byte : Nat) (on_ : List Bool), bit < 8 →
      8 * byte + bit ≤ 8 * (payload.length - 1) →
      8 * (payload.length - 1) - (8 * byte + bit) < fuel →
      on_.length = 8 * byte + bit →
      ModBus.parseResponse_bits signedChar payload m_requestedCount fuel bit byte on_
        = .ok (on_ ++ (List.range' (8 * byte + bit)
            ((if 8 * byte + bit < m_requestedCount.val ∧
                  m_requestedCount.val ≤ 8 * (payload.length - 1)
              then m_requestedCount.val else 8 * (payload.length - 1)) - (8 * byte + bit))).map
            (coilBit payload)) := by
  intro fuel
  induction fuel with
  | zero => intro bit byte on_ _ _ hf _; omega
  | succ fuel ih =>
    intro bit byte on_ hbit hk hf hon
    unfold ModBus.parseResponse_bits
    by_cases hc : payload.length > byte + 1
    · rw [if_pos hc]
      have e1 : (byte : Int) + 1 = ((byte + 1 : Nat) : Int) := by push_cast; ring
      rw [e1, QByteArray.at_natCast payload _ hc]
      simp only []
      have hb := intAnd_charValue_bit signedChar payload[byte + 1] ⟨bit, hbit⟩
      simp only [] at hb
      have hcb : coilBit payload (8 * byte + bit) = payload[byte + 1].val.testBit bit := by
        unfold coilBit
        have d1 : (8 * byte + bit) / 8 = byte := by omega
        have d2 : (8 * byte + bit) % 8 = bit := by omega
        rw [d1, d2, Nat.add_comm 1 byte]
        simp [List.getD_eq_getElem?_getD, List.getElem?_eq_getElem hc]
      have hon' : (if intAnd (charValue signedChar payload[byte + 1]) (1 <<< bit) ≠ 0
          then on_ ++ [true] else on_ ++ [false]) = on_ ++ [coilBit payload (8 * byte + bit)] := by
        rw [hcb, ← hb]
        by_cases hz : intAnd (charValue signedChar payload[byte + 1]) (1 <<< bit) ≠ 0
        · simp [hz]
        · simp [hz]
      rw [hon']
      have hl : (on_ ++ [coilBit payload (8 * byte + bit)]).length = 8 * byte + bit + 1 := by
        simp [hon]
      rw [hl]
      by_cases hrc : 8 * byte + bit + 1 = m_requestedCount.val
      · rw [if_pos hrc]
        have hcond : 8 * byte + bit < m_requestedCount.val ∧
            m_requestedCount.val ≤ 8 * (payload.length - 1) := by omega
        rw [if_pos hcond]
        have : m_requestedCount.val - (8 * byte + bit) = 1 := by omega
        rw [this]
        simp
      · rw [if_neg hrc]
        have hmod : (bit + 1) % 65536 = bit + 1 := Nat.mod_eq_of_lt (by omega)
        simp only [hmod]
        have hstop : (if 8 * byte + bit < m_requestedCount.val ∧
              m_requestedCount.val ≤ 8 * (payload.length - 1)
            then m_requestedCount.val else 8 * (payload.length - 1)) - (8 * byte + bit)
            = ((if 8 * byte + bit + 1 < m_requestedCount.val ∧
              m_requestedCount.val ≤ 8 * (payload.length - 1)
            then m_requestedCount.val else 8 * (payload.length - 1)) - (8 * byte + bit + 1)) + 1 := by
          split <;> split <;> omega
        rw [hstop, List.range'_succ, List.map_cons]
        by_cases h8 : bit + 1 = 8
        · rw [if_pos h8]
          have hmb : (byte + 1) % 256 = byte + 1 := Nat.mod_eq_of_lt (by omega)
          rw [hmb]
          have hk' : 8 * (byte + 1) + 0 = 8 * byte + bit + 1 := by omega
          have := ih 0 (byte + 1) (on_ ++ [coilBit payload (8 * byte + bit)]) (by omega)
            (by omega) (by omega) (by rw [hl]; omega)
          rw [hk'] at this
          rw [this]
          simp
        · rw [if_neg h8]
          have hk' : 8 * byte + (bit + 1) = 8 * byte + bit + 1 := by omega
          have := ih (bit + 1) byte (on_ ++ [coilBit payload (8 * byte + bit)]) (by omega)
            (by omega) (by omega) (by rw [hl]; omega)
          rw [hk'] at this
          rw [this]
          simp
    · rw [if_neg hc]
      have hk0 : 8 * byte + bit = 8 * (payload.length - 1) := by omega
      have hcond : ¬ (8 * byte + bit < m_requestedCount.val ∧
            m_requestedCount.val ≤ 8 * (payload.length - 1)) := by omega
      rw [if_neg hcond, hk0]
      simp

/-- What `parseResponse` does for function codes 1 and 2, on every PDU. -/
theorem ModBus.parseResponse_coils (signedChar : Bool) (s : ModBus) (telegramID : quint64)
    (slaveAddress functionCode : quint8) (payload : QByteArray)
    (hfc : functionCode = 1 ∨ functionCode = 2) :
    ModBus.parseResponse signedChar s telegramID slaveAddress functionCode payload
      = if 1 ≤ payload.length ∧ payload.length = (payload.getD 0 0).val + 1 then
          .ok (s.emit
            ((if functionCode = 1 then Signal.signal_coilsRead
              else Signal.signal_discreteInputsRead)
              telegramID slaveAddress s.m_requestedDataStartAddress
              ((List.range
                (if 0 < s.m_requestedCount.val ∧
                    s.m_requestedCount.val ≤ 8 * (payload.length - 1)
                 then s.m_requestedCount.val else 8 * (payload.length - 1))).map
                (coilBit payload))))
        else .ok s := by
  unfold ModBus.parseResponse
  rw [if_pos hfc]
  by_cases h1 : payload.length < 1
  · have : ¬ (1 ≤ payload.length ∧ payload.length = (payload.getD 0 0).val + 1) := by omega
    rw [if_pos h1, if_neg this]
  · rw [if_neg h1, QByteArray.at_zero payload (by omega)]
    simp only []
    by_cases h2 : payload.length = (payload.getD 0 0).val + 1
    · have hb := (payload.getD 0 0).isLt
      rw [if_neg (by simpa using h2), if_pos ⟨by omega, h2⟩,
        ModBus.parseResponse_bits_eq signedChar payload s.m_requestedCount (by omega) (by omega)
          _ 0 0 [] (by omega) (by omega) (by omega) (by simp)]
      rcases hfc with h | h <;> subst h <;> simp [List.range_eq_range']
    · rw [if_pos (by simpa using h2), if_neg (by tauto)]

/-! ### Claims C4 and C5 -/

/-- The register words are big-endian unsigned values where plain `char` is unsigned,
and also where it is signed as long as every low byte is below `0x80`: for function
codes 3 and 4, `n` requested registers and a PDU of length `2n+1` whose first byte is
`2n`, a list of exactly `n` words is emitted and word `i` is
`256 * PDU[2i+1] + PDU[2i+2]`. -/
theorem ModBus.parseResponse_registers_big_endian (signedChar : Bool) (s : ModBus)
    (telegramID : quint64) (slaveAddress functionCode : quint8) (payload : QByteArray)
    (hfc : functionCode = 3 ∨ functionCode = 4)
    (hlen : payload.length = s.m_requestedCount.val * 2 + 1)
    (hbc : (payload.getD 0 0).val = 2 * s.m_requestedCount.val)
    (hlow : signedChar = true →
      ∀ i, i < s.m_requestedCount.val → (payload.getD (2 * i + 2) 0).val < 128) :
    ∃ data : List quint16,
      ModBus.parseResponse signedChar s telegramID slaveAddress functionCode payload
        = .ok (s.emit
            ((if functionCode = 3 then Signal.signal_holdingRegistersRead
              else Signal.signal_inputRegistersRead)
              telegramID slaveAddress s.m_requestedDataStartAddress data)) ∧
      data.length = s.m_requestedCount.val ∧
      ∀ i, i < s.m_requestedCount.val →
        (data.getD i 0).val
          = 256 * (payload.getD (2 * i + 1) 0).val + (payload.getD (2 * i + 2) 0).val := by
  refine ⟨(List.range s.m_requestedCount.val).map
    (fun k => ModBus.parseResponse_word signedChar
      (payload.getD (2 * k + 1) 0) (payload.getD (2 * k + 2) 0)), ?_, ?_, ?_⟩
  · rw [ModBus.parseResponse_registers signedChar s telegramID slaveAddress functionCode payload
      hfc, if_pos ⟨by omega, by omega, hlen⟩]
  · simp
  · intro i hi
    have h1 := (payload.getD (2 * i + 1) 0).isLt
    have h2 := (payload.getD (2 * i + 2) 0).isLt
    rw [List.getD_eq_getElem?_getD, List.getElem?_map, List.getElem?_range hi]
    simp only [Option.map_some', Option.getD_some]
    rw [ModBus.parseResponse_word_val]
    by_cases hs : signedChar = true
    · have := hlow hs i hi
      rw [if_neg (by omega)]
      omega
    · rw [if_neg (by tauto)]
      omega

set_option maxRecDepth 100000 in
/-- C4. Where plain `char` is signed, the read-holding-registers reply
`01 03 02 01 80 B8 74` to `readHoldingRegisters(1, 0x0010, 1)` is decoded to the word
`0x0080`, not to `256 * 0x01 + 0x80 = 0x0180`: the low byte `0x80` is sign-extended
before it is added.  The reply `04 00 0A 00 14` of the claim is decoded to `[10, 20]`. -/
theorem ModBus.parseResponse_word_sign_extended :
    (((ModBus.readHoldingRegisters (ModBus.ctor.open true) TelegramIds.start 1 0x0010 1 3).bind
        (fun r => ModBus.run true r.2.1
          [.readyRead [0x01, 0x03, 0x02, 0x01, 0x80, 0xB8, 0x74], .decoderRun])).map
        (fun s => s.emitted)
      = .ok [.signal_responseRawComplete 1 [0x01, 0x03, 0x02, 0x01, 0x80, 0xB8, 0x74],
             .signal_responseRaw 1 1 3 [0x02, 0x01, 0x80],
             .signal_holdingRegistersRead 1 1 0x0010 [0x0080],
             .signal_transactionFinished]) ∧
    (0x0080 : quint16).val ≠ 256 * (0x01 : quint8).val + (0x80 : quint8).val ∧
    (((ModBus.readHoldingRegisters (ModBus.ctor.open true) TelegramIds.start 1 0x0010 2 3).bind
        (fun r => ModBus.run true r.2.1
          [.readyRead [0x01, 0x03, 0x04, 0x00, 0x0A, 0x00, 0x14, 0xDA, 0x3E], .decoderRun])).map
        (fun s => s.emitted)
      = .ok [.signal_responseRawComplete 1 [0x01, 0x03, 0x04, 0x00, 0x0A, 0x00, 0x14, 0xDA, 0x3E],
             .signal_responseRaw 1 1 3 [0x04, 0x00, 0x0A, 0x00, 0x14],
             .signal_holdingRegistersRead 1 1 0x0010 [10, 20],
             .signal_transactionFinished]) := by
  refine ⟨?_, ?_, ?_⟩ <;> decide

set_option maxRecDepth 100000 in
/-- The register decoding at the reply `04 00 0A 00 14` for two requested registers. -/
theorem ModBus.parseResponse_registers_big_endian_witness :
    ∃ data : List quint16,
      ModBus.parseResponse true
          { ModBus.ctor with m_requestedCount := 2, m_requestedDataStartAddress := 0x0010 }
          1 1 3 [0x04, 0x00, 0x0A, 0x00, 0x14]
        = .ok (ModBus.emit
            { ModBus.ctor with m_requestedCount := 2, m_requestedDataStartAddress := 0x0010 }
            ((if (3 : quint8) = 3 then Signal.signal_holdingRegistersRead
              else Signal.signal_inputRegistersRead) 1 1 0x0010 data)) ∧
      data.length = 2 ∧
      ∀ i, i < 2 →
        (data.getD i 0).val
          = 256 * (([0x04, 0x00, 0x0A, 0x00, 0x14] : QByteArray).getD (2 * i + 1) 0).val
            + (([0x04, 0x00, 0x0A, 0x00, 0x14] : QByteArray).getD (2 * i + 2) 0).val :=
  ModBus.parseResponse_registers_big_endian true
    { ModBus.ctor with m_requestedCount := 2, m_requestedDataStartAddress := 0x0010 }
    1 1 3 [0x04, 0x00, 0x0A, 0x00, 0x14] (by decide) (by decide) (by decide) (by decide)

set_option maxRecDepth 100000 in
/-- C5, counterexample.  After `readCoils(1, 0, 16)` the reply `01 01 01 A5 91 F3`,
whose PDU `01 A5` has first byte 1 = length - 1, makes `parseResponse` emit 8 booleans,
not the 16 requested; after `readCoils(1, 0, 0)` the same reply makes it emit 8
booleans, not 0. -/
theorem ModBus.parseResponse_coils_not_requestedCount :
    (((ModBus.readCoils (ModBus.ctor.open true) TelegramIds.start 1 0 16 1).bind
        (fun r => ModBus.run true r.2.1
          [.readyRead [0x01, 0x01, 0x01, 0xA5, 0x91, 0xF3], .decoderRun])).map
        (fun s => s.emitted)
      = .ok [.signal_responseRawComplete 1 [0x01, 0x01, 0x01, 0xA5, 0x91, 0xF3],
             .signal_responseRaw 1 1 1 [0x01, 0xA5],
             .signal_coilsRead 1 1 0 [true, false, true, false, false, true, false, true],
             .signal_transactionFinished]) ∧
    [true, false, true, false, false, true, false, true].length ≠ 16 ∧
    (((ModBus.readCoils (ModBus.ctor.open true) TelegramIds.start 1 0 0 1).bind
        (fun r => ModBus.run true r.2.1
          [.readyRead [0x01, 0x01, 0x01, 0xA5, 0x91, 0xF3], .decoderRun])).map
        (fun s => s.emitted)
      = .ok [.signal_responseRawComplete 1 [0x01, 0x01, 0x01, 0xA5, 0x91, 0xF3],
             .signal_responseRaw 1 1 1 [0x01, 0xA5],
             .signal_coilsRead 1 1 0 [true, false, true, false, false, true, false, true],
             .signal_transactionFinished]) ∧
    [true, false, true, false, false, true, false, true].length ≠ 0 := by
  refine ⟨?_, ?_, ?_, ?_⟩ <;> decide

/-- C5, amended.  For function codes 1 and 2, every requested count of at least 1 and
every PDU whose first byte equals its length minus 1, `parseResponse` emits one list of
`min(requested_count, 8 * (length - 1))` booleans, so exactly `requested_count` of them
when the PDU carries that many bits; boolean `i` is bit `i mod 8`, counted from the
least significant bit, of PDU byte `1 + i div 8`. -/
theorem ModBus.parseResponse_coils_amended (signedChar : Bool) (s : ModBus)
    (telegramID : quint64) (slaveAddress functionCode : quint8) (payload : QByteArray)
    (hfc : functionCode = 1 ∨ functionCode = 2)
    (hlen : 1 ≤ payload.length)
    (hbc : (payload.getD 0 0).val = payload.length - 1)
    (hrc : 1 ≤ s.m_requestedCount.val) :
    ∃ on_ : List Bool,
      ModBus.parseResponse signedChar s telegramID slaveAddress functionCode payload
        = .ok (s.emit
            ((if functionCode = 1 then Signal.signal_coilsRead
              else Signal.signal_discreteInputsRead)
              telegramID slaveAddress s.m_requestedDataStartAddress on_)) ∧
      on_.length = min s.m_requestedCount.val (8 * (payload.length - 1)) ∧
      (s.m_requestedCount.val ≤ 8 * (payload.length - 1) →
        on_.length = s.m_requestedCount.val) ∧
      ∀ i, i < on_.length →
        on_.getD i false = (payload.getD (1 + i / 8) 0).val.testBit (i % 8) := by
  have hcount : (if 0 < s.m_requestedCount.val ∧
        s.m_requestedCount.val ≤ 8 * (payload.length - 1)
      then s.m_requestedCount.val else 8 * (payload.length - 1))
      = min s.m_requestedCount.val (8 * (payload.length - 1)) := by
    split <;> omega
  refine ⟨(List.range (min s.m_requestedCount.val (8 * (payload.length - 1)))).map
    (coilBit payload), ?_, ?_, ?_, ?_⟩
  · rw [ModBus.parseResponse_coils signedChar s telegramID slaveAddress functionCode payload hfc,
      if_pos ⟨hlen, by omega⟩, hcount]
  · simp
  · intro h
    simp only [List.length_map, List.length_range]
    omega
  · intro i hi
    simp only [List.length_map, List.length_range] at hi
    rw [List.getD_eq_getElem?_getD, List.getElem?_map, List.getElem?_range hi]
    rfl

set_option maxRecDepth 100000 in
/-- C5 (amended) at the PDU `01 A5` with three coils requested. -/
theorem ModBus.parseResponse_coils_amended_witness :
    ∃ on_ : List Bool,
      ModBus.parseResponse true { ModBus.ctor with m_requestedCount := 3 } 1 1 1 [0x01, 0xA5]
        = .ok (ModBus.emit { ModBus.ctor with m_requestedCount := 3 }
            ((if (1 : quint8) = 1 then Signal.signal_coilsRead
              else Signal.signal_discreteInputsRead) 1 1 0 on_)) ∧
      on_.length = min 3 (8 * (([0x01, 0xA5] : QByteArray).length - 1)) ∧
      ((3 : Nat) ≤ 8 * (([0x01, 0xA5] : QByteArray).length - 1) → on_.length = 3) ∧
      ∀ i, i < on_.length →
        on_.getD i false = (([0x01, 0xA5] : QByteArray).getD (1 + i / 8) 0).val.testBit (i % 8) :=
  ModBus.parseResponse_coils_amended true { ModBus.ctor with m_requestedCount := 3 } 1 1 1
    [0x01, 0xA5] (by decide) (by decide) (by decide) (by decide)

/-! ### Claims C6 and C7: telegram ids -/

/-- C6. Each constructor has a counter of its own: the first telegram built by
`ModBusTelegram()` and the first built by `ModBusTelegram(quint8, quint8, QByteArray)`
both get id 1, so two constructions already yield equal ids. -/
theorem Construction.ids_not_distinct :
    Construction.ids TelegramIds.start [.noArgs, .withData] = [1, 1] ∧
    (ModBusTelegram.ctor 0 0 TelegramIds.start).1.getID
      = (ModBusTelegram.ctor_data 1 3 [0x00, 0x10, 0x00, 0x02]
          (ModBusTelegram.ctor 0 0 TelegramIds.start).2).1.getID ∧
    ¬ (Construction.ids TelegramIds.start [.noArgs, .withData]).Nodup := by
  refine ⟨?_, ?_, ?_⟩ <;> decide

theorem TelegramIds.advance_val (id : quint64) :
    (TelegramIds.advance id).val = if id.val = 2 ^ 64 - 1 then 1 else id.val + 1 := by
  have h := id.isLt
  unfold TelegramIds.advance toQuint64
  by_cases hmax : id.val = 2 ^ 64 - 1
  · rw [if_pos hmax]
    have h0 : (id.val + 1) % 2 ^ 64 = 0 := by omega
    have : (⟨(id.val + 1) % 2 ^ 64, Nat.mod_lt _ (by decide)⟩ : quint64) = 0 := by
      apply Fin.ext
      simpa using h0
    simp only [this, if_true]
    rfl
  · rw [if_neg hmax]
    have h0 : (id.val + 1) % 2 ^ 64 = id.val + 1 := Nat.mod_eq_of_lt (by omega)
    have hne : (⟨(id.val + 1) % 2 ^ 64, Nat.mod_lt _ (by decide)⟩ : quint64) ≠ 0 := by
      intro hc
      have := congrArg Fin.val hc
      simp only [Fin.val_zero] at this
      omega
    simp only [hne, if_false]
    exact h0

theorem TelegramIds.advance_ne_zero (id : quint64) : TelegramIds.advance id ≠ 0 := by
  intro hc
  have h := TelegramIds.advance_val id
  rw [hc] at h
  simp only [Fin.val_zero] at h
  split at h <;> omega

theorem Construction.ids_ne_zero (cs : List Construction) :
    ∀ ids : TelegramIds, ids.idDefault ≠ 0 → ids.idData ≠ 0 →
      ∀ id ∈ Construction.ids ids cs, id ≠ 0 := by
  induction cs with
  | nil => intro ids _ _ id hid; simp [Construction.ids] at hid
  | cons c cs ih =>
    intro ids h1 h2 id hid
    unfold Construction.ids at hid
    rcases List.mem_cons.mp hid with h | h
    · subst h
      cases c
      · exact h1
      · exact h2
    · cases c
      · exact ih (Construction.run ids .noArgs).2 (TelegramIds.advance_ne_zero _) h2 id h
      · exact ih (Construction.run ids .withData).2 h1 (TelegramIds.advance_ne_zero _) id h

theorem Construction.ids_withData_eq (n : Nat) :
    ∀ ids : TelegramIds, ids.idData.val + n ≤ 2 ^ 64 →
      Construction.ids ids (List.replicate n .withData)
        = (List.range' ids.idData.val n).map toQuint64 := by
  induction n with
  | zero => intro ids _; rfl
  | succ n ih =>
    intro ids h
    have hlt := ids.idData.isLt
    rw [List.replicate_succ, Construction.ids, List.range'_succ, List.map_cons]
    have hhead : (Construction.run ids .withData).1 = toQuint64 ids.idData.val := by
      apply Fin.ext
      show ids.idData.val = ids.idData.val % 2 ^ 64
      exact (Nat.mod_eq_of_lt hlt).symm
    rw [hhead]
    cases n with
    | zero => rfl
    | succ m =>
      have hadv : (Construction.run ids .withData).2.idData.val = ids.idData.val + 1 := by
        show (TelegramIds.advance ids.idData).val = ids.idData.val + 1
        rw [TelegramIds.advance_val, if_neg (by omega)]
      rw [ih (Construction.run ids .withData).2 (by rw [hadv]; omega), hadv]

/-- The ids issued by the three-argument constructor alone are pairwise distinct for up
to `2^64 - 1` constructions. -/
theorem Construction.ids_withData_nodup (n : Nat) (h : n < 2 ^ 64) :
    (Construction.ids TelegramIds.start (List.replicate n .withData)).Nodup := by
  rw [Construction.ids_withData_eq n TelegramIds.start (by
    show (1 : quint64).val + n ≤ 2 ^ 64
    have : (1 : quint64).val = 1 := rfl
    omega)]
  apply List.Nodup.map_on
  · intro a ha b hb hab
    have h1 : (1 : quint64).val = 1 := rfl
    simp only [TelegramIds.start, List.mem_range'_1, h1] at ha hb
    have := congrArg Fin.val hab
    simp only [toQuint64] at this
    rw [Nat.mod_eq_of_lt (by omega), Nat.mod_eq_of_lt (by omega)] at this
    exact this
  · exact List.nodup_range' _ _

/-- C7. Telegram ids are never 0: both counters start at 1; in every sequence of
constructions every telegram's id is nonzero; the id a constructor issues is its
counter, the other constructor's counter is left alone, and the next id of the same
constructor is the id just issued plus 1, or 1 when the id just issued was
`2^64 - 1`. -/
theorem TelegramIds.ids_nonzero_and_successive :
    TelegramIds.start.idDefault = 1 ∧ TelegramIds.start.idData = 1 ∧
    (∀ cs : List Construction, ∀ id ∈ Construction.ids TelegramIds.start cs, id ≠ 0) ∧
    (∀ (ids : TelegramIds) (a f a' f' : quint8),
      (ModBusTelegram.ctor a f ids).1.getID = ids.idDefault ∧
      (ModBusTelegram.ctor a f ids).2.idData = ids.idData ∧
      (ModBusTelegram.ctor a' f' (ModBusTelegram.ctor a f ids).2).1.getID.val
        = if (ModBusTelegram.ctor a f ids).1.getID.val = 2 ^ 64 - 1 then 1
          else (ModBusTelegram.ctor a f ids).1.getID.val + 1) ∧
    (∀ (ids : TelegramIds) (a f a' f' : quint8) (d d' : QByteArray),
      (ModBusTelegram.ctor_data a f d ids).1.getID = ids.idData ∧
      (ModBusTelegram.ctor_data a f d ids).2.idDefault = ids.idDefault ∧
      (ModBusTelegram.ctor_data a' f' d' (ModBusTelegram.ctor_data a f d ids).2).1.getID.val
        = if (ModBusTelegram.ctor_data a f d ids).1.getID.val = 2 ^ 64 - 1 then 1
          else (ModBusTelegram.ctor_data a f d ids).1.getID.val + 1) := by
  refine ⟨rfl, rfl, ?_, ?_, ?_⟩
  · intro cs
    exact Construction.ids_ne_zero cs TelegramIds.start (by decide) (by decide)
  · intro ids a f a' f'
    exact ⟨rfl, rfl, TelegramIds.advance_val ids.idDefault⟩
  · intro ids a f a' f' d d'
    exact ⟨rfl, rfl, TelegramIds.advance_val ids.idData⟩

/-- C7 at three constructions, the second of them with the default constructor. -/
theorem TelegramIds.ids_nonzero_and_successive_witness :
    (2 : quint64) ∈ Construction.ids TelegramIds.start [.withData, .noArgs, .withData] ∧
    (2 : quint64) ≠ 0 :=
  ⟨by decide, TelegramIds.ids_nonzero_and_successive.2.2.1 [.withData, .noArgs, .withData] 2
    (by decide)⟩

/-! ### The decoder: accepted frames -/

set_option maxRecDepth 100000 in
theorem intAnd_charValue_0x80 :
    ∀ (signedChar : Bool) (c : quint8),
      decide (intAnd (charValue signedChar c) 0x80 ≠ 0) = decide (128 ≤ c.val) := by
  decide!

set_option maxRecDepth 100000 in
theorem intAnd_charValue_0x7F :
    ∀ (signedChar : Bool) (c : quint8),
      toChar (intAnd (charValue signedChar c) 0x7F) = toChar (c.val &&& 0x7F) := by
  decide!

theorem QByteArray.at_getD (a : QByteArray) (i : Nat) (h : i < a.length) :
    a.at (i : Int) = .ok (a.getD i 0) := by
  rw [QByteArray.at_natCast a i h]
  simp [List.getD_eq_getElem?_getD, List.getElem?_eq_getElem h]

theorem ModBus.emit_decoded (s : ModBus) (sig : Signal)
    (h : sig ≠ .signal_transactionFinished) :
    s.emit sig = { s with emitted := s.emitted ++ [sig] } := by
  unfold ModBus.emit
  simp [h]

theorem ModBus.emit_transactionFinished (s : ModBus) :
    s.emit .signal_transactionFinished
      = { s with emitted := s.emitted ++ [.signal_transactionFinished],
                 m_delayTxTimer := true } := by
  unfold ModBus.emit
  simp

theorem ModBus.emit_decoded_exists (s : ModBus) (telegramID : quint64) (sig : Signal)
    (h : sig.isDecodedFor telegramID = true) :
    ∃ decoded : List Signal,
      (Except.ok (s.emit sig) : Except Fault ModBus)
        = .ok { s with emitted := s.emitted ++ decoded } ∧
      decoded.length ≤ 1 ∧ ∀ e ∈ decoded, e.isDecodedFor telegramID = true := by
  refine ⟨[sig], ?_, by simp, ?_⟩
  · rw [ModBus.emit_decoded]
    intro hc
    subst hc
    simp [Signal.isDecodedFor] at h
  · intro e he
    simp only [List.mem_singleton] at he
    subst he
    exact h

/-- Function `parseResponse` returns on every input; it emits at most one signal, a
decoded read event of the telegram, and changes nothing else. -/
theorem ModBus.parseResponse_emits (signedChar : Bool) (s : ModBus) (telegramID : quint64)
    (slaveAddress functionCode : quint8) (payload : QByteArray) :
    ∃ decoded : List Signal,
      ModBus.parseResponse signedChar s telegramID slaveAddress functionCode payload
        = .ok { s with emitted := s.emitted ++ decoded } ∧
      decoded.length ≤ 1 ∧ ∀ e ∈ decoded, e.isDecodedFor telegramID = true := by
  by_cases h12 : functionCode = 1 ∨ functionCode = 2
  · rw [ModBus.parseResponse_coils signedChar s telegramID slaveAddress functionCode payload h12]
    split
    · apply ModBus.emit_decoded_exists
      split <;> simp [Signal.isDecodedFor]
    · exact ⟨[], by simp, by simp, by simp⟩
  · by_cases h34 : functionCode = 3 ∨ functionCode = 4
    · rw [ModBus.parseResponse_registers signedChar s telegramID slaveAddress functionCode
        payload h34]
      split
      · apply ModBus.emit_decoded_exists
        split <;> simp [Signal.isDecodedFor]
      · exact ⟨[], by simp, by simp, by simp⟩
    · refine ⟨[], ?_, by simp, by simp⟩
      unfold ModBus.parseResponse
      rw [if_neg h12, if_neg h34]
      simp

theorem QByteArray.at_one (a : QByteArray) (h : 2 ≤ a.length) : a.at 1 = .ok (a.getD 1 0) := by
  have := QByteArray.at_getD a 1 (by omega)
  simpa using this

theorem QByteArray.at_two (a : QByteArray) (h : 3 ≤ a.length) : a.at 2 = .ok (a.getD 2 0) := by
  have := QByteArray.at_getD a 2 (by omega)
  simpa using this

/-- The decoder on an exception frame that passes the CRC check. -/
theorem ModBus.tryToParseResponseRaw_exception_accepted (signedChar : Bool) (s : ModBus)
    (cur : ModBusTelegram) (hcur : s.m_currentTelegram = some cur)
    (hlen : 5 ≤ s.m_readBuffer.length) (hexc : 128 ≤ (s.m_readBuffer.getD 1 0).val)
    (hcrc : ModBus.checksumOK s.m_readBuffer = .ok true) :
    ModBus.tryToParseResponseRaw signedChar s
      = .ok { s with
          m_readBuffer := [], m_requestTimer := false, m_delayTxTimer := true,
          m_rx_telegrams := toQuint64 (s.m_rx_telegrams.val + 1),
          emitted := s.emitted ++
            [.signal_exception cur.getID (s.m_readBuffer.getD 2 0),
             .signal_responseRawComplete cur.getID s.m_readBuffer,
             .signal_transactionFinished] } := by
  unfold ModBus.tryToParseResponseRaw
  simp only []
  rw [if_neg (by omega), hcur]
  simp only []
  rw [QByteArray.at_zero _ (by omega), QByteArray.at_one _ (by omega)]
  simp only [intAnd_charValue_0x80, decide_eq_true_eq]
  rw [if_pos hexc]
  unfold ModBus.tryToParseResponseRaw_exception
  simp only []
  rw [if_neg (by omega), QByteArray.at_two _ (by omega), hcrc]
  simp [ModBus.emit, hcur]

/-- The decoder on a normal frame that passes the CRC check. -/
theorem ModBus.tryToParseResponseRaw_normal_accepted (signedChar : Bool) (s : ModBus)
    (cur : ModBusTelegram) (hcur : s.m_currentTelegram = some cur)
    (hlen : 4 ≤ s.m_readBuffer.length) (hmax : s.m_readBuffer.length ≤ 255)
    (hexc : (s.m_readBuffer.getD 1 0).val < 128)
    (hcrc : ModBus.checksumOK s.m_readBuffer = .ok true) :
    ∃ decoded : List Signal,
      ModBus.tryToParseResponseRaw signedChar s
        = .ok { s with
            m_readBuffer := [], m_requestTimer := false, m_delayTxTimer := true,
            m_rx_telegrams := toQuint64 (s.m_rx_telegrams.val + 1),
            emitted := s.emitted ++
              [.signal_responseRawComplete cur.getID s.m_readBuffer,
               .signal_responseRaw cur.getID (s.m_readBuffer.getD 0 0)
                 (toChar ((s.m_readBuffer.getD 1 0).val &&& 0x7F))
                 ((s.m_readBuffer.drop 2).take (s.m_readBuffer.length - 4))] ++
              decoded ++ [.signal_transactionFinished] } ∧
      decoded.length ≤ 1 ∧ ∀ e ∈ decoded, e.isDecodedFor cur.getID = true := by
  unfold ModBus.tryToParseResponseRaw
  simp only []
  rw [if_neg (by omega), hcur]
  simp only []
  rw [QByteArray.at_zero _ (by omega), QByteArray.at_one _ (by omega)]
  simp only [intAnd_charValue_0x80, intAnd_charValue_0x7F, decide_eq_true_eq]
  rw [if_neg (by omega)]
  unfold ModBus.tryToParseResponseRaw_normal
  simp only []
  rw [if_neg (by omega), hcrc]
  simp only [Bool.not_true, Bool.false_eq_true, if_false]
  obtain ⟨decoded, hp, hl, hd⟩ := ModBus.parseResponse_emits signedChar
    (({ s with m_requestTimer := false,
               m_rx_telegrams := toQuint64 (s.m_rx_telegrams.val + 1) } : ModBus).emit
        (.signal_responseRawComplete cur.getID s.m_readBuffer) |>.emit
        (.signal_responseRaw cur.getID (s.m_readBuffer.getD 0 0)
          (toChar ((s.m_readBuffer.getD 1 0).val &&& 0x7F))
          (QByteArray.mid s.m_readBuffer 2 ((s.m_readBuffer.length : Int) - 4))))
    cur.getID (s.m_readBuffer.getD 0 0) (toChar ((s.m_readBuffer.getD 1 0).val &&& 0x7F))
    (QByteArray.mid s.m_readBuffer 2 ((s.m_readBuffer.length : Int) - 4))
  refine ⟨decoded, ?_, hl, hd⟩
  rw [hp]
  have hmid : QByteArray.mid s.m_readBuffer 2 ((s.m_readBuffer.length : Int) - 4)
      = (s.m_readBuffer.drop 2).take (s.m_readBuffer.length - 4) := by
    unfold QByteArray.mid
    rw [if_neg (by omega)]
    have : ((s.m_readBuffer.length : Int) - 4).toNat = s.m_readBuffer.length - 4 := by omega
    rw [this]
    rfl
  simp [ModBus.emit, hmid, hcur]

/-! ### Claims C9 and C10: signals of an accepted frame -/

/-- C10. Exception path: for every buffer of at least 5 bytes whose second byte has the
high bit set and whose CRC verifies, with current telegram `cur`, the decoder returns,
stops the request timer, increments the 64-bit counter `rx_telegrams` (by exactly 1
below `2^64 - 1`), leaves `crc_errors` alone, emits exactly `exception(id, buffer[2])`,
`raw_complete(id, buffer)`, `transaction_finished` in this order, none of them a
decoded read event, and leaves the buffer empty. -/
theorem ModBus.tryToParseResponseRaw_exception_path (signedChar : Bool) (s : ModBus)
    (cur : ModBusTelegram) (hcur : s.m_currentTelegram = some cur)
    (hlen : 5 ≤ s.m_readBuffer.length) (hexc : 128 ≤ (s.m_readBuffer.getD 1 0).val)
    (hcrc : ModBus.checksumOK s.m_readBuffer = .ok true) :
    ∃ s', ModBus.tryToParseResponseRaw signedChar s = .ok s' ∧
      s'.m_requestTimer = false ∧
      s'.m_rx_telegrams.val = (s.m_rx_telegrams.val + 1) % 2 ^ 64 ∧
      (s.m_rx_telegrams.val < 2 ^ 64 - 1 → s'.m_rx_telegrams.val = s.m_rx_telegrams.val + 1) ∧
      s'.m_crc_errors = s.m_crc_errors ∧
      s'.emitted = s.emitted ++
        [.signal_exception cur.getID (s.m_readBuffer.getD 2 0),
         .signal_responseRawComplete cur.getID s.m_readBuffer,
         .signal_transactionFinished] ∧
      (∀ e ∈ [Signal.signal_exception cur.getID (s.m_readBuffer.getD 2 0),
              Signal.signal_responseRawComplete cur.getID s.m_readBuffer,
              Signal.signal_transactionFinished], ∀ id, e.isDecodedFor id = false) ∧
      s'.m_readBuffer = [] := by
  refine ⟨_, ModBus.tryToParseResponseRaw_exception_accepted signedChar s cur hcur hlen hexc hcrc,
    rfl, rfl, ?_, rfl, rfl, ?_, rfl⟩
  · intro h
    show (s.m_rx_telegrams.val + 1) % 2 ^ 64 = s.m_rx_telegrams.val + 1
    exact Nat.mod_eq_of_lt (by omega)
  · intro e he id
    simp only [List.mem_cons, List.mem_singleton, List.not_mem_nil, or_false] at he
    rcases he with h | h | h <;> subst h <;> rfl

set_option maxRecDepth 100000 in
/-- C10 at the exception reply `01 83 02 C0 F1` to the telegram with id 1. -/
theorem ModBus.tryToParseResponseRaw_exception_path_witness :
    ∃ s', ModBus.tryToParseResponseRaw true
        { ModBus.ctor with m_currentTelegram := some (ModBusTelegram.mk 1 3 [0, 16, 0, 2] 0 1),
                           m_readBuffer := [0x01, 0x83, 0x02, 0xC0, 0xF1] } = .ok s' ∧
      s'.m_requestTimer = false ∧
      s'.m_rx_telegrams.val = ((0 : quint64).val + 1) % 2 ^ 64 ∧
      ((0 : quint64).val < 2 ^ 64 - 1 → s'.m_rx_telegrams.val = (0 : quint64).val + 1) ∧
      s'.m_crc_errors = 0 ∧
      s'.emitted = [] ++
        [.signal_exception 1 0x02,
         .signal_responseRawComplete 1 [0x01, 0x83, 0x02, 0xC0, 0xF1],
         .signal_transactionFinished] ∧
      (∀ e ∈ [Signal.signal_exception 1 0x02,
              Signal.signal_responseRawComplete 1 [0x01, 0x83, 0x02, 0xC0, 0xF1],
              Signal.signal_transactionFinished], ∀ id, e.isDecodedFor id = false) ∧
      s'.m_readBuffer = [] :=
  ModBus.tryToParseResponseRaw_exception_path true
    { ModBus.ctor with m_currentTelegram := some (ModBusTelegram.mk 1 3 [0, 16, 0, 2] 0 1),
                       m_readBuffer := [0x01, 0x83, 0x02, 0xC0, 0xF1] }
    (ModBusTelegram.mk 1 3 [0, 16, 0, 2] 0 1) rfl (by decide) (by decide) (by decide)

set_option maxRecDepth 100000 in
/-- C9, counterexample.  After `readHoldingRegisters(1, 0x0010, 2)` the exception reply
`01 83 02 C0 F1` is accepted and the decoder emits `exception(1, 2)` first and
`raw_complete` second: no `raw_complete` comes before the exception event. -/
theorem ModBus.tryToParseResponseRaw_exception_precedes_rawComplete :
    (((ModBus.readHoldingRegisters (ModBus.ctor.open true) TelegramIds.start 1 0x0010 2 3).bind
        (fun r => ModBus.run true r.2.1
          [.readyRead [0x01, 0x83, 0x02, 0xC0, 0xF1], .decoderRun])).map
        (fun s => s.emitted)
      = .ok [.signal_exception 1 0x02,
             .signal_responseRawComplete 1 [0x01, 0x83, 0x02, 0xC0, 0xF1],
             .signal_transactionFinished]) ∧
    ¬ eventOrder 1 [.signal_exception 1 0x02,
             .signal_responseRawComplete 1 [0x01, 0x83, 0x02, 0xC0, 0xF1],
             .signal_transactionFinished] := by
  refine ⟨by decide, ?_⟩
  intro h
  obtain ⟨r, hr, _⟩ := h.1 [] _ (.signal_exception 1 0x02) rfl (Or.inr rfl)
  simp at hr

/-- C9, amended.  In every decoder run that accepts a frame for the current telegram,
`transaction_finished` is the last signal emitted.  On the normal path the signals are
`raw_complete`, `raw`, at most one decoded read event, `transaction_finished`, so
`raw_complete` comes before the decoded event; on the exception path they are
`exception`, `raw_complete`, `transaction_finished`, the exception event first. -/
theorem ModBus.tryToParseResponseRaw_signal_order (signedChar : Bool) (s : ModBus)
    (cur : ModBusTelegram) (hcur : s.m_currentTelegram = some cur)
    (hlen : 4 ≤ s.m_readBuffer.length)
    (hpath : if 128 ≤ (s.m_readBuffer.getD 1 0).val then 5 ≤ s.m_readBuffer.length
             else s.m_readBuffer.length ≤ 255)
    (hcrc : ModBus.checksumOK s.m_readBuffer = .ok true) :
    ∃ (s' : ModBus) (es : List Signal),
      ModBus.tryToParseResponseRaw signedChar s = .ok s' ∧ s'.emitted = s.emitted ++ es ∧
      es.getLast? = some .signal_transactionFinished ∧
      ((s.m_readBuffer.getD 1 0).val < 128 →
        eventOrder cur.getID es ∧
        ∃ decoded : List Signal,
          es = [.signal_responseRawComplete cur.getID s.m_readBuffer,
                .signal_responseRaw cur.getID (s.m_readBuffer.getD 0 0)
                  (toChar ((s.m_readBuffer.getD 1 0).val &&& 0x7F))
                  ((s.m_readBuffer.drop 2).take (s.m_readBuffer.length - 4))] ++
               decoded ++ [.signal_transactionFinished] ∧
          decoded.length ≤ 1 ∧ ∀ e ∈ decoded, e.isDecodedFor cur.getID = true) ∧
      (128 ≤ (s.m_readBuffer.getD 1 0).val →
        es = [.signal_exception cur.getID (s.m_readBuffer.getD 2 0),
              .signal_responseRawComplete cur.getID s.m_readBuffer,
              .signal_transactionFinished]) := by
  by_cases hexc : 128 ≤ (s.m_readBuffer.getD 1 0).val
  · rw [if_pos hexc] at hpath
    refine ⟨_, _, ModBus.tryToParseResponseRaw_exception_accepted signedChar s cur hcur hpath
      hexc hcrc, rfl, by simp, ?_, fun _ => rfl⟩
    intro h
    omega
  · rw [if_neg hexc] at hpath
    obtain ⟨decoded, hrun, hl, hd⟩ := ModBus.tryToParseResponseRaw_normal_accepted signedChar s
      cur hcur hlen hpath (by omega) hcrc
    refine ⟨_, [.signal_responseRawComplete cur.getID s.m_readBuffer,
                .signal_responseRaw cur.getID (s.m_readBuffer.getD 0 0)
                  (toChar ((s.m_readBuffer.getD 1 0).val &&& 0x7F))
                  ((s.m_readBuffer.drop 2).take (s.m_readBuffer.length - 4))] ++
               decoded ++ [.signal_transactionFinished], hrun, by simp,
               List.getLast?_concat _, ?_, ?_⟩
    · intro _
      refine ⟨⟨?_, List.getLast?_concat _⟩, decoded, rfl, hl, hd⟩
      intro pre post e hsplit he
      cases pre with
      | nil =>
        simp only [List.nil_append, List.cons_append, List.cons.injEq] at hsplit
        rw [← hsplit.1] at he
        simp [Signal.isDecodedFor, Signal.isExceptionFor] at he
      | cons r pre =>
        simp only [List.cons_append, List.cons.injEq] at hsplit
        exact ⟨r, List.mem_cons_self _ _, by rw [← hsplit.1]; simp [Signal.isRawCompleteFor]⟩
    · intro h
      omega

set_option maxRecDepth 100000 in
/-- C9 (amended) at the reply `01 03 04 00 0A 00 14 DA 3E` to the telegram with id 1. -/
theorem ModBus.tryToParseResponseRaw_signal_order_witness :
    ∃ (s' : ModBus) (es : List Signal),
      ModBus.tryToParseResponseRaw true
        { ModBus.ctor with m_currentTelegram := some (ModBusTelegram.mk 1 3 [0, 16, 0, 2] 0 1),
                           m_requestedCount := 2,
                           m_readBuffer := [0x01, 0x03, 0x04, 0x00, 0x0A, 0x00, 0x14, 0xDA, 0x3E] }
        = .ok s' ∧ s'.emitted = [] ++ es ∧
      es.getLast? = some .signal_transactionFinished := by
  obtain ⟨s', es, h1, h2, h3, _⟩ := ModBus.tryToParseResponseRaw_signal_order true
    { ModBus.ctor with m_currentTelegram := some (ModBusTelegram.mk 1 3 [0, 16, 0, 2] 0 1),
                       m_requestedCount := 2,
                       m_readBuffer := [0x01, 0x03, 0x04, 0x00, 0x0A, 0x00, 0x14, 0xDA, 0x3E] }
    (ModBusTelegram.mk 1 3 [0, 16, 0, 2] 0 1) rfl (by decide) (by decide) (by decide)
  exact ⟨s', es, h1, h2, h3⟩

/-! ### Claim C8: one outstanding transaction -/

theorem ModBus.writeTelegramRawNow_keeps (s s' : ModBus) (a f : quint8) (d : QByteArray)
    (h : ModBus.writeTelegramRawNow s a f d = .ok s') :
    s'.m_transactionPending = s.m_transactionPending ∧
    s'.m_currentTelegram = s.m_currentTelegram := by
  unfold ModBus.writeTelegramRawNow at h
  split at h
  · cases h
  · split at h <;> (simp only [Except.ok.injEq] at h; subst h; exact ⟨rfl, rfl⟩)

theorem ModBus.slot_tryToSendNextTelegram_send_pending (s s' : ModBus)
    (h : ModBus.slot_tryToSendNextTelegram_send s = .ok s') :
    s'.m_transactionPending = true ∧ s'.m_currentTelegram.isSome = true := by
  unfold ModBus.slot_tryToSendNextTelegram_send ModBus.writeTelegramNow at h
  simp only [] at h
  split at h
  · cases h
  · rename_i r hr
    split at hr
    · cases hr
    · split at hr
      · cases hr
      · split at hr
        · cases hr
        · rename_i s2 hw
          simp only [Except.ok.injEq] at hr h
          subst hr
          subst h
          have := ModBus.writeTelegramRawNow_keeps _ _ _ _ _ hw
          exact ⟨this.1, by rw [this.2]; rfl⟩

/-- After `slot_tryToSendNextTelegram`, whatever the state before it,
`m_transactionPending` holds exactly when a current telegram is set. -/
theorem ModBus.slot_tryToSendNextTelegram_pending_iff (s s' : ModBus)
    (h : ModBus.slot_tryToSendNextTelegram s = .ok s') :
    (s'.m_transactionPending = true ↔ s'.m_currentTelegram.isSome = true) := by
  unfold ModBus.slot_tryToSendNextTelegram at h
  simp only [] at h
  split at h
  · rename_i hnone
    split at h
    · simp only [Except.ok.injEq] at h
      subst h
      simp [hnone]
    · have := ModBus.slot_tryToSendNextTelegram_send_pending _ _ h
      simp [this.1, this.2]
  · have := ModBus.slot_tryToSendNextTelegram_send_pending _ _ h
    simp [this.1, this.2]

theorem ModBus.writeTelegramToQueue_pending_iff (s s' : ModBus) (t : ModBusTelegram)
    (id : quint64) (h : ModBus.writeTelegramToQueue s t = .ok (id, s'))
    (hs : s.m_transactionPending = true ↔ s.m_currentTelegram.isSome = true) :
    (s'.m_transactionPending = true ↔ s'.m_currentTelegram.isSome = true) := by
  unfold ModBus.writeTelegramToQueue at h
  simp only [] at h
  split at h
  · split at h
    · cases h
    · rename_i s2 hs2
      simp only [Except.ok.injEq, Prod.mk.injEq] at h
      rw [← h.2]
      exact ModBus.slot_tryToSendNextTelegram_pending_iff _ _ hs2
  · simp only [Except.ok.injEq, Prod.mk.injEq] at h
    rw [← h.2]
    exact hs

theorem ModBus.slot_requestTimer_fired_keeps (s s' : ModBus)
    (h : ModBus.slot_requestTimer_fired s = .ok s') :
    s'.m_transactionPending = s.m_transactionPending ∧
    s'.m_currentTelegram = s.m_currentTelegram := by
  unfold ModBus.slot_requestTimer_fired at h
  split at h
  · cases h
  · simp only [Except.ok.injEq] at h
    subst h
    unfold ModBus.emit
    split <;> simp

/-- The decoder never touches `m_transactionPending`, the current telegram, the queue,
the port or the request context. -/
theorem ModBus.tryToParseResponseRaw_keeps (signedChar : Bool) (s s' : ModBus)
    (h : ModBus.tryToParseResponseRaw signedChar s = .ok s') :
    s'.m_transactionPending = s.m_transactionPending ∧
    s'.m_currentTelegram = s.m_currentTelegram ∧
    s'.m_telegramQueue = s.m_telegramQueue ∧
    s'.written = s.written ∧ s'.portOpen = s.portOpen ∧
    s'.m_requestedCount = s.m_requestedCount ∧
    s'.m_requestedDataStartAddress = s.m_requestedDataStartAddress := by
  unfold ModBus.tryToParseResponseRaw at h
  simp only [] at h
  split at h
  · simp only [Except.ok.injEq] at h; subst h; simp
  · split at h
    · simp only [Except.ok.injEq] at h; subst h; simp
    · split at h
      · cases h
      · split at h
        · cases h
        · split at h
          · unfold ModBus.tryToParseResponseRaw_exception at h
            simp only [] at h
            split at h
            · simp only [Except.ok.injEq] at h; subst h; simp
            · split at h
              · cases h
              · split at h
                · cases h
                · split at h
                  · simp only [Except.ok.injEq] at h; subst h; simp
                  · simp only [Except.ok.injEq] at h; subst h; simp [ModBus.emit]
          · unfold ModBus.tryToParseResponseRaw_normal at h
            simp only [] at h
            split at h
            · simp only [Except.ok.injEq] at h; subst h; simp
            · split at h
              · cases h
              · split at h
                · simp only [Except.ok.injEq] at h; subst h; simp
                · split at h
                  · cases h
                  · rename_i s2 hp
                    simp only [Except.ok.injEq] at h
                    subst h
                    obtain ⟨decoded, hd, _⟩ := ModBus.parseResponse_emits signedChar _ _ _ _ _
                    rw [hd] at hp
                    simp only [Except.ok.injEq] at hp
                    subst hp
                    simp [ModBus.emit]

theorem ModBus.slot_readyRead_keeps (incoming : QByteArray) :
    ∀ s : ModBus,
      (ModBus.slot_readyRead s incoming).m_transactionPending = s.m_transactionPending ∧
      (ModBus.slot_readyRead s incoming).m_currentTelegram = s.m_currentTelegram := by
  induction incoming with
  | nil => intro s; exact ⟨rfl, rfl⟩
  | cons c cs ih =>
    intro s
    unfold ModBus.slot_readyRead
    rw [List.foldl_cons]
    exact ih _

/-- Every operation that returns re-establishes `m_transactionPending ⇔ current set`
when it held before. -/
theorem ModBus.step_pending_iff (signedChar : Bool) (s s' : ModBus) (op : Operation)
    (hs : s.m_transactionPending = true ↔ s.m_currentTelegram.isSome = true)
    (h : ModBus.step signedChar s op = .ok s') :
    (s'.m_transactionPending = true ↔ s'.m_currentTelegram.isSome = true) := by
  cases op with
  | writeTelegramToQueue telegram =>
    simp only [ModBus.step] at h
    cases hr : ModBus.writeTelegramToQueue s telegram with
    | error e => rw [hr] at h; cases h
    | ok r =>
      rw [hr] at h
      simp only [Except.ok.injEq] at h
      subst h
      exact ModBus.writeTelegramToQueue_pending_iff s r.2 telegram r.1 hr hs
  | slot_tryToSendNextTelegram =>
    exact ModBus.slot_tryToSendNextTelegram_pending_iff _ _ h
  | requestTimerExpiry =>
    have := ModBus.slot_requestTimer_fired_keeps _ _ h
    rw [this.1, this.2]
    exact hs
  | decoderRun =>
    have := ModBus.tryToParseResponseRaw_keeps signedChar _ _ h
    rw [this.1, this.2.1]
    exact hs
  | readyRead incoming =>
    simp only [ModBus.step, Except.ok.injEq] at h
    subst h
    have := ModBus.slot_readyRead_keeps incoming s
    rw [this.1, this.2]
    exact hs
  | requestContext count dataAddress dataStartAddress =>
    simp only [ModBus.step, Except.ok.injEq] at h
    subst h
    exact hs
  | openPort openOK =>
    simp only [ModBus.step, Except.ok.injEq] at h
    subst h
    exact hs
  | closePort =>
    simp only [ModBus.step, Except.ok.injEq] at h
    subst h
    exact hs

/-- C8. One outstanding: in every state reached from the constructed engine by
operations that complete (`writeTelegramToQueue`, `slot_tryToSendNextTelegram`,
request-timer expiry, decoder run, and also byte arrival, request-context updates,
opening and closing the port), `m_transactionPending` is true if and only if the
current-telegram slot holds a telegram. -/
theorem ModBus.one_outstanding (signedChar : Bool) (s : ModBus)
    (h : ModBus.Reachable signedChar s) :
    (s.m_transactionPending = true ↔ s.m_currentTelegram.isSome = true) := by
  induction h with
  | ctor => decide
  | step s s' op _ hstep ih => exact ModBus.step_pending_iff signedChar s s' op ih hstep

set_option maxRecDepth 100000 in
/-- C8 at the state after queueing one telegram on the constructed engine. -/
theorem ModBus.one_outstanding_witness :
    (ModBus.sample_awaitingReply.m_transactionPending = true
      ↔ ModBus.sample_awaitingReply.m_currentTelegram.isSome = true) :=
  ModBus.one_outstanding true ModBus.sample_awaitingReply
    (ModBus.Reachable.step ModBus.ctor ModBus.sample_awaitingReply
      (.writeTelegramToQueue (ModBusTelegram.mk 1 3 [0x00, 0x10, 0x00, 0x02] 1 1)) .ctor
      (by decide))

/-! ### The transaction engine: sending, repeating, destroying -/

theorem ModBusTelegram.frame_ok (t : ModBusTelegram) (h : t.data.length ≤ 65533) :
    ∃ out, t.frame = .ok out :=
  ⟨_, ModBus.writeTelegramRawNow_out_eq t.slaveAddress t.functionCode t.data h⟩

/-- `slot_tryToSendNextTelegram_send` on a current telegram whose frame is built. -/
theorem ModBus.slot_tryToSendNextTelegram_send_eq (s : ModBus) (t : ModBusTelegram)
    (out : QByteArray) (hcur : s.m_currentTelegram = some t) (hrep : -(2 ^ 31) < t.repeatCount)
    (hout : t.frame = .ok out) :
    ModBus.slot_tryToSendNextTelegram_send s
      = .ok { s with
          m_transactionPending := true, m_requestTimer := true,
          m_currentTelegram := some { t with repeatCount := t.repeatCount - 1 },
          written := if s.portOpen then s.written ++ [out] else s.written } := by
  unfold ModBusTelegram.frame at hout
  unfold ModBus.slot_tryToSendNextTelegram_send ModBus.writeTelegramNow
  simp only [hcur]
  rw [if_neg (by omega)]
  unfold ModBus.writeTelegramRawNow
  simp only [hout]
  cases hp : s.portOpen <;> simp [hp]

/-- A current telegram whose repeat count is not 0 is transmitted again. -/
theorem ModBus.slot_tryToSendNextTelegram_repeat (s : ModBus) (t : ModBusTelegram)
    (out : QByteArray) (hcur : s.m_currentTelegram = some t) (hne : t.repeatCount ≠ 0)
    (hrep : -(2 ^ 31) < t.repeatCount) (hout : t.frame = .ok out) :
    ModBus.slot_tryToSendNextTelegram s
      = .ok { s with
          m_transactionPending := true, m_requestTimer := true,
          m_currentTelegram := some { t with repeatCount := t.repeatCount - 1 },
          written := if s.portOpen then s.written ++ [out] else s.written } := by
  unfold ModBus.slot_tryToSendNextTelegram
  simp only [hcur, if_neg hne]
  exact ModBus.slot_tryToSendNextTelegram_send_eq s t out hcur hrep hout

/-- A current telegram whose repeat count is 0 is destroyed: the slot behaves as if no
telegram were current. -/
theorem ModBus.slot_tryToSendNextTelegram_destroy (s : ModBus) (t : ModBusTelegram)
    (hcur : s.m_currentTelegram = some t) (h0 : t.repeatCount = 0) :
    ModBus.slot_tryToSendNextTelegram s
      = ModBus.slot_tryToSendNextTelegram { s with m_currentTelegram := none } := by
  unfold ModBus.slot_tryToSendNextTelegram
  simp [hcur, h0]

/-- With no current telegram and an empty queue the engine goes idle. -/
theorem ModBus.slot_tryToSendNextTelegram_idle (s : ModBus)
    (hcur : s.m_currentTelegram = none) (hq : s.m_telegramQueue = []) :
    ModBus.slot_tryToSendNextTelegram s = .ok { s with m_transactionPending := false } := by
  unfold ModBus.slot_tryToSendNextTelegram
  simp [hcur, hq]

/-- With no current telegram the head of the queue is promoted and transmitted. -/
theorem ModBus.slot_tryToSendNextTelegram_promote (s : ModBus) (t : ModBusTelegram)
    (rest : List ModBusTelegram) (out : QByteArray)
    (hcur : s.m_currentTelegram = none) (hq : s.m_telegramQueue = t :: rest)
    (hrep : -(2 ^ 31) < t.repeatCount) (hout : t.frame = .ok out) :
    ModBus.slot_tryToSendNextTelegram s
      = .ok { s with
          m_transactionPending := true, m_requestTimer := true,
          m_telegramQueue := rest,
          m_currentTelegram := some { t with repeatCount := t.repeatCount - 1 },
          written := if s.portOpen then s.written ++ [out] else s.written } := by
  unfold ModBus.slot_tryToSendNextTelegram
  simp only [hcur, hq]
  rw [ModBus.slot_tryToSendNextTelegram_send_eq _ t out rfl hrep hout]

/-! ### Claim C12: request-timer expiry -/

/-- C12. Request-timer expiry: for every current telegram `slot_requestTimer_fired`
returns; `transaction_lost(id)` is emitted if and only if the slave address is not 0
(`needsAnswer` is false exactly for address 0); `transaction_finished` is emitted in
both cases and is the last signal, after `transaction_lost` when both occur. -/
theorem ModBus.slot_requestTimer_fired_signals (s : ModBus) (cur : ModBusTelegram)
    (hcur : s.m_currentTelegram = some cur) :
    ∃ (s' : ModBus) (es : List Signal),
      ModBus.slot_requestTimer_fired s = .ok s' ∧ s'.emitted = s.emitted ++ es ∧
      es = (if cur.slaveAddress = 0 then [.signal_transactionFinished]
            else [.signal_transactionLost cur.getID, .signal_transactionFinished]) ∧
      (cur.needsAnswer = false ↔ cur.slaveAddress = 0) ∧
      ((∃ e ∈ es, e.isTransactionLost = true) ↔ cur.slaveAddress ≠ 0) ∧
      (Signal.signal_transactionLost cur.getID ∈ es ↔ cur.slaveAddress ≠ 0) ∧
      es.getLast? = some .signal_transactionFinished := by
  by_cases h0 : cur.slaveAddress = 0
  · refine ⟨s.emit .signal_transactionFinished, [.signal_transactionFinished], ?_, ?_, ?_, ?_,
      ?_, ?_, rfl⟩
    · unfold ModBus.slot_requestTimer_fired
      simp [hcur, ModBusTelegram.needsAnswer, h0]
    · simp [ModBus.emit]
    · rw [if_pos h0]
    · simp [ModBusTelegram.needsAnswer, h0]
    · simp [h0, Signal.isTransactionLost]
    · simp [h0]
  · refine ⟨(s.emit (.signal_transactionLost cur.getID)).emit .signal_transactionFinished,
      [.signal_transactionLost cur.getID, .signal_transactionFinished], ?_, ?_, ?_, ?_, ?_, ?_,
      rfl⟩
    · unfold ModBus.slot_requestTimer_fired
      simp [hcur, ModBusTelegram.needsAnswer, h0]
    · simp [ModBus.emit]
    · rw [if_neg h0]
    · simp [ModBusTelegram.needsAnswer, h0]
    · simp [h0, Signal.isTransactionLost]
    · simp [h0]

set_option maxRecDepth 100000 in
/-- C12 at the broadcast write of scenario 5 (slave 0, function code 6). -/
theorem ModBus.slot_requestTimer_fired_signals_witness :
    ∃ (s' : ModBus) (es : List Signal),
      ModBus.slot_requestTimer_fired
        { ModBus.ctor with m_currentTelegram := some (ModBusTelegram.mk 0 6 [0, 1, 0, 2] 0 1) }
        = .ok s' ∧ s'.emitted = [] ++ es ∧ es = [.signal_transactionFinished] := by
  obtain ⟨s', es, h1, h2, h3, _⟩ := ModBus.slot_requestTimer_fired_signals
    { ModBus.ctor with m_currentTelegram := some (ModBusTelegram.mk 0 6 [0, 1, 0, 2] 0 1) }
    (ModBusTelegram.mk 0 6 [0, 1, 0, 2] 0 1) rfl
  exact ⟨s', es, h1, h2, h3⟩

/-! ### Claims C11 and C13: the repeat budget -/

theorem ModBus.slot_readyRead_current (incoming : QByteArray) :
    ∀ s : ModBus,
      (ModBus.slot_readyRead s incoming).m_currentTelegram = s.m_currentTelegram ∧
      (ModBus.slot_readyRead s incoming).m_telegramQueue = s.m_telegramQueue ∧
      (ModBus.slot_readyRead s incoming).written = s.written ∧
      (ModBus.slot_readyRead s incoming).portOpen = s.portOpen := by
  induction incoming with
  | nil => intro s; exact ⟨rfl, rfl, rfl, rfl⟩
  | cons c cs ih =>
    intro s
    unfold ModBus.slot_readyRead
    rw [List.foldl_cons]
    exact ih _

set_option maxRecDepth 100000 in
/-- C11, counterexample.  A telegram with `repeatCount` 2 is queued on an engine with an
open port and transmitted; its reply `01 03 04 00 0A 00 14 DA 3E` is accepted; the
next `slot_tryToSendNextTelegram` keeps the telegram as current and transmits it a
second time. -/
theorem ModBus.slot_tryToSendNextTelegram_repeats_after_reply :
    ModBus.loopEnabled true (ModBus.ctor.open true)
      [.requestContext 2 0 0x0010,
       .writeTelegramToQueue (ModBusTelegram.mk 1 3 [0x00, 0x10, 0x00, 0x02] 2 1),
       .readyRead [0x01, 0x03, 0x04, 0x00, 0x0A, 0x00, 0x14, 0xDA, 0x3E],
       .decoderRun, .slot_tryToSendNextTelegram] = true ∧
    (ModBus.run true (ModBus.ctor.open true)
      [.requestContext 2 0 0x0010,
       .writeTelegramToQueue (ModBusTelegram.mk 1 3 [0x00, 0x10, 0x00, 0x02] 2 1),
       .readyRead [0x01, 0x03, 0x04, 0x00, 0x0A, 0x00, 0x14, 0xDA, 0x3E],
       .decoderRun]).map (fun s => (s.m_rx_telegrams, s.written, s.m_currentTelegram))
      = .ok (1, [[0x01, 0x03, 0x00, 0x10, 0x00, 0x02, 0xC5, 0xCE]],
          some (ModBusTelegram.mk 1 3 [0x00, 0x10, 0x00, 0x02] 1 1)) ∧
    (ModBus.run true (ModBus.ctor.open true)
      [.requestContext 2 0 0x0010,
       .writeTelegramToQueue (ModBusTelegram.mk 1 3 [0x00, 0x10, 0x00, 0x02] 2 1),
       .readyRead [0x01, 0x03, 0x04, 0x00, 0x0A, 0x00, 0x14, 0xDA, 0x3E],
       .decoderRun, .slot_tryToSendNextTelegram]).map
        (fun s => (s.written, s.m_currentTelegram))
      = .ok ([[0x01, 0x03, 0x00, 0x10, 0x00, 0x02, 0xC5, 0xCE],
              [0x01, 0x03, 0x00, 0x10, 0x00, 0x02, 0xC5, 0xCE]],
          some (ModBusTelegram.mk 1 3 [0x00, 0x10, 0x00, 0x02] 0 1)) := by
  refine ⟨?_, ?_, ?_⟩ <;> decide

/-- C11, amended.  A telegram promoted with `repeatCount` at least 1 and whose frame has
been transmitted stays current through byte arrival and the decoder run.  When its
`repeatCount` was 1 (the default), the next `slot_tryToSendNextTelegram` after the
decoder run destroys it - the slot behaves as with no current telegram, and with an
empty queue nothing is written and no telegram is current.  When its `repeatCount` was
2 or more, the next `slot_tryToSendNextTelegram` transmits the same telegram again. -/
theorem ModBus.slot_tryToSendNextTelegram_after_reply (signedChar : Bool) (s : ModBus)
    (t : ModBusTelegram) (rest : List ModBusTelegram) (out : QByteArray)
    (hopen : s.portOpen = true)
    (hcur : s.m_currentTelegram = none) (hq : s.m_telegramQueue = t :: rest)
    (hn : 1 ≤ t.repeatCount) (hout : t.frame = .ok out) :
    ∃ s1, ModBus.slot_tryToSendNextTelegram s = .ok s1 ∧
      s1.written = s.written ++ [out] ∧
      ∀ (incoming : QByteArray) (s2 : ModBus),
        ModBus.tryToParseResponseRaw signedChar (ModBus.slot_readyRead s1 incoming) = .ok s2 →
        s2.m_currentTelegram = some { t with repeatCount := t.repeatCount - 1 } ∧
        s2.written = s.written ++ [out] ∧
        (t.repeatCount = 1 →
          ModBus.slot_tryToSendNextTelegram s2
            = ModBus.slot_tryToSendNextTelegram { s2 with m_currentTelegram := none } ∧
          (rest = [] →
            ModBus.slot_tryToSendNextTelegram s2
              = .ok { s2 with m_currentTelegram := none, m_transactionPending := false })) ∧
        (2 ≤ t.repeatCount →
          ModBus.slot_tryToSendNextTelegram s2
            = .ok { s2 with
                m_transactionPending := true, m_requestTimer := true,
                m_currentTelegram := some { t with repeatCount := t.repeatCount - 1 - 1 },
                written := s.written ++ [out] ++ [out] }) := by
  refine ⟨_, ModBus.slot_tryToSendNextTelegram_promote s t rest out hcur hq (by omega) hout,
    by simp [hopen], ?_⟩
  intro incoming s2 hdec
  have hk := ModBus.tryToParseResponseRaw_keeps signedChar _ _ hdec
  have hr := ModBus.slot_readyRead_current incoming
    ({ s with
        m_transactionPending := true, m_requestTimer := true,
        m_telegramQueue := rest,
        m_currentTelegram := some { t with repeatCount := t.repeatCount - 1 },
        written := if s.portOpen then s.written ++ [out] else s.written } : ModBus)
  have hc2 : s2.m_currentTelegram = some { t with repeatCount := t.repeatCount - 1 } := by
    rw [hk.2.1, hr.1]
  have hw2 : s2.written = s.written ++ [out] := by
    rw [hk.2.2.2.1, hr.2.2.1]
    simp [hopen]
  have hq2 : s2.m_telegramQueue = rest := by
    rw [hk.2.2.1, hr.2.1]
  have hp2 : s2.portOpen = true := by
    rw [hk.2.2.2.2.1, hr.2.2.2]
    exact hopen
  refine ⟨hc2, hw2, ?_, ?_⟩
  · intro h1
    have hd := ModBus.slot_tryToSendNextTelegram_destroy s2 _ hc2 (by simp [h1])
    refine ⟨hd, ?_⟩
    intro hrest
    rw [hd, ModBus.slot_tryToSendNextTelegram_idle _ rfl (by simp [hq2, hrest])]
  · intro h2
    have hf : ({ t with repeatCount := t.repeatCount - 1 } : ModBusTelegram).frame = .ok out := hout
    rw [ModBus.slot_tryToSendNextTelegram_repeat s2 _ out hc2
      (by simp only []; omega) (by simp only []; omega) hf]
    simp [hp2, hw2]

set_option maxRecDepth 100000 in
/-- C11 (amended) at the telegram of scenario 1 queued on an engine with an open port. -/
theorem ModBus.slot_tryToSendNextTelegram_after_reply_witness :
    ∃ s1, ModBus.slot_tryToSendNextTelegram
        { ModBus.ctor.open true with
          m_telegramQueue := [ModBusTelegram.mk 1 3 [0x00, 0x10, 0x00, 0x02] 1 1] } = .ok s1 ∧
      s1.written = [] ++ [[0x01, 0x03, 0x00, 0x10, 0x00, 0x02, 0xC5, 0xCE]] := by
  obtain ⟨s1, h1, h2, _⟩ := ModBus.slot_tryToSendNextTelegram_after_reply true
    { ModBus.ctor.open true with
      m_telegramQueue := [ModBusTelegram.mk 1 3 [0x00, 0x10, 0x00, 0x02] 1 1] }
    (ModBusTelegram.mk 1 3 [0x00, 0x10, 0x00, 0x02] 1 1) []
    [0x01, 0x03, 0x00, 0x10, 0x00, 0x02, 0xC5, 0xCE] rfl rfl rfl (by decide) (by decide)
  exact ⟨s1, h1, h2⟩

theorem ModBus.slot_requestTimer_fired_frame (s : ModBus) (cur : ModBusTelegram)
    (hcur : s.m_currentTelegram = some cur) :
    ∃ s', ModBus.slot_requestTimer_fired s = .ok s' ∧
      s'.m_currentTelegram = s.m_currentTelegram ∧
      s'.m_telegramQueue = s.m_telegramQueue ∧
      s'.written = s.written ∧ s'.portOpen = s.portOpen ∧
      s'.m_transactionPending = s.m_transactionPending ∧
      s'.m_requestTimer = s.m_requestTimer := by
  unfold ModBus.slot_requestTimer_fired
  simp only [hcur]
  refine ⟨_, rfl, ?_⟩
  unfold ModBus.emit
  split <;> simp [hcur]

/-- One more attempt of a current telegram with repeat count left, ended by
request-timer expiry: the frame is written once more and the count drops by 1. -/
theorem ModBus.lostAttempts_repeat (signedChar : Bool) (t : ModBusTelegram) (out : QByteArray)
    (hout : t.frame = .ok out) :
    ∀ (k : Nat) (s : ModBus) (m : Nat), k ≤ m → s.portOpen = true →
      s.m_currentTelegram = some { t with repeatCount := (m : Int) } →
      ∃ s', ModBus.run signedChar s (ModBus.lostAttempts k) = .ok s' ∧
        s'.written = s.written ++ List.replicate k out ∧
        s'.m_currentTelegram = some { t with repeatCount := ((m - k : Nat) : Int) } ∧
        s'.m_telegramQueue = s.m_telegramQueue ∧ s'.portOpen = true := by
  intro k
  induction k with
  | zero =>
    intro s m _ hopen hcur
    exact ⟨s, rfl, by simp, by simpa using hcur, rfl, hopen⟩
  | succ k ih =>
    intro s m hk hopen hcur
    have hf : ({ t with repeatCount := (m : Int) } : ModBusTelegram).frame = .ok out := hout
    have h1 := ModBus.slot_tryToSendNextTelegram_repeat { s with m_delayTxTimer := false }
      { t with repeatCount := (m : Int) } out hcur (by simp only []; omega)
      (by simp only []; omega) hf
    obtain ⟨s2, h2, hc2, hq2, hw2, hp2, _⟩ := ModBus.slot_requestTimer_fired_frame
      ({ ({ ({ s with m_delayTxTimer := false } : ModBus) with
          m_transactionPending := true, m_requestTimer := true,
          m_currentTelegram := some { t with repeatCount := (m : Int) - 1 },
          written := if s.portOpen then s.written ++ [out] else s.written } : ModBus) with
          m_requestTimer := false })
      { t with repeatCount := (m : Int) - 1 } rfl
    have hm : ((m : Int) - 1) = ((m - 1 : Nat) : Int) := by omega
    obtain ⟨s', hr, hw, hc, hq, hp⟩ := ih s2 (m - 1) (by omega) (by rw [hp2]; exact hopen)
      (by rw [hc2]; simp only [hm])
    refine ⟨s', ?_, ?_, ?_, ?_, hp⟩
    · simp only [ModBus.lostAttempts, ModBus.run, ModBus.step]
      simp only [] at h1
      rw [h1]
      simp only []
      rw [h2]
      exact hr
    · rw [hw, hw2]
      simp [hopen, List.replicate_succ]
    · rw [hc]
      have : m - 1 - k = m - (k + 1) := by omega
      rw [this]
    · rw [hq, hq2]

/-- The first `k` of the attempts of a telegram promoted with repeat count `n`, each
ended by request-timer expiry. -/
theorem ModBus.lostAttempts_promoted (signedChar : Bool) (s : ModBus) (t : ModBusTelegram)
    (rest : List ModBusTelegram) (out : QByteArray) (n k : Nat)
    (hrep : t.repeatCount = (n : Int)) (hk1 : 1 ≤ k) (hkn : k ≤ n)
    (hopen : s.portOpen = true) (hcur : s.m_currentTelegram = none)
    (hq : s.m_telegramQueue = t :: rest) (hout : t.frame = .ok out) :
    ∃ s', ModBus.run signedChar s (ModBus.lostAttempts k) = .ok s' ∧
      s'.written = s.written ++ List.replicate k out ∧
      s'.m_currentTelegram = some { t with repeatCount := ((n - k : Nat) : Int) } ∧
      s'.m_telegramQueue = rest ∧ s'.portOpen = true := by
  obtain ⟨j, rfl⟩ : ∃ j, k = j + 1 := ⟨k - 1, by omega⟩
  have h1 := ModBus.slot_tryToSendNextTelegram_promote { s with m_delayTxTimer := false }
    t rest out hcur hq (by omega) hout
  obtain ⟨s2, h2, hc2, hq2, hw2, hp2, _⟩ := ModBus.slot_requestTimer_fired_frame
    ({ ({ ({ s with m_delayTxTimer := false } : ModBus) with
        m_transactionPending := true, m_requestTimer := true,
        m_telegramQueue := rest,
        m_currentTelegram := some { t with repeatCount := t.repeatCount - 1 },
        written := if s.portOpen then s.written ++ [out] else s.written } : ModBus) with
        m_requestTimer := false })
    { t with repeatCount := t.repeatCount - 1 } rfl
  have hm : t.repeatCount - 1 = ((n - 1 : Nat) : Int) := by omega
  obtain ⟨s', hr, hw, hc, hq', hp⟩ := ModBus.lostAttempts_repeat signedChar t out hout j s2
    (n - 1) (by omega) (by rw [hp2]; exact hopen) (by rw [hc2]; simp only [hm])
  refine ⟨s', ?_, ?_, ?_, ?_, hp⟩
  · simp only [ModBus.lostAttempts, ModBus.run, ModBus.step]
    simp only [] at h1
    rw [h1]
    simp only []
    rw [h2]
    exact hr
  · rw [hw, hw2]
    simp [hopen, List.replicate_succ]
  · rw [hc]
    have : n - 1 - j = n - (j + 1) := by omega
    rw [this]
  · rw [hq', hq2]

/-- C13. Retry budget: a telegram promoted with `repeatCount` `n ≥ 1`, every attempt of
which ends by request-timer expiry, is written to the open port exactly `n` times: after
`k ≤ n` attempts its frame has been written `k` times and it is still current with
`n - k` repeats left; after the `n`-th attempt the next `slot_tryToSendNextTelegram`
destroys it (the slot behaves as with no current telegram; with nothing queued behind
it nothing more is written).  A telegram built by the constructor has `repeatCount` 1
and is attempted exactly once. -/
theorem ModBus.lostAttempts_written (signedChar : Bool) (s : ModBus) (t : ModBusTelegram)
    (rest : List ModBusTelegram) (out : QByteArray) (n : Nat)
    (hrep : t.repeatCount = (n : Int)) (hn : 1 ≤ n)
    (hopen : s.portOpen = true) (hcur : s.m_currentTelegram = none)
    (hq : s.m_telegramQueue = t :: rest) (hout : t.frame = .ok out) :
    (∀ k, 1 ≤ k → k ≤ n →
      ∃ sk, ModBus.run signedChar s (ModBus.lostAttempts k) = .ok sk ∧
        sk.written = s.written ++ List.replicate k out ∧
        sk.m_currentTelegram = some { t with repeatCount := ((n - k : Nat) : Int) }) ∧
    (∃ s', ModBus.run signedChar s (ModBus.lostAttempts n) = .ok s' ∧
      s'.written = s.written ++ List.replicate n out ∧
      s'.m_currentTelegram = some { t with repeatCount := 0 } ∧
      s'.m_telegramQueue = rest ∧
      ModBus.step signedChar s' .slot_tryToSendNextTelegram
        = ModBus.slot_tryToSendNextTelegram
            { s' with m_delayTxTimer := false, m_currentTelegram := none } ∧
      (rest = [] →
        ModBus.step signedChar s' .slot_tryToSendNextTelegram
          = .ok { s' with m_delayTxTimer := false, m_currentTelegram := none,
                          m_transactionPending := false })) ∧
    (∀ (a f : quint8) (d : QByteArray) (ids : TelegramIds),
      (ModBusTelegram.ctor_data a f d ids).1.repeatCount = 1 ∧
      (ModBusTelegram.ctor a f ids).1.repeatCount = 1) := by
  refine ⟨?_, ?_, fun _ _ _ _ => ⟨rfl, rfl⟩⟩
  · intro k hk1 hkn
    obtain ⟨sk, h1, h2, h3, _⟩ := ModBus.lostAttempts_promoted signedChar s t rest out n k hrep
      hk1 hkn hopen hcur hq hout
    exact ⟨sk, h1, h2, h3⟩
  · obtain ⟨s', h1, h2, h3, h4, _⟩ := ModBus.lostAttempts_promoted signedChar s t rest out n n
      hrep hn (le_refl n) hopen hcur hq hout
    have h3' : s'.m_currentTelegram = some { t with repeatCount := 0 } := by
      rw [h3]; simp
    have hd := ModBus.slot_tryToSendNextTelegram_destroy { s' with m_delayTxTimer := false }
      { t with repeatCount := 0 } h3' rfl
    refine ⟨s', h1, h2, h3', h4, hd, ?_⟩
    intro hrest
    show ModBus.slot_tryToSendNextTelegram { s' with m_delayTxTimer := false } = _
    rw [hd, ModBus.slot_tryToSendNextTelegram_idle _ rfl (by simp [h4, hrest])]

set_option maxRecDepth 100000 in
/-- C13 at the telegram of scenario 1 with `repeatCount` 3, queued on an idle engine
with an open port. -/
theorem ModBus.lostAttempts_written_witness :
    ∃ s', ModBus.run true
        { ModBus.ctor.open true with
          m_telegramQueue := [ModBusTelegram.mk 1 3 [0x00, 0x10, 0x00, 0x02] 3 1] }
        (ModBus.lostAttempts 3) = .ok s' ∧
      s'.written = [] ++ List.replicate 3 [0x01, 0x03, 0x00, 0x10, 0x00, 0x02, 0xC5, 0xCE] ∧
      s'.m_currentTelegram = some (ModBusTelegram.mk 1 3 [0x00, 0x10, 0x00, 0x02] 0 1) := by
  obtain ⟨s', h1, h2, h3, _⟩ := (ModBus.lostAttempts_written true
    { ModBus.ctor.open true with
      m_telegramQueue := [ModBusTelegram.mk 1 3 [0x00, 0x10, 0x00, 0x02] 3 1] }
    (ModBusTelegram.mk 1 3 [0x00, 0x10, 0x00, 0x02] 3 1) []
    [0x01, 0x03, 0x00, 0x10, 0x00, 0x02, 0xC5, 0xCE] 3 rfl (by decide) rfl rfl rfl
    (by decide)).2.1
  exact ⟨s', h1, h2, h3⟩

/-! ### Claim C14: FIFO order -/

/-- `slot_tryToSendNextTelegram_send` on a current telegram, whether or not its frame
is built. -/
theorem ModBus.slot_tryToSendNextTelegram_send_match (s : ModBus) (t : ModBusTelegram)
    (hcur : s.m_currentTelegram = some t) (hrep : -(2 ^ 31) < t.repeatCount) :
    ModBus.slot_tryToSendNextTelegram_send s
      = match t.frame with
        | .error e => .error e
        | .ok out =>
          .ok { s with
            m_transactionPending := true, m_requestTimer := true,
            m_currentTelegram := some { t with repeatCount := t.repeatCount - 1 },
            written := if s.portOpen then s.written ++ [out] else s.written } := by
  cases hf : t.frame with
  | ok out => exact ModBus.slot_tryToSendNextTelegram_send_eq s t out hcur hrep hf
  | error e =>
    unfold ModBusTelegram.frame at hf
    unfold ModBus.slot_tryToSendNextTelegram_send ModBus.writeTelegramNow
    simp only [hcur]
    rw [if_neg (by omega)]
    unfold ModBus.writeTelegramRawNow
    simp only [hf]

theorem ModBus.writeTelegramToQueue_pending (s : ModBus) (t : ModBusTelegram)
    (hp : s.m_transactionPending = true) :
    ModBus.writeTelegramToQueue s t
      = .ok (t.getID, { s with m_telegramQueue := s.m_telegramQueue ++ [t] }) := by
  unfold ModBus.writeTelegramToQueue
  have hc : ¬ (!({ s with m_telegramQueue := s.m_telegramQueue ++ [t] } : ModBus
      ).m_transactionPending) = true := by
    show ¬ (!s.m_transactionPending) = true
    rw [hp]
    simp
  simp only []
  rw [if_neg hc]

theorem ModBus.writeTelegramToQueue_idle (s : ModBus) (t : ModBusTelegram)
    (hp : s.m_transactionPending = false) :
    ModBus.writeTelegramToQueue s t
      = (ModBus.slot_tryToSendNextTelegram
            { s with m_telegramQueue := s.m_telegramQueue ++ [t] }).map
          (fun s2 => (t.getID, s2)) := by
  unfold ModBus.writeTelegramToQueue
  have hc : (!({ s with m_telegramQueue := s.m_telegramQueue ++ [t] } : ModBus
      ).m_transactionPending) = true := by
    show (!s.m_transactionPending) = true
    rw [hp]
    rfl
  simp only []
  rw [if_pos hc]
  generalize ModBus.slot_tryToSendNextTelegram
    { s with m_telegramQueue := s.m_telegramQueue ++ [t] } = r
  cases r <;> rfl

theorem ModBus.run_cons (signedChar : Bool) (s s1 : ModBus) (op : Operation)
    (ops : List Operation) (h : ModBus.step signedChar s op = .ok s1) :
    ModBus.run signedChar s (op :: ops) = ModBus.run signedChar s1 ops := by
  simp only [ModBus.run, h]

/-- The decoder on a frame whose CRC check fails. -/
theorem ModBus.tryToParseResponseRaw_crc_failed (signedChar : Bool) (s : ModBus)
    (cur : ModBusTelegram) (hcur : s.m_currentTelegram = some cur)
    (hpath : ((s.m_readBuffer.getD 1 0).val < 128 ∧ 4 ≤ s.m_readBuffer.length ∧
        s.m_readBuffer.length ≤ 255) ∨
      (128 ≤ (s.m_readBuffer.getD 1 0).val ∧ 5 ≤ s.m_readBuffer.length))
    (hcrc : ModBus.checksumOK s.m_readBuffer = .ok false) :
    ModBus.tryToParseResponseRaw signedChar s
      = .ok { s with m_readBuffer := [],
                     m_crc_errors := toQuint64 (s.m_crc_errors.val + 1) } := by
  unfold ModBus.tryToParseResponseRaw
  simp only []
  have h4 : 4 ≤ s.m_readBuffer.length := by rcases hpath with h | h <;> omega
  rw [if_neg (by omega), hcur]
  simp only []
  rw [QByteArray.at_zero _ (by omega), QByteArray.at_one _ (by omega)]
  simp only [intAnd_charValue_0x80, decide_eq_true_eq]
  rcases hpath with ⟨hn, _, hmax⟩ | ⟨he, h5⟩
  · rw [if_neg (by omega)]
    unfold ModBus.tryToParseResponseRaw_normal
    simp only []
    rw [if_neg (by omega), hcrc]
    simp [hcur]
  · rw [if_pos he]
    unfold ModBus.tryToParseResponseRaw_exception
    simp only []
    rw [if_neg (by omega), QByteArray.at_two _ (by omega), hcrc]
    simp [hcur]

/-- A frame that passes the CRC check fails it once its last byte is changed. -/
theorem ModBus.checksumOK_last_byte_changed (body : QByteArray) (lo hi hi' : quint8)
    (h : body.length ≤ 65535) (hok : ModBus.checksumOK (body ++ [lo, hi]) = .ok true)
    (hne : hi' ≠ hi) : ModBus.checksumOK (body ++ [lo, hi']) = .ok false := by
  rw [ModBus.checksumOK_append body lo hi h] at hok
  rw [ModBus.checksumOK_append body lo hi' h]
  simp only [Except.ok.injEq, decide_eq_true_eq, decide_eq_false_iff_not] at hok ⊢
  rw [hok, lo_or_hi_shift _ _ lo.isLt, lo_or_hi_shift _ _ lo.isLt]
  intro hc
  apply hne
  apply Fin.ext
  have h1 := lo.isLt
  have h2 := hi.isLt
  have h3 := hi'.isLt
  omega

/-- C16. CRC error: for every engine state with a current telegram whose buffer is a
normal frame of 4..255 bytes or an exception frame of at least 5 bytes and fails the CRC
check, the decoder returns the state in which the buffer is empty and the 64-bit counter
`crc_errors` is incremented (by exactly 1 below `2^64 - 1`) and nothing else is changed:
`rx_telegrams`, the signals emitted, the request timer and the current telegram are as
before.  In particular a frame that passes the check fails it when its last byte is
changed to a different value. -/
theorem ModBus.tryToParseResponseRaw_crc_error (signedChar : Bool) (s : ModBus)
    (cur : ModBusTelegram) (hcur : s.m_currentTelegram = some cur)
    (hpath : ((s.m_readBuffer.getD 1 0).val < 128 ∧ 4 ≤ s.m_readBuffer.length ∧
        s.m_readBuffer.length ≤ 255) ∨
      (128 ≤ (s.m_readBuffer.getD 1 0).val ∧ 5 ≤ s.m_readBuffer.length))
    (hcrc : ModBus.checksumOK s.m_readBuffer = .ok false) :
    (∃ s', ModBus.tryToParseResponseRaw signedChar s = .ok s' ∧
      s' = { s with m_readBuffer := [], m_crc_errors := s'.m_crc_errors } ∧
      s'.m_crc_errors.val = (s.m_crc_errors.val + 1) % 2 ^ 64 ∧
      (s.m_crc_errors.val < 2 ^ 64 - 1 → s'.m_crc_errors.val = s.m_crc_errors.val + 1) ∧
      s'.m_rx_telegrams = s.m_rx_telegrams ∧ s'.m_readBuffer = [] ∧
      s'.emitted = s.emitted ∧ s'.m_requestTimer = s.m_requestTimer ∧
      s'.m_currentTelegram = some cur) ∧
    (∀ (body : QByteArray) (lo hi hi' : quint8), body.length ≤ 65535 →
      ModBus.checksumOK (body ++ [lo, hi]) = .ok true → hi' ≠ hi →
      ModBus.checksumOK (body ++ [lo, hi']) = .ok false) := by
  refine ⟨⟨_, ModBus.tryToParseResponseRaw_crc_failed signedChar s cur hcur hpath hcrc,
    rfl, rfl, ?_, rfl, rfl, rfl, rfl, hcur⟩, ModBus.checksumOK_last_byte_changed⟩
  intro h
  show (s.m_crc_errors.val + 1) % 2 ^ 64 = _
  exact Nat.mod_eq_of_lt (by omega)

/-- C16 at the reply `01 03 02 01 80 B8 74` with its last byte changed to `75`, while the
telegram of `sample_awaitingReply` is current. -/
theorem ModBus.tryToParseResponseRaw_crc_error_witness :
    ∃ s', ModBus.tryToParseResponseRaw true
        { ModBus.sample_awaitingReply with
          m_readBuffer := [0x01, 0x03, 0x02, 0x01, 0x80, 0xB8, 0x75] } = .ok s' ∧
      s'.m_crc_errors.val = 1 ∧ s'.m_rx_telegrams.val = 0 ∧ s'.m_readBuffer = [] ∧
      s'.emitted = [] ∧ s'.m_requestTimer = true := by
  obtain ⟨⟨s', h, _, hc, _, hr, hb, he, ht, _⟩, _⟩ :=
    ModBus.tryToParseResponseRaw_crc_error true
      { ModBus.sample_awaitingReply with
        m_readBuffer := [0x01, 0x03, 0x02, 0x01, 0x80, 0xB8, 0x75] }
      (ModBusTelegram.mk 1 3 [0x00, 0x10, 0x00, 0x02] 0 1) rfl
      (Or.inl (by decide)) (by decide!)
  exact ⟨s', h, hc, by rw [hr]; rfl, hb, he, ht⟩

/-! ### The decoder and the slots, case by case -/

/-- Function `slot_readyRead` appends the incoming bytes to the buffer and, when there
is at least one, starts the RX idle timer; nothing else changes. -/
theorem ModBus.slot_readyRead_eq (incoming : QByteArray) :
    ∀ s : ModBus, ModBus.slot_readyRead s incoming
      = { s with m_readBuffer := s.m_readBuffer ++ incoming,
                 m_rxIdleTimer := if incoming = [] then s.m_rxIdleTimer else true } := by
  induction incoming with
  | nil => intro s; simp [ModBus.slot_readyRead]
  | cons c cs ih =>
    intro s
    unfold ModBus.slot_readyRead at ih ⊢
    rw [List.foldl_cons, ih]
    cases cs <;> simp

/-- With a current telegram and at least 4 bytes the decoder branches on the high bit of
the second byte. -/
theorem ModBus.tryToParseResponseRaw_dispatch (signedChar : Bool) (s : ModBus)
    (cur : ModBusTelegram) (hcur : s.m_currentTelegram = some cur)
    (hlen : 4 ≤ s.m_readBuffer.length) :
    ModBus.tryToParseResponseRaw signedChar s
      = if 128 ≤ (s.m_readBuffer.getD 1 0).val then ModBus.tryToParseResponseRaw_exception s cur
        else ModBus.tryToParseResponseRaw_normal signedChar s cur (s.m_readBuffer.getD 0 0)
          (toChar ((s.m_readBuffer.getD 1 0).val &&& 0x7F)) := by
  unfold ModBus.tryToParseResponseRaw
  simp only []
  rw [if_neg (by omega), hcur]
  simp only []
  rw [QByteArray.at_zero _ (by omega), QByteArray.at_one _ (by omega)]
  simp only [intAnd_charValue_0x80, intAnd_charValue_0x7F, decide_eq_true_eq]

/-- With fewer than 4 bytes in the buffer the decoder returns at once. -/
theorem ModBus.tryToParseResponseRaw_short (signedChar : Bool) (s : ModBus)
    (hlen : s.m_readBuffer.length < 4) : ModBus.tryToParseResponseRaw signedChar s = .ok s := by
  unfold ModBus.tryToParseResponseRaw
  simp only []
  rw [if_pos hlen]

/-- With no current telegram and at least 4 bytes the decoder clears the buffer. -/
theorem ModBus.tryToParseResponseRaw_stray (signedChar : Bool) (s : ModBus)
    (hcur : s.m_currentTelegram = none) (hlen : 4 ≤ s.m_readBuffer.length) :
    ModBus.tryToParseResponseRaw signedChar s = .ok { s with m_readBuffer := [] } := by
  unfold ModBus.tryToParseResponseRaw
  simp only []
  rw [if_neg (by omega), hcur]

/-- An exception frame of exactly 4 bytes is left in the buffer. -/
theorem ModBus.tryToParseResponseRaw_exception_short (signedChar : Bool) (s : ModBus)
    (cur : ModBusTelegram) (hcur : s.m_currentTelegram = some cur)
    (hlen : s.m_readBuffer.length = 4) (hexc : 128 ≤ (s.m_readBuffer.getD 1 0).val) :
    ModBus.tryToParseResponseRaw signedChar s = .ok s := by
  rw [ModBus.tryToParseResponseRaw_dispatch signedChar s cur hcur (by omega), if_pos hexc]
  unfold ModBus.tryToParseResponseRaw_exception
  simp only []
  rw [if_pos (by omega)]

/-- A normal frame of more than 255 bytes is dropped. -/
theorem ModBus.tryToParseResponseRaw_overflow (signedChar : Bool) (s : ModBus)
    (cur : ModBusTelegram) (hcur : s.m_currentTelegram = some cur)
    (hlen : 255 < s.m_readBuffer.length) (hexc : (s.m_readBuffer.getD 1 0).val < 128) :
    ModBus.tryToParseResponseRaw signedChar s = .ok { s with m_readBuffer := [] } := by
  rw [ModBus.tryToParseResponseRaw_dispatch signedChar s cur hcur (by omega),
    if_neg (by omega)]
  unfold ModBus.tryToParseResponseRaw_normal
  simp only []
  rw [if_pos (by omega)]

/-- When the CRC check does not return, neither does the decoder. -/
theorem ModBus.tryToParseResponseRaw_crc_fault (signedChar : Bool) (s : ModBus)
    (cur : ModBusTelegram) (hcur : s.m_currentTelegram = some cur) (e : Fault)
    (hpath : ((s.m_readBuffer.getD 1 0).val < 128 ∧ 4 ≤ s.m_readBuffer.length ∧
        s.m_readBuffer.length ≤ 255) ∨
      (128 ≤ (s.m_readBuffer.getD 1 0).val ∧ 5 ≤ s.m_readBuffer.length))
    (hcrc : ModBus.checksumOK s.m_readBuffer = .error e) :
    ModBus.tryToParseResponseRaw signedChar s = .error e := by
  have h4 : 4 ≤ s.m_readBuffer.length := by rcases hpath with h | h <;> omega
  rw [ModBus.tryToParseResponseRaw_dispatch signedChar s cur hcur h4]
  rcases hpath with ⟨hn, _, hmax⟩ | ⟨he, h5⟩
  · rw [if_neg (by omega)]
    unfold ModBus.tryToParseResponseRaw_normal
    simp only []
    rw [if_neg (by omega), hcrc]
  · rw [if_pos he]
    unfold ModBus.tryToParseResponseRaw_exception
    simp only []
    rw [if_neg (by omega), QByteArray.at_two _ (by omega), hcrc]

theorem Signal.isTransactionLost_of_isDecodedFor (id : quint64) (e : Signal)
    (h : e.isDecodedFor id = true) : e.isTransactionLost = false := by
  cases e <;> simp_all [Signal.isDecodedFor, Signal.isTransactionLost]

/-- The four outcomes of a decoder run that returns: nothing changes; the buffer is
cleared; the buffer is cleared and a CRC error counted; or a frame is accepted for the
current telegram, which stops the request timer and emits signals ending with
`signal_transactionFinished`, none of them `signal_transactionLost`. -/
theorem ModBus.tryToParseResponseRaw_cases (signedChar : Bool) (s s' : ModBus)
    (h : ModBus.tryToParseResponseRaw signedChar s = .ok s') :
    s' = s ∨ s' = { s with m_readBuffer := [] } ∨
    s' = { s with m_readBuffer := [], m_crc_errors := toQuint64 (s.m_crc_errors.val + 1) } ∨
    ∃ (cur : ModBusTelegram) (sigs : List Signal), s.m_currentTelegram = some cur ∧
      s' = { s with
          m_readBuffer := [], m_requestTimer := false, m_delayTxTimer := true,
          m_rx_telegrams := toQuint64 (s.m_rx_telegrams.val + 1),
          emitted := s.emitted ++ sigs } ∧
      (∀ e ∈ sigs, e.isTransactionLost = false) ∧
      (∃ r, .signal_responseRawComplete cur.getID r ∈ sigs) := by
  by_cases h4 : s.m_readBuffer.length < 4
  · rw [ModBus.tryToParseResponseRaw_short signedChar s h4] at h
    left; exact (Except.ok.inj h).symm
  have hopt : s.m_currentTelegram = none ∨ ∃ cur, s.m_currentTelegram = some cur := by
    cases s.m_currentTelegram with
    | none => exact Or.inl rfl
    | some cur => exact Or.inr ⟨cur, rfl⟩
  rcases hopt with hcur | ⟨cur, hcur⟩
  · rw [ModBus.tryToParseResponseRaw_stray signedChar s hcur (by omega)] at h
    right; left; exact (Except.ok.inj h).symm
  · by_cases hexc : 128 ≤ (s.m_readBuffer.getD 1 0).val
    · by_cases h5 : s.m_readBuffer.length = 4
      · rw [ModBus.tryToParseResponseRaw_exception_short signedChar s cur hcur h5 hexc] at h
        left; exact (Except.ok.inj h).symm
      · cases hc : ModBus.checksumOK s.m_readBuffer with
        | error e =>
          rw [ModBus.tryToParseResponseRaw_crc_fault signedChar s cur hcur e
            (Or.inr ⟨hexc, by omega⟩) hc] at h
          cases h
        | ok b =>
          cases b with
          | false =>
            rw [ModBus.tryToParseResponseRaw_crc_failed signedChar s cur hcur
              (Or.inr ⟨hexc, by omega⟩) hc] at h
            right; right; left; exact (Except.ok.inj h).symm
          | true =>
            rw [ModBus.tryToParseResponseRaw_exception_accepted signedChar s cur hcur
              (by omega) hexc hc] at h
            right; right; right
            refine ⟨cur, _, hcur, (Except.ok.inj h).symm, ?_, ⟨s.m_readBuffer, ?_⟩⟩
            · intro e he
              simp only [List.mem_cons, List.mem_singleton, List.not_mem_nil, or_false] at he
              rcases he with rfl | rfl | rfl <;> rfl
            · exact List.mem_cons_of_mem _ (List.mem_cons_self _ _)
    · by_cases hmax : 255 < s.m_readBuffer.length
      · rw [ModBus.tryToParseResponseRaw_overflow signedChar s cur hcur hmax (by omega)] at h
        right; left; exact (Except.ok.inj h).symm
      · cases hc : ModBus.checksumOK s.m_readBuffer with
        | error e =>
          rw [ModBus.tryToParseResponseRaw_crc_fault signedChar s cur hcur e
            (Or.inl ⟨by omega, by omega, by omega⟩) hc] at h
          cases h
        | ok b =>
          cases b with
          | false =>
            rw [ModBus.tryToParseResponseRaw_crc_failed signedChar s cur hcur
              (Or.inl ⟨by omega, by omega, by omega⟩) hc] at h
            right; right; left; exact (Except.ok.inj h).symm
          | true =>
            obtain ⟨decoded, hrun, _, hd⟩ := ModBus.tryToParseResponseRaw_normal_accepted
              signedChar s cur hcur (by omega) (by omega) (by omega) hc
            rw [hrun] at h
            right; right; right
            refine ⟨cur, [.signal_responseRawComplete cur.getID s.m_readBuffer,
               .signal_responseRaw cur.getID (s.m_readBuffer.getD 0 0)
                 (toChar ((s.m_readBuffer.getD 1 0).val &&& 0x7F))
                 ((s.m_readBuffer.drop 2).take (s.m_readBuffer.length - 4))] ++
              decoded ++ [.signal_transactionFinished], hcur, ?_, ?_, ⟨s.m_readBuffer, ?_⟩⟩
            · rw [← Except.ok.inj h]
              simp only [List.append_assoc]
            · intro e he
              simp only [List.mem_append, List.mem_cons, List.mem_singleton,
                List.not_mem_nil, or_false] at he
              rcases he with ((rfl | rfl) | he) | rfl
              · rfl
              · rfl
              · exact Signal.isTransactionLost_of_isDecodedFor _ e (hd e he)
              · rfl
            · simp

/-! ### Claim C17: `transaction_lost` and `raw_complete` -/

theorem ModBus.loopEnabled_cons (signedChar : Bool) (s : ModBus) (op : Operation)
    (ops : List Operation) (h : ModBus.loopEnabled signedChar s (op :: ops) = true) :
    op.enabled s = true ∧ ∃ s1, ModBus.step signedChar s op = .ok s1 ∧
      ModBus.loopEnabled signedChar s1 ops = true := by
  simp only [ModBus.loopEnabled, Bool.and_eq_true] at h
  refine ⟨h.1, ?_⟩
  cases hs : ModBus.step signedChar s op with
  | error e => rw [hs] at h; cases h.2
  | ok s1 => rw [hs] at h; exact ⟨s1, rfl, h.2⟩

/-- While the request timer is stopped and a transaction is pending, an enabled
operation other than `slot_tryToSendNextTelegram` leaves both so and emits no
`signal_transactionLost`. -/
theorem ModBus.step_no_transactionLost (signedChar : Bool) (s s1 : ModBus) (op : Operation)
    (hreq : s.m_requestTimer = false) (hp : s.m_transactionPending = true)
    (hen : op.enabled s = true) (hno : op.isTrySend = false)
    (h : ModBus.step signedChar s op = .ok s1) :
    s1.m_requestTimer = false ∧ s1.m_transactionPending = true ∧
    ∃ new, s1.emitted = s.emitted ++ new ∧ ∀ e ∈ new, e.isTransactionLost = false := by
  cases op with
  | writeTelegramToQueue telegram =>
    simp only [ModBus.step, ModBus.writeTelegramToQueue_pending s telegram hp,
      Except.ok.injEq] at h
    subst h
    exact ⟨hreq, hp, [], by simp, by simp⟩
  | slot_tryToSendNextTelegram => cases hno
  | requestTimerExpiry =>
    simp only [Operation.enabled] at hen
    rw [hreq] at hen
    cases hen
  | decoderRun =>
    simp only [ModBus.step, ModBus.slot_rxIdleTimer_fired] at h
    rcases ModBus.tryToParseResponseRaw_cases signedChar _ s1 h with
      h1 | h1 | h1 | ⟨cur, sigs, _, h1, hl, _⟩
    · subst h1; exact ⟨hreq, hp, [], by simp, by simp⟩
    · subst h1; exact ⟨hreq, hp, [], by simp, by simp⟩
    · subst h1; exact ⟨hreq, hp, [], by simp, by simp⟩
    · subst h1; exact ⟨rfl, hp, sigs, rfl, hl⟩
  | readyRead incoming =>
    simp only [ModBus.step, ModBus.slot_readyRead_eq, Except.ok.injEq] at h
    subst h
    exact ⟨hreq, hp, [], by simp, by simp⟩
  | requestContext count dataAddress dataStartAddress =>
    simp only [ModBus.step, Except.ok.injEq] at h
    subst h
    exact ⟨hreq, hp, [], by simp, by simp⟩
  | openPort openOK =>
    simp only [ModBus.step, ModBus.open, Except.ok.injEq] at h
    subst h
    exact ⟨hreq, hp, [], by simp, by simp⟩
  | closePort =>
    simp only [ModBus.step, ModBus.close, Except.ok.injEq] at h
    subst h
    exact ⟨hreq, hp, [], by simp, by simp⟩

theorem ModBus.run_no_transactionLost (signedChar : Bool) (ops : List Operation) :
    ∀ s : ModBus, s.m_requestTimer = false → s.m_transactionPending = true →
      ModBus.loopEnabled signedChar s ops = true →
      (∀ op ∈ ops, op.isTrySend = false) →
      ∃ s' new, ModBus.run signedChar s ops = .ok s' ∧ s'.emitted = s.emitted ++ new ∧
        (∀ e ∈ new, e.isTransactionLost = false) ∧ s'.m_requestTimer = false := by
  induction ops with
  | nil => intro s hreq _ _ _; exact ⟨s, [], rfl, by simp, by simp, hreq⟩
  | cons op ops ih =>
    intro s hreq hp hen hno
    obtain ⟨he, s1, hs, hen1⟩ := ModBus.loopEnabled_cons signedChar s op ops hen
    obtain ⟨hreq1, hp1, new1, hn1, hl1⟩ := ModBus.step_no_transactionLost signedChar s s1 op
      hreq hp he (hno op (List.mem_cons_self _ _)) hs
    obtain ⟨s', new2, hr, hn2, hl2, hreq2⟩ := ih s1 hreq1 hp1 hen1
      (fun o ho => hno o (List.mem_cons_of_mem _ ho))
    refine ⟨s', new1 ++ new2, ?_, ?_, ?_, hreq2⟩
    · rw [ModBus.run_cons signedChar s s1 op ops hs]; exact hr
    · rw [hn2, hn1, List.append_assoc]
    · intro e he
      rcases List.mem_append.mp he with h | h
      · exact hl1 e h
      · exact hl2 e h

/-- C17, counterexample.  On the event loop: the port is opened, a read of one holding
register at `0x0010` of slave 1 is submitted as telegram 1 with the default
`repeatCount = 1`, the reply `01 03 02 00 0A 38 43` arrives, the request timer expires
before the RX idle timer, and then the decoder runs while telegram 1 is still current.
Every operation is enabled when it runs, and the signals emitted are
`transaction_lost(1)`, `transaction_finished`, `raw_complete(1, reply)`, `raw`,
`holding_registers_read`, `transaction_finished`: id 1 is in both a
`transaction_lost` and a `raw_complete`. -/
theorem ModBus.transactionLost_and_rawComplete :
    ModBus.loopEnabled true ModBus.ctor
      [.openPort true, .requestContext 1 0 16,
       .writeTelegramToQueue (ModBusTelegram.mk 1 3 [0, 16, 0, 1] 1 1),
       .readyRead [1, 3, 2, 0, 10, 56, 67], .requestTimerExpiry, .decoderRun] = true ∧
    (ModBus.run true ModBus.ctor
      [.openPort true, .requestContext 1 0 16,
       .writeTelegramToQueue (ModBusTelegram.mk 1 3 [0, 16, 0, 1] 1 1),
       .readyRead [1, 3, 2, 0, 10, 56, 67], .requestTimerExpiry, .decoderRun]).map
        (fun s => s.emitted)
      = .ok [.signal_transactionLost 1, .signal_transactionFinished,
             .signal_responseRawComplete 1 [1, 3, 2, 0, 10, 56, 67],
             .signal_responseRaw 1 1 3 [2, 0, 10],
             .signal_holdingRegistersRead 1 1 16 [10],
             .signal_transactionFinished] := by
  constructor <;> decide!

/-- C17, amended.  Once the decoder accepts a reply for the current telegram (a normal
frame of 4..255 bytes or an exception frame of at least 5 bytes whose CRC verifies,
while a transaction is pending), it emits `raw_complete` with the telegram's id and
stops the request timer, and from then on no `transaction_lost` is emitted by any
operations of the event loop until `slot_tryToSendNextTelegram` runs again. -/
theorem ModBus.no_transactionLost_after_reply (signedChar : Bool) (s : ModBus)
    (cur : ModBusTelegram) (ops : List Operation)
    (hcur : s.m_currentTelegram = some cur) (hp : s.m_transactionPending = true)
    (hpath : ((s.m_readBuffer.getD 1 0).val < 128 ∧ 4 ≤ s.m_readBuffer.length ∧
        s.m_readBuffer.length ≤ 255) ∨
      (128 ≤ (s.m_readBuffer.getD 1 0).val ∧ 5 ≤ s.m_readBuffer.length))
    (hcrc : ModBus.checksumOK s.m_readBuffer = .ok true)
    (hen : ModBus.loopEnabled signedChar s (.decoderRun :: ops) = true)
    (hno : ∀ op ∈ ops, op.isTrySend = false) :
    ∃ s' new, ModBus.run signedChar s (.decoderRun :: ops) = .ok s' ∧
      s'.emitted = s.emitted ++ new ∧
      .signal_responseRawComplete cur.getID s.m_readBuffer ∈ new ∧
      (∀ e ∈ new, e.isTransactionLost = false) ∧ s'.m_requestTimer = false := by
  obtain ⟨_, s1, hs, hen1⟩ := ModBus.loopEnabled_cons signedChar s .decoderRun ops hen
  have hacc : ∃ sigs, s1 = { ({ s with m_rxIdleTimer := false } : ModBus) with
        m_readBuffer := [], m_requestTimer := false, m_delayTxTimer := true,
        m_rx_telegrams := toQuint64 (s.m_rx_telegrams.val + 1),
        emitted := s.emitted ++ sigs } ∧
      .signal_responseRawComplete cur.getID s.m_readBuffer ∈ sigs ∧
      ∀ e ∈ sigs, e.isTransactionLost = false := by
    simp only [ModBus.step, ModBus.slot_rxIdleTimer_fired] at hs
    rcases hpath with ⟨hn, h4, hmax⟩ | ⟨he, h5⟩
    · obtain ⟨decoded, hrun, _, hd⟩ := ModBus.tryToParseResponseRaw_normal_accepted
        signedChar { s with m_rxIdleTimer := false } cur hcur h4 hmax hn hcrc
      rw [hrun] at hs
      refine ⟨[.signal_responseRawComplete cur.getID s.m_readBuffer,
               .signal_responseRaw cur.getID (s.m_readBuffer.getD 0 0)
                 (toChar ((s.m_readBuffer.getD 1 0).val &&& 0x7F))
                 ((s.m_readBuffer.drop 2).take (s.m_readBuffer.length - 4))] ++
              decoded ++ [.signal_transactionFinished], ?_, by simp, ?_⟩
      · rw [← Except.ok.inj hs]
        simp only [List.append_assoc]
      · intro e he
        simp only [List.mem_append, List.mem_cons, List.mem_singleton,
          List.not_mem_nil, or_false] at he
        rcases he with ((rfl | rfl) | he) | rfl
        · rfl
        · rfl
        · exact Signal.isTransactionLost_of_isDecodedFor _ e (hd e he)
        · rfl
    · rw [ModBus.tryToParseResponseRaw_exception_accepted
        signedChar { s with m_rxIdleTimer := false } cur hcur h5 he hcrc] at hs
      refine ⟨_, (Except.ok.inj hs).symm, by simp, ?_⟩
      intro e he
      simp only [List.mem_cons, List.mem_singleton, List.not_mem_nil, or_false] at he
      rcases he with rfl | rfl | rfl <;> rfl
  obtain ⟨sigs, hs1, hraw, hl⟩ := hacc
  obtain ⟨s', new, hr, hn, hl2, hreq⟩ := ModBus.run_no_transactionLost signedChar ops s1
    (by rw [hs1]) (by rw [hs1]; exact hp) hen1 hno
  refine ⟨s', sigs ++ new, ?_, ?_, List.mem_append_left _ hraw, ?_, hreq⟩
  · rw [ModBus.run_cons signedChar s s1 _ ops hs]; exact hr
  · rw [hn, hs1, List.append_assoc]
  · intro e he
    rcases List.mem_append.mp he with h | h
    · exact hl e h
    · exact hl2 e h

/-- C17 amended at the reply `01 03 02 00 0A 38 43` to the telegram of
`sample_awaitingReply`, followed by more bytes, a decoder run and a submission. -/
theorem ModBus.no_transactionLost_after_reply_witness :
    ∃ s' new, ModBus.run true
        { ModBus.sample_awaitingReply with
          m_readBuffer := [1, 3, 2, 0, 10, 56, 67], m_rxIdleTimer := true }
        [.decoderRun, .readyRead [1, 2, 3, 4], .decoderRun,
         .writeTelegramToQueue (ModBusTelegram.mk 2 3 [0, 0, 0, 1] 1 2)] = .ok s' ∧
      s'.emitted = [] ++ new ∧
      .signal_responseRawComplete 1 [1, 3, 2, 0, 10, 56, 67] ∈ new ∧
      (∀ e ∈ new, e.isTransactionLost = false) ∧ s'.m_requestTimer = false :=
  ModBus.no_transactionLost_after_reply true
    { ModBus.sample_awaitingReply with
      m_readBuffer := [1, 3, 2, 0, 10, 56, 67], m_rxIdleTimer := true }
    (ModBusTelegram.mk 1 3 [0x00, 0x10, 0x00, 0x02] 0 1)
    [.readyRead [1, 2, 3, 4], .decoderRun,
     .writeTelegramToQueue (ModBusTelegram.mk 2 3 [0, 0, 0, 1] 1 2)]
    rfl rfl (Or.inl (by decide)) (by decide!) (by decide!) (by decide)

/-! ### Claim C18: the last-request context -/

set_option maxRecDepth 100000 in
/-- C18, failing input.  `readHoldingRegisters(1, 0x0010, 2)` is submitted on the idle
engine and transmitted as telegram 1; while it is current, `readHoldingRegisters(1,
0x0020, 2)` is submitted and queued as telegram 2.  The reply to telegram 1,
`01 03 04 00 0A 00 14 DA 3E`, is then decoded: telegram 1, built with start address
`0x0010`, is current, and the decoded event is `holding_registers_read(1, 1, 0x0020,
[10, 20])`, with the start address of telegram 2.  When the second request asks for one
register instead, the same reply to telegram 1 yields no decoded event at all. -/
theorem ModBus.parseResponse_context_of_later_request :
    ((ModBus.readHoldingRegisters (ModBus.ctor.open true) TelegramIds.start 1 0x0010 2 3).bind
      (fun r1 => (ModBus.readHoldingRegisters r1.2.1 r1.2.2 1 0x0020 2 3).bind
        (fun r2 => (ModBus.slot_rxIdleTimer_fired true
            (ModBus.slot_readyRead r2.2.1 [1, 3, 4, 0, 10, 0, 20, 218, 62])).map
          (fun s => (s.m_currentTelegram.map (fun t => (t.getID, t.data)), s.emitted)))))
      = .ok (some (1, [0x00, 0x10, 0x00, 0x02]),
          [.signal_responseRawComplete 1 [1, 3, 4, 0, 10, 0, 20, 218, 62],
           .signal_responseRaw 1 1 3 [4, 0, 10, 0, 20],
           .signal_holdingRegistersRead 1 1 0x0020 [10, 20],
           .signal_transactionFinished]) ∧
    ((ModBus.readHoldingRegisters (ModBus.ctor.open true) TelegramIds.start 1 0x0010 2 3).bind
      (fun r1 => (ModBus.readHoldingRegisters r1.2.1 r1.2.2 1 0x0020 1 3).bind
        (fun r2 => (ModBus.slot_rxIdleTimer_fired true
            (ModBus.slot_readyRead r2.2.1 [1, 3, 4, 0, 10, 0, 20, 218, 62])).map
          (fun s => (s.m_currentTelegram.map (fun t => (t.getID, t.data)), s.emitted)))))
      = .ok (some (1, [0x00, 0x10, 0x00, 0x02]),
          [.signal_responseRawComplete 1 [1, 3, 4, 0, 10, 0, 20, 218, 62],
           .signal_responseRaw 1 1 3 [4, 0, 10, 0, 20],
           .signal_transactionFinished]) := by
  constructor <;> decide!

/-! ### Claims C19 and C20: what the decoder leaves in the buffer -/

theorem QByteArray.exists_append_two (data : QByteArray) (h : 2 ≤ data.length) :
    ∃ (body : QByteArray) (lo hi : quint8), data = body ++ [lo, hi] ∧
      body.length = data.length - 2 := by
  have h1 : data.length - 2 < data.length := by omega
  have h2 : data.length - 2 + 1 < data.length := by omega
  refine ⟨data.take (data.length - 2), data[data.length - 2], data[data.length - 2 + 1], ?_, ?_⟩
  · have hd : data.drop (data.length - 2) = [data[data.length - 2], data[data.length - 2 + 1]] := by
      rw [List.drop_eq_getElem_cons h1, List.drop_eq_getElem_cons h2,
        List.drop_eq_nil_of_le (by omega)]
    conv_lhs => rw [← List.take_append_drop (data.length - 2) data]
    rw [hd]
  · rw [List.length_take]
    omega

/-- The CRC check returns on every input of 2 to 65537 bytes. -/
theorem ModBus.checksumOK_returns (data : QByteArray) (h2 : 2 ≤ data.length)
    (hmax : data.length ≤ 65537) : ∃ b, ModBus.checksumOK data = .ok b := by
  obtain ⟨body, lo, hi, hd, hb⟩ := QByteArray.exists_append_two data h2
  rw [hd, ModBus.checksumOK_append body lo hi (by omega)]
  exact ⟨_, rfl⟩

/-- The decoder returns on every buffer of at most 65537 bytes.  The buffer is left as
it is when it holds fewer than 4 bytes, or exactly 4 bytes of an exception frame while a
telegram is current; in every other case it is empty afterwards. -/
theorem ModBus.tryToParseResponseRaw_buffer (signedChar : Bool) (s : ModBus)
    (hmax : s.m_readBuffer.length ≤ 65537) :
    ∃ s', ModBus.tryToParseResponseRaw signedChar s = .ok s' ∧
      s'.m_readBuffer
        = if s.m_readBuffer.length < 4 ∨
            (s.m_currentTelegram.isSome = true ∧ 128 ≤ (s.m_readBuffer.getD 1 0).val ∧
              s.m_readBuffer.length = 4)
          then s.m_readBuffer else [] := by
  by_cases h4 : s.m_readBuffer.length < 4
  · rw [ModBus.tryToParseResponseRaw_short signedChar s h4, if_pos (Or.inl h4)]
    exact ⟨s, rfl, rfl⟩
  have hopt : s.m_currentTelegram = none ∨ ∃ cur, s.m_currentTelegram = some cur := by
    cases s.m_currentTelegram with
    | none => exact Or.inl rfl
    | some cur => exact Or.inr ⟨cur, rfl⟩
  rcases hopt with hcur | ⟨cur, hcur⟩
  · rw [ModBus.tryToParseResponseRaw_stray signedChar s hcur (by omega),
      if_neg (by rw [hcur]; simp; omega)]
    exact ⟨_, rfl, rfl⟩
  · obtain ⟨b, hb⟩ := ModBus.checksumOK_returns s.m_readBuffer (by omega) hmax
    by_cases hexc : 128 ≤ (s.m_readBuffer.getD 1 0).val
    · by_cases h5 : s.m_readBuffer.length = 4
      · rw [ModBus.tryToParseResponseRaw_exception_short signedChar s cur hcur h5 hexc,
          if_pos (Or.inr ⟨by rw [hcur]; rfl, hexc, h5⟩)]
        exact ⟨s, rfl, rfl⟩
      · rw [if_neg (by omega)]
        cases b with
        | false =>
          rw [ModBus.tryToParseResponseRaw_crc_failed signedChar s cur hcur
            (Or.inr ⟨hexc, by omega⟩) hb]
          exact ⟨_, rfl, rfl⟩
        | true =>
          rw [ModBus.tryToParseResponseRaw_exception_accepted signedChar s cur hcur
            (by omega) hexc hb]
          exact ⟨_, rfl, rfl⟩
    · rw [if_neg (by omega)]
      by_cases h255 : 255 < s.m_readBuffer.length
      · rw [ModBus.tryToParseResponseRaw_overflow signedChar s cur hcur h255 (by omega)]
        exact ⟨_, rfl, rfl⟩
      · cases b with
        | false =>
          rw [ModBus.tryToParseResponseRaw_crc_failed signedChar s cur hcur
            (Or.inl ⟨by omega, by omega, by omega⟩) hb]
          exact ⟨_, rfl, rfl⟩
        | true =>
          obtain ⟨decoded, hrun, _, _⟩ := ModBus.tryToParseResponseRaw_normal_accepted
            signedChar s cur hcur (by omega) (by omega) (by omega) hb
          rw [hrun]
          exact ⟨_, rfl, rfl⟩

set_option maxRecDepth 100000 in
/-- C19, counterexample.  While the telegram of `sample_awaitingReply` is current, a
buffer of the three bytes `01 02 03` is still in the buffer after the decoder has run on
the RX idle tick, and so is the 4-byte exception frame `01 83 41 81`.  The bytes are
carried over: when the three bytes are followed, after the idle tick, by the CRC-valid
reply `01 03 02 00 0A 38 43`, the next decoder run sees ten bytes, counts a CRC error and
emits nothing, whereas the reply on its own is accepted and counted in `rx_telegrams`. -/
theorem ModBus.slot_rxIdleTimer_fired_buffer_kept :
    (ModBus.slot_rxIdleTimer_fired true
        { ModBus.sample_awaitingReply with m_readBuffer := [1, 2, 3] }).map
      (fun s => s.m_readBuffer) = .ok [1, 2, 3] ∧
    (ModBus.slot_rxIdleTimer_fired true
        { ModBus.sample_awaitingReply with m_readBuffer := [0x01, 0x83, 0x41, 0x81] }).map
      (fun s => s.m_readBuffer) = .ok [0x01, 0x83, 0x41, 0x81] ∧
    (ModBus.run true ModBus.sample_awaitingReply
        [.readyRead [1, 2, 3], .decoderRun, .readyRead [1, 3, 2, 0, 10, 56, 67],
         .decoderRun]).map
      (fun s => (s.m_crc_errors, s.m_rx_telegrams, s.emitted)) = .ok (1, 0, []) ∧
    (ModBus.run true ModBus.sample_awaitingReply
        [.readyRead [1, 3, 2, 0, 10, 56, 67], .decoderRun]).map
      (fun s => (s.m_crc_errors, s.m_rx_telegrams, s.emitted.length)) = .ok (0, 1, 3) := by
  refine ⟨?_, ?_, ?_, ?_⟩ <;> decide!

/-- C19, amended.  For every engine state whose buffer holds at most 65537 bytes the
decoder run of the RX idle tick returns.  Afterwards the buffer is empty, except that it
is left as it was when it holds fewer than 4 bytes, or exactly 4 bytes with the high bit
of the second byte set while a telegram is current. -/
theorem ModBus.slot_rxIdleTimer_fired_buffer (signedChar : Bool) (s : ModBus)
    (hmax : s.m_readBuffer.length ≤ 65537) :
    ∃ s', ModBus.slot_rxIdleTimer_fired signedChar s = .ok s' ∧
      (4 ≤ s.m_readBuffer.length →
        ¬ (s.m_currentTelegram.isSome = true ∧ 128 ≤ (s.m_readBuffer.getD 1 0).val ∧
            s.m_readBuffer.length = 4) → s'.m_readBuffer = []) ∧
      (s.m_readBuffer.length < 4 ∨
        (s.m_currentTelegram.isSome = true ∧ 128 ≤ (s.m_readBuffer.getD 1 0).val ∧
          s.m_readBuffer.length = 4) → s'.m_readBuffer = s.m_readBuffer) := by
  obtain ⟨s', h, hb⟩ := ModBus.tryToParseResponseRaw_buffer signedChar s hmax
  refine ⟨s', h, ?_, ?_⟩
  · intro h4 hn
    rw [hb, if_neg]
    rintro (h | h)
    · omega
    · exact hn h
  · intro hc
    rw [hb, if_pos hc]

/-- C19 amended at the ten bytes `01 02 03 01 03 02 00 0A 38 43` while a telegram is
current: the decoder run returns and leaves the buffer empty. -/
theorem ModBus.slot_rxIdleTimer_fired_buffer_witness :
    ∃ s', ModBus.slot_rxIdleTimer_fired true
        { ModBus.sample_awaitingReply with
          m_readBuffer := [1, 2, 3, 1, 3, 2, 0, 10, 56, 67] } = .ok s' ∧
      s'.m_readBuffer = [] := by
  obtain ⟨s', h, h1, _⟩ := ModBus.slot_rxIdleTimer_fired_buffer true
    { ModBus.sample_awaitingReply with m_readBuffer := [1, 2, 3, 1, 3, 2, 0, 10, 56, 67] }
    (by decide)
  exact ⟨s', h, h1 (by decide) (by decide)⟩

set_option maxRecDepth 100000 in
/-- C20, counterexample.  On the constructed engine, which has no current telegram, the
decoder leaves the three stray bytes `01 02 03` in the buffer. -/
theorem ModBus.tryToParseResponseRaw_stray_kept :
    ModBus.ctor.m_currentTelegram = none ∧
    (ModBus.tryToParseResponseRaw true { ModBus.ctor with m_readBuffer := [1, 2, 3] }).map
      (fun s => s.m_readBuffer) = .ok [1, 2, 3] ∧
    (ModBus.tryToParseResponseRaw false { ModBus.ctor with m_readBuffer := [1, 2, 3] }).map
      (fun s => s.m_readBuffer) = .ok [1, 2, 3] := by
  refine ⟨rfl, ?_, ?_⟩ <;> decide

/-- C20, amended.  When no current telegram exists, the decoder returns on every
buffer: a buffer of at least 4 bytes is cleared, a buffer of fewer than 4 bytes is left
as it is, and in both cases nothing else changes, so no signal is emitted and
`rx_telegrams` and `crc_errors` keep their values. -/
theorem ModBus.tryToParseResponseRaw_no_current (signedChar : Bool) (s : ModBus)
    (hcur : s.m_currentTelegram = none) :
    ModBus.tryToParseResponseRaw signedChar s
      = .ok { s with
          m_readBuffer := if s.m_readBuffer.length < 4 then s.m_readBuffer else [] } := by
  by_cases h4 : s.m_readBuffer.length < 4
  · rw [ModBus.tryToParseResponseRaw_short signedChar s h4, if_pos h4]
  · rw [ModBus.tryToParseResponseRaw_stray signedChar s hcur (by omega), if_neg h4]

/-- C20 amended at five stray bytes on the constructed engine. -/
theorem ModBus.tryToParseResponseRaw_no_current_witness :
    ModBus.tryToParseResponseRaw true { ModBus.ctor with m_readBuffer := [1, 2, 3, 4, 5] }
      = .ok ModBus.ctor :=
  ModBus.tryToParseResponseRaw_no_current true
    { ModBus.ctor with m_readBuffer := [1, 2, 3, 4, 5] } rfl

/-! ### Claim C21: the normal path -/

theorem and_0x7F_of_lt (b : quint8) (h : b.val < 128) : toChar (b.val &&& 0x7F) = b := by
  apply Fin.ext
  show (b.val &&& 0x7F) % 256 = b.val
  have h1 : b.val &&& 0x7F = b.val % 128 := Nat.and_pow_two_sub_one_eq_mod b.val 7
  rw [h1]
  omega

theorem QByteArray.drop_two_take (b : QByteArray) (h : 4 ≤ b.length) :
    b = [b.getD 0 0, b.getD 1 0] ++ (b.drop 2).take (b.length - 4) ++ b.drop (b.length - 2) := by
  have h0 : 0 < b.length := by omega
  have h1 : 1 < b.length := by omega
  have e1 : [b.getD 0 0, b.getD 1 0] = b.take 2 := by
    rw [List.getD_eq_getElem _ _ h0, List.getD_eq_getElem _ _ h1]
    match b, h with
    | x :: y :: rest, _ => rfl
  have e2 : (b.drop 2).take (b.length - 4) ++ b.drop (b.length - 2) = b.drop 2 := by
    have : b.drop (b.length - 2) = (b.drop 2).drop (b.length - 4) := by
      rw [List.drop_drop]
      congr 1
      omega
    rw [this, List.take_append_drop]
  rw [e1, List.append_assoc, e2, List.take_append_drop]

/-- C21. Normal path: for every engine state with a current telegram `cur` and a buffer
of 4..255 bytes whose second byte has the high bit clear and whose CRC verifies (no
hypothesis relates the buffer's address or function code to those of `cur`), the decoder
returns, stops the request timer, increments the 64-bit counter `rx_telegrams` (by
exactly 1 below `2^64 - 1`), leaves `crc_errors` alone, emits `raw_complete(id, buffer)`,
then `raw(id, buffer[0], buffer[1] & 0x7F, pdu)`, then at most one decoded read event,
then `transaction_finished`, and leaves the buffer empty; `pdu` is the buffer without its
first two and last two bytes and `buffer[1] & 0x7F` is `buffer[1]`. -/
theorem ModBus.tryToParseResponseRaw_normal_path (signedChar : Bool) (s : ModBus)
    (cur : ModBusTelegram) (hcur : s.m_currentTelegram = some cur)
    (hlen : 4 ≤ s.m_readBuffer.length) (hmax : s.m_readBuffer.length ≤ 255)
    (hexc : (s.m_readBuffer.getD 1 0).val < 128)
    (hcrc : ModBus.checksumOK s.m_readBuffer = .ok true) :
    ∃ (s' : ModBus) (pdu : QByteArray) (decoded : List Signal),
      ModBus.tryToParseResponseRaw signedChar s = .ok s' ∧
      s'.m_requestTimer = false ∧
      s'.m_rx_telegrams.val = (s.m_rx_telegrams.val + 1) % 2 ^ 64 ∧
      (s.m_rx_telegrams.val < 2 ^ 64 - 1 → s'.m_rx_telegrams.val = s.m_rx_telegrams.val + 1) ∧
      s'.m_crc_errors = s.m_crc_errors ∧
      s'.emitted = s.emitted ++
        [.signal_responseRawComplete cur.getID s.m_readBuffer,
         .signal_responseRaw cur.getID (s.m_readBuffer.getD 0 0)
           (toChar ((s.m_readBuffer.getD 1 0).val &&& 0x7F)) pdu] ++
        decoded ++ [.signal_transactionFinished] ∧
      toChar ((s.m_readBuffer.getD 1 0).val &&& 0x7F) = s.m_readBuffer.getD 1 0 ∧
      s.m_readBuffer = [s.m_readBuffer.getD 0 0, s.m_readBuffer.getD 1 0] ++ pdu ++
        s.m_readBuffer.drop (s.m_readBuffer.length - 2) ∧
      pdu.length = s.m_readBuffer.length - 4 ∧
      decoded.length ≤ 1 ∧ (∀ e ∈ decoded, e.isDecodedFor cur.getID = true) ∧
      s'.m_readBuffer = [] := by
  obtain ⟨decoded, hrun, hl, hd⟩ := ModBus.tryToParseResponseRaw_normal_accepted signedChar s
    cur hcur hlen hmax hexc hcrc
  refine ⟨_, (s.m_readBuffer.drop 2).take (s.m_readBuffer.length - 4), decoded, hrun,
    rfl, rfl, ?_, rfl, rfl, and_0x7F_of_lt _ hexc, QByteArray.drop_two_take _ hlen, ?_,
    hl, hd, rfl⟩
  · intro h
    show (s.m_rx_telegrams.val + 1) % 2 ^ 64 = _
    exact Nat.mod_eq_of_lt (by omega)
  · rw [List.length_take, List.length_drop]
    omega

/-- C21 at the frame `02 04 02 00 0A 7D 37` (slave 2, function 4) while the telegram of
`sample_awaitingReply` (slave 1, function 3, id 1) is current. -/
theorem ModBus.tryToParseResponseRaw_normal_path_witness :
    ∃ (s' : ModBus) (decoded : List Signal),
      ModBus.tryToParseResponseRaw true
        { ModBus.sample_awaitingReply with m_readBuffer := [2, 4, 2, 0, 10, 125, 55] }
        = .ok s' ∧
      s'.m_requestTimer = false ∧ s'.m_rx_telegrams.val = 1 ∧
      s'.emitted = [] ++
        [.signal_responseRawComplete 1 [2, 4, 2, 0, 10, 125, 55],
         .signal_responseRaw 1 2 4 [2, 0, 10]] ++ decoded ++ [.signal_transactionFinished] ∧
      s'.m_readBuffer = [] := by
  obtain ⟨s', pdu, decoded, h, ht, hr, _, _, he, _, _, _, _, _, hb⟩ :=
    ModBus.tryToParseResponseRaw_normal_path true
      { ModBus.sample_awaitingReply with m_readBuffer := [2, 4, 2, 0, 10, 125, 55] }
      (ModBusTelegram.mk 1 3 [0x00, 0x10, 0x00, 0x02] 0 1) rfl (by decide) (by decide)
      (by decide) (by decide!)
  have hs := h
  rw [show ModBus.tryToParseResponseRaw true
        { ModBus.sample_awaitingReply with m_readBuffer := [2, 4, 2, 0, 10, 125, 55] }
      = .ok { ModBus.sample_awaitingReply with
          m_requestTimer := false, m_delayTxTimer := true, m_rx_telegrams := 1,
          emitted := [.signal_responseRawComplete 1 [2, 4, 2, 0, 10, 125, 55],
            .signal_responseRaw 1 2 4 [2, 0, 10], .signal_transactionFinished] }
      from by decide!] at hs
  have hs' := Except.ok.inj hs
  subst hs'
  exact ⟨_, [], h, rfl, rfl, rfl, rfl⟩

/-! ### Claim C22: validation of register replies -/

/-- The decoder on a normal frame that passes the CRC check, in terms of what
`parseResponse` returns. -/
theorem ModBus.tryToParseResponseRaw_normal_decode (signedChar : Bool) (s s2 : ModBus)
    (cur : ModBusTelegram) (hcur : s.m_currentTelegram = some cur)
    (hlen : 4 ≤ s.m_readBuffer.length) (hmax : s.m_readBuffer.length ≤ 255)
    (hexc : (s.m_readBuffer.getD 1 0).val < 128)
    (hcrc : ModBus.checksumOK s.m_readBuffer = .ok true)
    (hp : ModBus.parseResponse signedChar
        { s with m_requestTimer := false,
                 m_rx_telegrams := toQuint64 (s.m_rx_telegrams.val + 1),
                 emitted := s.emitted ++
                   [.signal_responseRawComplete cur.getID s.m_readBuffer,
                    .signal_responseRaw cur.getID (s.m_readBuffer.getD 0 0)
                      (s.m_readBuffer.getD 1 0)
                      ((s.m_readBuffer.drop 2).take (s.m_readBuffer.length - 4))] }
        cur.getID (s.m_readBuffer.getD 0 0) (s.m_readBuffer.getD 1 0)
        ((s.m_readBuffer.drop 2).take (s.m_readBuffer.length - 4)) = .ok s2) :
    ModBus.tryToParseResponseRaw signedChar s
      = .ok { (s2.emit .signal_transactionFinished) with m_readBuffer := [] } := by
  rw [ModBus.tryToParseResponseRaw_dispatch signedChar s cur hcur hlen, if_neg (by omega)]
  unfold ModBus.tryToParseResponseRaw_normal
  simp only []
  rw [if_neg (by omega), hcrc]
  simp only [Bool.not_true, Bool.false_eq_true, if_false]
  have hmid : QByteArray.mid s.m_readBuffer 2 ((s.m_readBuffer.length : Int) - 4)
      = (s.m_readBuffer.drop 2).take (s.m_readBuffer.length - 4) := by
    unfold QByteArray.mid
    rw [if_neg (by omega)]
    have : ((s.m_readBuffer.length : Int) - 4).toNat = s.m_readBuffer.length - 4 := by omega
    rw [this]
    rfl
  rw [hmid, and_0x7F_of_lt _ hexc]
  rw [ModBus.emit_decoded _ _ (by simp), ModBus.emit_decoded _ _ (by simp)]
  simp only [List.append_assoc, List.singleton_append]
  rw [hp]

/-- Function `parseResponse` for function codes 3 and 4: the signals it adds. -/
theorem ModBus.parseResponse_registers_new (signedChar : Bool) (s : ModBus)
    (telegramID : quint64) (slaveAddress functionCode : quint8) (payload : QByteArray)
    (hfc : functionCode = 3 ∨ functionCode = 4) :
    ∃ new : List Signal,
      ModBus.parseResponse signedChar s telegramID slaveAddress functionCode payload
        = .ok { s with emitted := s.emitted ++ new } ∧
      new = (if 1 ≤ payload.length ∧ payload.length = (payload.getD 0 0).val + 1 ∧
              payload.length = s.m_requestedCount.val * 2 + 1 then
          [(if functionCode = 3 then Signal.signal_holdingRegistersRead
            else Signal.signal_inputRegistersRead)
            telegramID slaveAddress s.m_requestedDataStartAddress
            ((List.range s.m_requestedCount.val).map
              (fun k => ModBus.parseResponse_word signedChar
                (payload.getD (2 * k + 1) 0) (payload.getD (2 * k + 2) 0)))]
        else []) := by
  rw [ModBus.parseResponse_registers signedChar s telegramID slaveAddress functionCode payload
    hfc]
  split
  · refine ⟨_, ?_, rfl⟩
    rw [ModBus.emit_decoded]
    split <;> simp
  · exact ⟨[], by simp, rfl⟩

/-- C22. For function codes 3 and 4 `parseResponse` returns on every PDU, and it emits a
decoded event if and only if the PDU is non-empty, its length is its first byte plus 1
and its length is `2 * requested_count + 1`; the event is then
`holding_registers_read` for function code 3 and `input_registers_read` for 4, with
`requested_count` words, and otherwise nothing is emitted and the state is unchanged.
In the decoder: on every CRC-valid normal frame of 4..255 bytes with function code 3 or
4 the signals emitted are `raw_complete`, `raw`, the decoded event exactly when the PDU
passes the three tests, and `transaction_finished`. -/
theorem ModBus.parseResponse_registers_validated (signedChar : Bool)
    (functionCode : quint8) (hfc : functionCode = 3 ∨ functionCode = 4) :
    (∀ (s : ModBus) (telegramID : quint64) (slaveAddress : quint8) (payload : QByteArray),
      ∃ (s' : ModBus) (new : List Signal),
        ModBus.parseResponse signedChar s telegramID slaveAddress functionCode payload
          = .ok s' ∧
        s' = { s with emitted := s.emitted ++ new } ∧
        ((∃ e ∈ new, e.isDecodedFor telegramID = true) ↔
          (1 ≤ payload.length ∧ payload.length = (payload.getD 0 0).val + 1 ∧
            payload.length = 2 * s.m_requestedCount.val + 1)) ∧
        (∀ e ∈ new, ∃ data : List quint16, data.length = s.m_requestedCount.val ∧
          e = (if functionCode = 3 then Signal.signal_holdingRegistersRead
               else Signal.signal_inputRegistersRead)
              telegramID slaveAddress s.m_requestedDataStartAddress data) ∧
        new.length ≤ 1) ∧
    (∀ (s : ModBus) (cur : ModBusTelegram), s.m_currentTelegram = some cur →
      4 ≤ s.m_readBuffer.length → s.m_readBuffer.length ≤ 255 →
      s.m_readBuffer.getD 1 0 = functionCode →
      ModBus.checksumOK s.m_readBuffer = .ok true →
      ∃ (s' : ModBus) (new : List Signal),
        ModBus.tryToParseResponseRaw signedChar s = .ok s' ∧
        s'.emitted = s.emitted ++
          [.signal_responseRawComplete cur.getID s.m_readBuffer,
           .signal_responseRaw cur.getID (s.m_readBuffer.getD 0 0) functionCode
             ((s.m_readBuffer.drop 2).take (s.m_readBuffer.length - 4))] ++
          new ++ [.signal_transactionFinished] ∧
        ((∃ e ∈ new, e.isDecodedFor cur.getID = true) ↔
          (5 ≤ s.m_readBuffer.length ∧
            s.m_readBuffer.length - 4 = (s.m_readBuffer.getD 2 0).val + 1 ∧
            s.m_readBuffer.length - 4 = 2 * s.m_requestedCount.val + 1)) ∧
        new.length ≤ 1) := by
  have key : ∀ (s : ModBus) (telegramID : quint64) (slaveAddress : quint8)
      (payload : QByteArray),
      ∃ (new : List Signal),
        ModBus.parseResponse signedChar s telegramID slaveAddress functionCode payload
          = .ok { s with emitted := s.emitted ++ new } ∧
        ((∃ e ∈ new, e.isDecodedFor telegramID = true) ↔
          (1 ≤ payload.length ∧ payload.length = (payload.getD 0 0).val + 1 ∧
            payload.length = 2 * s.m_requestedCount.val + 1)) ∧
        (∀ e ∈ new, ∃ data : List quint16, data.length = s.m_requestedCount.val ∧
          e = (if functionCode = 3 then Signal.signal_holdingRegistersRead
               else Signal.signal_inputRegistersRead)
              telegramID slaveAddress s.m_requestedDataStartAddress data) ∧
        new.length ≤ 1 := by
    intro s telegramID slaveAddress payload
    obtain ⟨new, hrun, hnew⟩ := ModBus.parseResponse_registers_new signedChar s telegramID
      slaveAddress functionCode payload hfc
    refine ⟨new, hrun, ?_, ?_, ?_⟩
    · rw [hnew]
      split
      · rename_i hc
        constructor
        · intro _
          exact ⟨hc.1, hc.2.1, by omega⟩
        · intro _
          refine ⟨_, List.mem_singleton_self _, ?_⟩
          split <;> simp [Signal.isDecodedFor]
      · rename_i hc
        constructor
        · rintro ⟨e, he, _⟩
          cases he
        · intro h
          exact absurd ⟨h.1, h.2.1, by omega⟩ hc
    · rw [hnew]
      split
      · intro e he
        rw [List.mem_singleton] at he
        exact ⟨_, by simp, he⟩
      · intro e he
        cases he
    · rw [hnew]
      split <;> simp
  constructor
  · intro s telegramID slaveAddress payload
    obtain ⟨new, hrun, h1, h2, h3⟩ := key s telegramID slaveAddress payload
    exact ⟨_, new, hrun, rfl, h1, h2, h3⟩
  · intro s cur hcur hlen hmax hb hcrc
    have hexc : (s.m_readBuffer.getD 1 0).val < 128 := by
      rw [hb]
      rcases hfc with h | h <;> subst h <;> decide
    obtain ⟨new, hrun, h1, _, h3⟩ := key
      { s with m_requestTimer := false,
               m_rx_telegrams := toQuint64 (s.m_rx_telegrams.val + 1),
               emitted := s.emitted ++
                 [.signal_responseRawComplete cur.getID s.m_readBuffer,
                  .signal_responseRaw cur.getID (s.m_readBuffer.getD 0 0)
                    (s.m_readBuffer.getD 1 0)
                    ((s.m_readBuffer.drop 2).take (s.m_readBuffer.length - 4))] }
      cur.getID (s.m_readBuffer.getD 0 0)
      ((s.m_readBuffer.drop 2).take (s.m_readBuffer.length - 4))
    rw [← hb] at hrun
    have hdec := ModBus.tryToParseResponseRaw_normal_decode signedChar s _ cur hcur hlen hmax
      hexc hcrc hrun
    refine ⟨_, new, hdec, ?_, ?_, h3⟩
    · rw [← hb]
      simp [ModBus.emit, List.append_assoc]
    · rw [h1]
      have hl : ((s.m_readBuffer.drop 2).take (s.m_readBuffer.length - 4)).length
          = s.m_readBuffer.length - 4 := by
        rw [List.length_take, List.length_drop]
        omega
      rw [hl]
      constructor
      · rintro ⟨ha, hb2, hc⟩
        refine ⟨by omega, ?_, hc⟩
        rw [hb2]
        congr 2
        rw [List.getD_eq_getElem?_getD, List.getD_eq_getElem?_getD, List.getElem?_take,
          if_pos (by omega), List.getElem?_drop]
      · rintro ⟨ha, hb2, hc⟩
        refine ⟨by omega, ?_, hc⟩
        rw [hb2]
        congr 2
        rw [List.getD_eq_getElem?_getD, List.getD_eq_getElem?_getD, List.getElem?_take,
          if_pos (by omega), List.getElem?_drop]

/-- C22 at function code 3, `requested_count = 2` and the PDU `04 00 0A 00 14`, which
passes the three tests: a decoded event is emitted. -/
theorem ModBus.parseResponse_registers_validated_witness :
    ∃ (s' : ModBus) (new : List Signal),
      ModBus.parseResponse true { ModBus.ctor with m_requestedCount := 2 } 1 1 3
        [4, 0, 10, 0, 20] = .ok s' ∧
      s' = { ({ ModBus.ctor with m_requestedCount := 2 } : ModBus) with
        emitted := [] ++ new } ∧
      (∃ e ∈ new, e.isDecodedFor 1 = true) := by
  obtain ⟨s', new, h, hs, hiff, _⟩ :=
    (ModBus.parseResponse_registers_validated true 3 (Or.inl rfl)).1
      { ModBus.ctor with m_requestedCount := 2 } 1 1 [4, 0, 10, 0, 20]
  exact ⟨s', new, h, hs, hiff.mpr (by decide)⟩

/-! ### Claim C23: `writeMultipleRegisters` -/

theorem ModBus.writeMultipleRegisters_loop_eq (data : List quint16) :
    ∀ payload : QByteArray, ModBus.writeMultipleRegisters_loop payload data
      = payload ++ data.flatMap (fun w => [toChar (w.val / 256), toChar (w.val % 256)]) := by
  induction data with
  | nil => intro payload; simp [ModBus.writeMultipleRegisters_loop]
  | cons w data ih =>
    intro payload
    simp only [ModBus.writeMultipleRegisters_loop, ih, List.flatMap_cons, List.append_assoc,
      shiftRight_8_eq_div, and_255_eq_mod]
    rfl

/-- The payload that `writeMultipleRegisters` builds, for a list of any length. -/
theorem ModBus.writeMultipleRegisters_payload_eq (dataStartAddress : quint16)
    (data : List quint16) :
    ModBus.writeMultipleRegisters_payload dataStartAddress data
      = [toChar (dataStartAddress.val / 256), toChar (dataStartAddress.val % 256),
         toChar (data.length % 65536 / 256), toChar (data.length % 65536 % 256),
         toChar (data.length % 65536 * 2)] ++
        data.flatMap (fun w => [toChar (w.val / 256), toChar (w.val % 256)]) := by
  unfold ModBus.writeMultipleRegisters_payload
  simp only [ModBus.writeMultipleRegisters_loop_eq, shiftRight_8_eq_div, and_255_eq_mod]
  rfl

theorem List.length_flatMap_pair {α β : Type} (l : List α) (f g : α → β) :
    (l.flatMap (fun w => [f w, g w])).length = 2 * l.length := by
  induction l with
  | nil => rfl
  | cons a l ih => simp only [List.flatMap_cons, List.length_append, ih, List.length_cons,
      List.length_nil]; omega

set_option maxRecDepth 100000 in
/-- C23, counterexample.  For a list of 128 words the payload has `5 + 2 * 128 = 261`
bytes, 256 of them data bytes, and its byte-count byte is `0`, not `2 * 128`. -/
theorem ModBus.writeMultipleRegisters_byte_count_wraps :
    (ModBus.writeMultipleRegisters_payload 0 (List.replicate 128 7)).length = 261 ∧
    ((ModBus.writeMultipleRegisters_payload 0 (List.replicate 128 7)).getD 4 0).val = 0 ∧
    ((ModBus.writeMultipleRegisters_payload 0 (List.replicate 128 7)).getD 4 0).val
      ≠ 2 * (List.replicate 128 (7 : quint16)).length := by
  refine ⟨?_, ?_, ?_⟩ <;> decide!

/-- C23, amended.  For every start address and every list of `N` words with `N ≤ 127`
the payload is `start_hi, start_lo, cnt_hi, cnt_lo` with `cnt = N` big-endian, a
byte-count byte equal to `2 * N`, and the `N` words in list order, each as high byte
then low byte.  For a list of any length the payload has `5 + 2 * N` bytes, the words
follow in the same way, the count bytes hold `N mod 2^16` and the byte-count byte holds
`2 * N mod 256`.  The telegram that `writeMultipleRegisters` queues carries this payload
and the given slave address and function code. -/
theorem ModBus.writeMultipleRegisters_payload_format (dataStartAddress : quint16)
    (data : List quint16) :
    (ModBus.writeMultipleRegisters_payload dataStartAddress data).length
      = 5 + 2 * data.length ∧
    (∃ cnt_hi cnt_lo byte_count : quint8,
      ModBus.writeMultipleRegisters_payload dataStartAddress data
        = [toChar (dataStartAddress.val / 256), toChar (dataStartAddress.val % 256),
           cnt_hi, cnt_lo, byte_count] ++
          data.flatMap (fun w => [toChar (w.val / 256), toChar (w.val % 256)]) ∧
      256 * cnt_hi.val + cnt_lo.val = data.length % 65536 ∧
      byte_count.val = 2 * data.length % 256 ∧
      (data.length ≤ 127 →
        256 * cnt_hi.val + cnt_lo.val = data.length ∧ byte_count.val = 2 * data.length)) ∧
    (∀ (s : ModBus) (ids : TelegramIds) (slaveAddress functionCode : quint8),
      ModBus.writeMultipleRegisters s ids slaveAddress dataStartAddress data functionCode
        = (ModBus.writeTelegramToQueue
            { s with m_requestedCount := toQuint16 data.length,
                     m_requestedDataStartAddress := dataStartAddress }
            (ModBusTelegram.mk slaveAddress functionCode
              (ModBus.writeMultipleRegisters_payload dataStartAddress data) 1 ids.idData)).map
          (fun q => (q.1, q.2, { ids with idData := TelegramIds.advance ids.idData }))) := by
  rw [ModBus.writeMultipleRegisters_payload_eq]
  refine ⟨?_, ⟨_, _, _, rfl, ?_, ?_, ?_⟩, ?_⟩
  · rw [List.length_append, List.length_flatMap_pair]
    rfl
  · show 256 * (data.length % 65536 / 256 % 256) + data.length % 65536 % 256 % 256 = _
    omega
  · show data.length % 65536 * 2 % 256 = _
    omega
  · intro h
    constructor
    · show 256 * (data.length % 65536 / 256 % 256) + data.length % 65536 % 256 % 256 = _
      omega
    · show data.length % 65536 * 2 % 256 = _
      omega
  · intro s ids slaveAddress functionCode
    unfold ModBus.writeMultipleRegisters ModBusTelegram.ctor_data
    simp only [← ModBus.writeMultipleRegisters_payload_eq]
    cases ModBus.writeTelegramToQueue _ _ <;> rfl

/-- C23 amended at start address `0x0010` and the words `[10, 20]`. -/
theorem ModBus.writeMultipleRegisters_payload_format_witness :
    ∃ cnt_hi cnt_lo byte_count : quint8,
      ModBus.writeMultipleRegisters_payload 0x0010 [10, 20]
        = [0x00, 0x10, cnt_hi, cnt_lo, byte_count, 0, 10, 0, 20] ∧
      256 * cnt_hi.val + cnt_lo.val = 2 ∧ byte_count.val = 4 := by
  obtain ⟨_, ⟨cnt_hi, cnt_lo, byte_count, hp, _, _, h127⟩, _⟩ :=
    ModBus.writeMultipleRegisters_payload_format 0x0010 [10, 20]
  exact ⟨cnt_hi, cnt_lo, byte_count, hp, h127 (by decide)⟩

/-! ### The members that sending changes -/

/-- The two outcomes of `slot_tryToSendNextTelegram_send` when it returns: a telegram is
current, the request timer runs, a transaction is pending, and only `written` may have
changed besides. -/
theorem ModBus.slot_tryToSendNextTelegram_send_cases (s s' : ModBus)
    (h : ModBus.slot_tryToSendNextTelegram_send s = .ok s') :
    ∃ (t : ModBusTelegram) (w : List QByteArray),
      s' = { s with m_transactionPending := true, m_requestTimer := true,
                    m_currentTelegram := some t, written := w } := by
  unfold ModBus.slot_tryToSendNextTelegram_send ModBus.writeTelegramNow at h
  simp only [] at h
  split at h
  · cases h
  · rename_i r hr
    split at hr
    · cases hr
    · rename_i t ht
      split at hr
      · cases hr
      · split at hr
        · cases hr
        · rename_i s2 hw
          simp only [Except.ok.injEq] at hr h
          subst hr
          subst h
          unfold ModBus.writeTelegramRawNow at hw
          split at hw
          · cases hw
          · split at hw
            · simp only [Except.ok.injEq] at hw
              subst hw
              exact ⟨_, _, rfl⟩
            · simp only [Except.ok.injEq] at hw
              subst hw
              exact ⟨_, _, rfl⟩

theorem ModBus.slot_tryToSendNextTelegram_keep (s : ModBus) (t : ModBusTelegram)
    (hcur : s.m_currentTelegram = some t) (hne : t.repeatCount ≠ 0) :
    ModBus.slot_tryToSendNextTelegram s = ModBus.slot_tryToSendNextTelegram_send s := by
  unfold ModBus.slot_tryToSendNextTelegram
  simp only [hcur, if_neg hne]

theorem ModBus.slot_tryToSendNextTelegram_take (s : ModBus) (t : ModBusTelegram)
    (rest : List ModBusTelegram) (hcur : s.m_currentTelegram = none)
    (hq : s.m_telegramQueue = t :: rest) :
    ModBus.slot_tryToSendNextTelegram s
      = ModBus.slot_tryToSendNextTelegram_send
          { s with m_currentTelegram := some t, m_telegramQueue := rest } := by
  unfold ModBus.slot_tryToSendNextTelegram
  simp only [hcur, hq]

/-- The two outcomes of `slot_tryToSendNextTelegram` when it returns: the engine goes
idle with no current telegram, or a telegram is current and transmitted. -/
theorem ModBus.slot_tryToSendNextTelegram_cases (s s' : ModBus)
    (h : ModBus.slot_tryToSendNextTelegram s = .ok s') :
    s' = { s with m_currentTelegram := none, m_transactionPending := false } ∨
    ∃ (t : ModBusTelegram) (q : List ModBusTelegram) (w : List QByteArray),
      s' = { s with m_transactionPending := true, m_requestTimer := true,
                    m_currentTelegram := some t, m_telegramQueue := q, written := w } := by
  have hnone : ∀ s0 : ModBus, s0.m_currentTelegram = none →
      ModBus.slot_tryToSendNextTelegram s0 = .ok s' →
      s' = { s0 with m_currentTelegram := none, m_transactionPending := false } ∨
      ∃ (t : ModBusTelegram) (q : List ModBusTelegram) (w : List QByteArray),
        s' = { s0 with m_transactionPending := true, m_requestTimer := true,
                       m_currentTelegram := some t, m_telegramQueue := q, written := w } := by
    intro s0 hcur h0
    have hq : s0.m_telegramQueue = [] ∨ ∃ t rest, s0.m_telegramQueue = t :: rest := by
      cases s0.m_telegramQueue with
      | nil => exact Or.inl rfl
      | cons t rest => exact Or.inr ⟨t, rest, rfl⟩
    rcases hq with hq | ⟨t, rest, hq⟩
    · rw [ModBus.slot_tryToSendNextTelegram_idle s0 hcur hq] at h0
      left
      rw [← Except.ok.inj h0]
      simp only [hcur]
    · rw [ModBus.slot_tryToSendNextTelegram_take s0 t rest hcur hq] at h0
      obtain ⟨t2, w, hs⟩ := ModBus.slot_tryToSendNextTelegram_send_cases _ _ h0
      exact Or.inr ⟨t2, rest, w, hs⟩
  have hopt : s.m_currentTelegram = none ∨ ∃ cur, s.m_currentTelegram = some cur := by
    cases s.m_currentTelegram with
    | none => exact Or.inl rfl
    | some cur => exact Or.inr ⟨cur, rfl⟩
  rcases hopt with hcur | ⟨cur, hcur⟩
  · exact hnone s hcur h
  · by_cases h0 : cur.repeatCount = 0
    · rw [ModBus.slot_tryToSendNextTelegram_destroy s cur hcur h0] at h
      exact hnone { s with m_currentTelegram := none } rfl h
    · rw [ModBus.slot_tryToSendNextTelegram_keep s cur hcur h0] at h
      obtain ⟨t2, w, hs⟩ := ModBus.slot_tryToSendNextTelegram_send_cases _ _ h
      exact Or.inr ⟨t2, s.m_telegramQueue, w, hs⟩

/-- The outcomes of `writeTelegramToQueue` when it returns: the id returned is the
telegram's, and the members other than the queue, the current telegram, the pending
flag, the request timer and the bytes written keep their values. -/
theorem ModBus.writeTelegramToQueue_cases (s s' : ModBus) (t : ModBusTelegram) (id : quint64)
    (h : ModBus.writeTelegramToQueue s t = .ok (id, s')) :
    id = t.getID ∧
    ((s.m_transactionPending = true ∧
        s' = { s with m_telegramQueue := s.m_telegramQueue ++ [t] }) ∨
     (s.m_transactionPending = false ∧
        s' = { s with m_telegramQueue := s.m_telegramQueue ++ [t],
                      m_currentTelegram := none, m_transactionPending := false }) ∨
     (s.m_transactionPending = false ∧
        ∃ (t2 : ModBusTelegram) (q : List ModBusTelegram) (w : List QByteArray),
          s' = { s with m_transactionPending := true, m_requestTimer := true,
                        m_currentTelegram := some t2, m_telegramQueue := q,
                        written := w })) := by
  by_cases hp : s.m_transactionPending = true
  · rw [ModBus.writeTelegramToQueue_pending s t hp] at h
    simp only [Except.ok.injEq, Prod.mk.injEq] at h
    exact ⟨h.1.symm, Or.inl ⟨hp, h.2.symm⟩⟩
  · have hpf : s.m_transactionPending = false := by simpa using hp
    rw [ModBus.writeTelegramToQueue_idle s t hpf] at h
    cases hs : ModBus.slot_tryToSendNextTelegram
        { s with m_telegramQueue := s.m_telegramQueue ++ [t] } with
    | error e => rw [hs] at h; cases h
    | ok s2 =>
      rw [hs] at h
      simp only [Except.map, Except.ok.injEq, Prod.mk.injEq] at h
      obtain ⟨hid, hs2⟩ := h
      subst hs2
      refine ⟨hid.symm, Or.inr ?_⟩
      rcases ModBus.slot_tryToSendNextTelegram_cases _ _ hs with h1 | ⟨t2, q, w, h1⟩
      · exact Or.inl ⟨hpf, h1⟩
      · exact Or.inr ⟨hpf, t2, q, w, h1⟩

theorem ModBus.writeTelegramToQueue_context (s s' : ModBus) (t : ModBusTelegram)
    (id : quint64) (h : ModBus.writeTelegramToQueue s t = .ok (id, s')) :
    id = t.getID ∧ s'.m_requestedCount = s.m_requestedCount ∧
    s'.m_requestedDataStartAddress = s.m_requestedDataStartAddress := by
  obtain ⟨hid, h1 | h1 | h1⟩ := ModBus.writeTelegramToQueue_cases s s' t id h
  · rw [h1.2]; exact ⟨hid, rfl, rfl⟩
  · rw [h1.2]; exact ⟨hid, rfl, rfl⟩
  · obtain ⟨_, t2, q, w, h2⟩ := h1
    rw [h2]; exact ⟨hid, rfl, rfl⟩

/-- Function `writeTelegramToQueue` returns while a transaction is pending, and on the
idle engine with an empty queue when the telegram can be transmitted. -/
theorem ModBus.writeTelegramToQueue_returns (s : ModBus) (t : ModBusTelegram)
    (hlen : t.data.length ≤ 65533) (hrep : -(2 ^ 31) < t.repeatCount)
    (hs : s.m_transactionPending = true ∨
      (s.m_currentTelegram = none ∧ s.m_telegramQueue = [])) :
    ∃ r, ModBus.writeTelegramToQueue s t = .ok r := by
  by_cases hp : s.m_transactionPending = true
  · rw [ModBus.writeTelegramToQueue_pending s t hp]
    exact ⟨_, rfl⟩
  · have hpf : s.m_transactionPending = false := by simpa using hp
    rcases hs with hs | ⟨hc, hq⟩
    · exact absurd hs hp
    · obtain ⟨out, hout⟩ := ModBusTelegram.frame_ok t hlen
      rw [ModBus.writeTelegramToQueue_idle s t hpf,
        ModBus.slot_tryToSendNextTelegram_promote
          { s with m_telegramQueue := s.m_telegramQueue ++ [t] } t [] out hc
          (by show s.m_telegramQueue ++ [t] = [t]; rw [hq]; rfl) hrep hout]
      exact ⟨_, rfl⟩

/-- A call that records a context and queues a telegram built by `ctor_data` is a read
request in the sense of `buildsReadRequest`. -/
theorem ModBus.buildsReadRequest_of_eq
    (call : ModBus → TelegramIds → Except Fault (quint64 × ModBus × TelegramIds))
    (slaveAddress functionCode : quint8) (start count : Nat)
    (hs : start < 65536) (hc : count < 65536)
    (h : ∀ s ids, call s ids
      = (ModBus.writeTelegramToQueue
          { s with m_requestedCount := toQuint16 count,
                   m_requestedDataStartAddress := toQuint16 start }
          (ModBusTelegram.mk slaveAddress functionCode
            [toChar (start >>> 8), toChar (start &&& 0xFF),
             toChar (count >>> 8), toChar (count &&& 0xFF)] 1 ids.idData)).map
        (fun q => (q.1, q.2, { ids with idData := TelegramIds.advance ids.idData }))) :
    ModBus.buildsReadRequest call slaveAddress functionCode start count := by
  intro s ids
  refine ⟨h s ids, ?_, ?_⟩
  · intro r hr
    rw [h s ids] at hr
    cases hw : ModBus.writeTelegramToQueue
        { s with m_requestedCount := toQuint16 count,
                 m_requestedDataStartAddress := toQuint16 start }
        (ModBusTelegram.mk slaveAddress functionCode
          [toChar (start >>> 8), toChar (start &&& 0xFF),
           toChar (count >>> 8), toChar (count &&& 0xFF)] 1 ids.idData) with
    | error e => rw [hw] at hr; cases hr
    | ok q =>
      rw [hw] at hr
      simp only [Except.map, Except.ok.injEq] at hr
      subst hr
      obtain ⟨hid, h1, h2⟩ := ModBus.writeTelegramToQueue_context _ q.2 _ q.1 hw
      refine ⟨hid, ?_, ?_⟩
      · show q.2.m_requestedCount.val = count
        rw [h1]
        exact Nat.mod_eq_of_lt hc
      · show q.2.m_requestedDataStartAddress.val = start
        rw [h2]
        exact Nat.mod_eq_of_lt hs
  · intro hst
    rw [h s ids]
    obtain ⟨r, hr⟩ := ModBus.writeTelegramToQueue_returns
      { s with m_requestedCount := toQuint16 count,
               m_requestedDataStartAddress := toQuint16 start }
      (ModBusTelegram.mk slaveAddress functionCode
        [toChar (start >>> 8), toChar (start &&& 0xFF),
         toChar (count >>> 8), toChar (count &&& 0xFF)] 1 ids.idData)
      (by simp) (by simp) hst
    rw [hr]
    exact ⟨_, rfl⟩

theorem toQuint16_val (n : quint16) : toQuint16 n.val = n := by
  apply Fin.ext
  show n.val % 65536 = n.val
  exact Nat.mod_eq_of_lt n.isLt

/-- C25. Read family: for every slave address, function code, start address and count
(a 16-bit count for `readCoils` and `readDiscreteInputs`, an 8-bit count for
`readHoldingRegisters` and `readInputRegisters`, as the functions declare it) each of the
four functions queues a telegram with the given slave address and function code whose
payload is exactly the four bytes `start >> 8`, `start & 0xFF`, `count >> 8`,
`count & 0xFF`, after recording `requested_count = count` and
`requested_start_address = start`, which the context still holds when the call returns;
the call returns while a transaction is pending and on the idle engine. -/
theorem ModBus.read_family (slaveAddress functionCode : quint8) (dataStartAddress : quint16) :
    (∀ count : quint16, ModBus.buildsReadRequest
      (fun s ids => ModBus.readCoils s ids slaveAddress dataStartAddress count functionCode)
      slaveAddress functionCode dataStartAddress.val count.val) ∧
    (∀ count : quint16, ModBus.buildsReadRequest
      (fun s ids =>
        ModBus.readDiscreteInputs s ids slaveAddress dataStartAddress count functionCode)
      slaveAddress functionCode dataStartAddress.val count.val) ∧
    (∀ count : quint8, ModBus.buildsReadRequest
      (fun s ids =>
        ModBus.readHoldingRegisters s ids slaveAddress dataStartAddress count functionCode)
      slaveAddress functionCode dataStartAddress.val count.val) ∧
    (∀ count : quint8, ModBus.buildsReadRequest
      (fun s ids =>
        ModBus.readInputRegisters s ids slaveAddress dataStartAddress count functionCode)
      slaveAddress functionCode dataStartAddress.val count.val) := by
  refine ⟨?_, ?_, ?_, ?_⟩
  · intro count
    apply ModBus.buildsReadRequest_of_eq _ _ _ _ _ dataStartAddress.isLt count.isLt
    intro s ids
    unfold ModBus.readCoils ModBusTelegram.ctor_data
    simp only [toQuint16_val, List.nil_append, List.cons_append]
    cases ModBus.writeTelegramToQueue _ _ <;> rfl
  · intro count
    apply ModBus.buildsReadRequest_of_eq _ _ _ _ _ dataStartAddress.isLt count.isLt
    intro s ids
    unfold ModBus.readDiscreteInputs ModBusTelegram.ctor_data
    simp only [toQuint16_val, List.nil_append, List.cons_append]
    cases ModBus.writeTelegramToQueue _ _ <;> rfl
  · intro count
    apply ModBus.buildsReadRequest_of_eq _ _ _ _ _ dataStartAddress.isLt
      (by have := count.isLt; omega)
    intro s ids
    unfold ModBus.readHoldingRegisters ModBusTelegram.ctor_data
    simp only [toQuint16_val, List.nil_append, List.cons_append]
    cases ModBus.writeTelegramToQueue _ _ <;> rfl
  · intro count
    apply ModBus.buildsReadRequest_of_eq _ _ _ _ _ dataStartAddress.isLt
      (by have := count.isLt; omega)
    intro s ids
    unfold ModBus.readInputRegisters ModBusTelegram.ctor_data
    simp only [toQuint16_val, List.nil_append, List.cons_append]
    cases ModBus.writeTelegramToQueue _ _ <;> rfl

/-! ### Claim C27: the number of coils decoded -/

/-- C27. For function codes 1 and 2 and every PDU that passes the byte-count check
(non-empty, length = first byte + 1) with `b = length - 1` data bytes, `parseResponse`
returns and emits one decoded event whose list of booleans has `min(requested_count,
8 * b)` entries when `requested_count ≥ 1` and `8 * b` entries when `requested_count = 0`;
so the list has exactly `requested_count` entries if and only if
`1 ≤ requested_count ≤ 8 * b` or `requested_count = 0 = b`. -/
theorem ModBus.parseResponse_coils_count (signedChar : Bool) (s : ModBus)
    (telegramID : quint64) (slaveAddress functionCode : quint8) (payload : QByteArray)
    (hfc : functionCode = 1 ∨ functionCode = 2) (hlen : 1 ≤ payload.length)
    (hbc : payload.length = (payload.getD 0 0).val + 1) :
    ∃ on_ : List Bool,
      ModBus.parseResponse signedChar s telegramID slaveAddress functionCode payload
        = .ok (s.emit
            ((if functionCode = 1 then Signal.signal_coilsRead
              else Signal.signal_discreteInputsRead)
              telegramID slaveAddress s.m_requestedDataStartAddress on_)) ∧
      on_.length = (if s.m_requestedCount.val = 0 then 8 * (payload.length - 1)
        else min s.m_requestedCount.val (8 * (payload.length - 1))) ∧
      (on_.length = s.m_requestedCount.val ↔
        (1 ≤ s.m_requestedCount.val ∧ s.m_requestedCount.val ≤ 8 * (payload.length - 1)) ∨
        (s.m_requestedCount.val = 0 ∧ payload.length - 1 = 0)) := by
  rw [ModBus.parseResponse_coils signedChar s telegramID slaveAddress functionCode payload hfc,
    if_pos ⟨hlen, hbc⟩]
  refine ⟨_, rfl, ?_, ?_⟩
  · rw [List.length_map, List.length_range]
    split <;> split <;> omega
  · rw [List.length_map, List.length_range]
    split <;> omega

/-- C27 at function code 1, `requested_count = 0` and the PDU `01 05`: eight booleans
are emitted. -/
theorem ModBus.parseResponse_coils_count_witness :
    ∃ on_ : List Bool,
      ModBus.parseResponse true ModBus.ctor 1 1 1 [1, 5]
        = .ok (ModBus.ctor.emit (Signal.signal_coilsRead 1 1 0 on_)) ∧
      on_.length = 8 := by
  obtain ⟨on_, h, hl, _⟩ := ModBus.parseResponse_coils_count true ModBus.ctor 1 1 1 [1, 5]
    (Or.inl rfl) (by decide) (by decide)
  exact ⟨on_, h, hl⟩

/-! ### Claim C30: the 16-bit index of `checksum` -/

theorem checksum_loop_out_of_fuel (data : QByteArray) :
    ∀ (fuel i crc : Nat), i ≤ data.length → fuel ≤ data.length - i →
      ModBus.checksum_loop data fuel i crc = .error .noReturn := by
  intro fuel
  induction fuel with
  | zero => intro i crc _ _; rfl
  | succ fuel ih =>
    intro i crc hi hf
    unfold ModBus.checksum_loop
    have hlt : i < data.length := by omega
    rw [if_pos hlt, QByteArray.at_natCast data i hlt]
    simp only []
    by_cases hw : i + 1 < 65536
    · rw [Nat.mod_eq_of_lt hw]
      exact ih (i + 1) _ (by omega) (by omega)
    · cases fuel with
      | zero => rfl
      | succ fuel =>
        exact ih _ _ (by omega) (by omega)

theorem checksum_loop_never_returns (data : QByteArray) (hlen : 65536 ≤ data.length) :
    ∀ (fuel i crc : Nat), i < 65536 →
      ModBus.checksum_loop data fuel i crc = .error .noReturn := by
  intro fuel
  induction fuel with
  | zero => intro i crc _; rfl
  | succ fuel ih =>
    intro i crc hi
    unfold ModBus.checksum_loop
    have hlt : i < data.length := by omega
    rw [if_pos hlt, QByteArray.at_natCast data i hlt]
    simp only []
    exact ih _ _ (Nat.mod_lt _ (by decide))

theorem checksum_indices_short (data : QByteArray) (hlen : data.length ≤ 65535) :
    ∀ (fuel i : Nat), i ≤ data.length → data.length - i < fuel →
      ModBus.checksum_indices data fuel i = List.range' i (data.length - i + 1) := by
  intro fuel
  induction fuel with
  | zero => intro i _ hf; omega
  | succ fuel ih =>
    intro i hi hf
    unfold ModBus.checksum_indices
    by_cases hlt : i < data.length
    · rw [if_pos hlt, Nat.mod_eq_of_lt (by omega), ih (i + 1) (by omega) (by omega)]
      have : data.length - i + 1 = (data.length - (i + 1) + 1) + 1 := by omega
      rw [this]
      rfl
    · rw [if_neg hlt]
      have : i = data.length := by omega
      subst this
      simp

theorem checksum_indices_long (data : QByteArray) (hlen : 65536 ≤ data.length) :
    ∀ (fuel i : Nat), i < 65536 →
      ModBus.checksum_indices data fuel i
        = (List.range fuel).map (fun k => (i + k) % 65536) := by
  intro fuel
  induction fuel with
  | zero => intro i _; rfl
  | succ fuel ih =>
    intro i hi
    unfold ModBus.checksum_indices
    rw [if_pos (by omega), ih _ (Nat.mod_lt _ (by decide)), List.range_succ_eq_map,
      List.map_cons, List.map_map]
    congr 1
    · simp [Nat.mod_eq_of_lt hi]
    · apply List.map_congr_left
      intro k _
      simp only [Function.comp]
      omega

/-- C30. The loop of `checksum` has a 16-bit index.  For every input of at most 65535
bytes the index takes the values `0, 1, ..., length` at the successive evaluations of
the loop condition, without wrapping, and the loop ends after exactly `length` passes:
the function returns when `length + 1` evaluations are allowed and not with fewer.  For
every input of 65536 bytes or more the index at the `k`-th evaluation is `k mod 65536`,
so it wraps from 65535 to 0, stays below the length, and the loop condition never
becomes false: the function returns for no number of evaluations. -/
theorem ModBus.checksum_index_wrap (data : QByteArray) :
    (data.length ≤ 65535 →
      ModBus.checksum_indices data (data.length + 1) 0 = List.range (data.length + 1) ∧
      (∃ crc, ModBus.checksum data = .ok crc ∧
        ∀ fuel, ModBus.checksum_loop data fuel 0 0xffff
          = if data.length < fuel then .ok crc else .error .noReturn)) ∧
    (65536 ≤ data.length →
      ModBus.checksum data = .error .noReturn ∧
      ∀ fuel, ModBus.checksum_loop data fuel 0 0xffff = .error .noReturn ∧
        ModBus.checksum_indices data fuel 0 = (List.range fuel).map (fun k => k % 65536) ∧
        ∀ i ∈ ModBus.checksum_indices data fuel 0, i < data.length) := by
  constructor
  · intro hlen
    refine ⟨?_, _, checksum_eq_foldl data hlen, ?_⟩
    · rw [checksum_indices_short data hlen _ 0 (by omega) (by omega), List.range_eq_range']
      rfl
    · intro fuel
      split
      · rw [checksum_loop_eq data hlen fuel 0 _ (by omega) (by omega)]
        rfl
      · exact checksum_loop_out_of_fuel data fuel 0 _ (by omega) (by omega)
  · intro hlen
    refine ⟨checksum_loop_never_returns data hlen _ 0 _ (by decide), ?_⟩
    intro fuel
    have hidx := checksum_indices_long data hlen fuel 0 (by decide)
    simp only [Nat.zero_add] at hidx
    refine ⟨checksum_loop_never_returns data hlen fuel 0 _ (by decide), hidx, ?_⟩
    intro i hi
    rw [hidx] at hi
    obtain ⟨k, _, rfl⟩ := List.mem_map.mp hi
    have : k % 65536 < 65536 := Nat.mod_lt _ (by decide)
    omega

/-- C30 at the three bytes `01 03 00` and at 65536 zero bytes. -/
theorem ModBus.checksum_index_wrap_witness :
    ModBus.checksum_indices [1, 3, 0] 4 0 = List.range 4 ∧
    ModBus.checksum (List.replicate 65536 0) = .error .noReturn :=
  ⟨((ModBus.checksum_index_wrap [1, 3, 0]).1 (by decide)).1,
   ((ModBus.checksum_index_wrap (List.replicate 65536 0)).2
      (le_of_eq (List.length_replicate _ _).symm)).1⟩

/-! ### Claim C28: a telegram with a repeat count of 0 or less -/

/-- Function `slot_requestTimer_fired` with a current telegram: it returns, starts the
delay timer and only adds signals. -/
theorem ModBus.slot_requestTimer_fired_eq (s : ModBus) (cur : ModBusTelegram)
    (hcur : s.m_currentTelegram = some cur) :
    ModBus.slot_requestTimer_fired s
      = .ok { s with
          m_delayTxTimer := true,
          emitted := s.emitted ++
            (if cur.needsAnswer = true then [.signal_transactionLost cur.getID] else []) ++
            [.signal_transactionFinished] } := by
  unfold ModBus.slot_requestTimer_fired
  simp only [hcur]
  cases cur.needsAnswer <;> simp [ModBus.emit, hcur]

/-- When `slot_tryToSendNextTelegram_send` returns, the current telegram is the one it
found, with its repeat count decremented; the queue and the members that sending does
not concern are unchanged. -/
theorem ModBus.slot_tryToSendNextTelegram_send_current (s s' : ModBus) (t : ModBusTelegram)
    (hcur : s.m_currentTelegram = some t)
    (h : ModBus.slot_tryToSendNextTelegram_send s = .ok s') :
    -(2 ^ 31) < t.repeatCount ∧
    ∃ w, s' = { s with m_transactionPending := true, m_requestTimer := true,
                       m_currentTelegram := some { t with repeatCount := t.repeatCount - 1 },
                       written := w } := by
  by_cases hrep : -(2 ^ 31) < t.repeatCount
  · refine ⟨hrep, ?_⟩
    rw [ModBus.slot_tryToSendNextTelegram_send_match s t hcur hrep] at h
    cases hf : t.frame with
    | error e => rw [hf] at h; cases h
    | ok out =>
      rw [hf] at h
      exact ⟨_, (Except.ok.inj h).symm⟩
  · exfalso
    unfold ModBus.slot_tryToSendNextTelegram_send ModBus.writeTelegramNow at h
    simp only [hcur] at h
    rw [if_pos (by omega)] at h
    cases h

/-- An operation that returns keeps a current telegram with a negative repeat count
current, with the same id, address, function code and payload and a repeat count that
is still negative; the queue keeps its telegrams and may get more at its end. -/
theorem ModBus.step_negative_repeat (signedChar : Bool) (s s' : ModBus) (op : Operation)
    (t : ModBusTelegram) (hcur : s.m_currentTelegram = some t) (hneg : t.repeatCount < 0)
    (h : ModBus.step signedChar s op = .ok s') :
    ∃ (r : Int) (added : List ModBusTelegram),
      s'.m_currentTelegram = some { t with repeatCount := r } ∧ r ≤ t.repeatCount ∧
      s'.m_telegramQueue = s.m_telegramQueue ++ added := by
  have hsend : ∀ s0 s1 : ModBus, s0.m_currentTelegram = some t →
      ModBus.slot_tryToSendNextTelegram s0 = .ok s1 →
      s1.m_currentTelegram = some { t with repeatCount := t.repeatCount - 1 } ∧
      s1.m_telegramQueue = s0.m_telegramQueue := by
    intro s0 s1 h0 h1
    rw [ModBus.slot_tryToSendNextTelegram_keep s0 t h0 (by omega)] at h1
    obtain ⟨_, w, hs⟩ := ModBus.slot_tryToSendNextTelegram_send_current s0 s1 t h0 h1
    rw [hs]
    exact ⟨rfl, rfl⟩
  cases op with
  | writeTelegramToQueue telegram =>
    simp only [ModBus.step] at h
    cases hr : ModBus.writeTelegramToQueue s telegram with
    | error e => rw [hr] at h; cases h
    | ok q =>
      rw [hr] at h
      simp only [Except.ok.injEq] at h
      subst h
      by_cases hp : s.m_transactionPending = true
      · rw [ModBus.writeTelegramToQueue_pending s telegram hp] at hr
        simp only [Except.ok.injEq] at hr
        subst hr
        exact ⟨t.repeatCount, [telegram], hcur, le_refl _, rfl⟩
      · rw [ModBus.writeTelegramToQueue_idle s telegram (by simpa using hp)] at hr
        cases hs : ModBus.slot_tryToSendNextTelegram
            { s with m_telegramQueue := s.m_telegramQueue ++ [telegram] } with
        | error e => rw [hs] at hr; cases hr
        | ok s2 =>
          rw [hs] at hr
          simp only [Except.map, Except.ok.injEq] at hr
          subst hr
          obtain ⟨h1, h2⟩ := hsend { s with m_telegramQueue := s.m_telegramQueue ++ [telegram] }
            s2 hcur hs
          exact ⟨t.repeatCount - 1, [telegram], h1, by omega, h2⟩
  | slot_tryToSendNextTelegram =>
    simp only [ModBus.step] at h
    obtain ⟨h1, h2⟩ := hsend { s with m_delayTxTimer := false } s' hcur h
    exact ⟨t.repeatCount - 1, [], h1, by omega, by rw [h2]; simp⟩
  | requestTimerExpiry =>
    simp only [ModBus.step] at h
    rw [ModBus.slot_requestTimer_fired_eq { s with m_requestTimer := false } t hcur] at h
    rw [← Except.ok.inj h]
    exact ⟨t.repeatCount, [], hcur, le_refl _, by simp⟩
  | decoderRun =>
    simp only [ModBus.step, ModBus.slot_rxIdleTimer_fired] at h
    obtain ⟨_, h1, h2, _⟩ := ModBus.tryToParseResponseRaw_keeps signedChar _ s' h
    exact ⟨t.repeatCount, [], by rw [h1]; exact hcur, le_refl _, by rw [h2]; simp⟩
  | readyRead incoming =>
    simp only [ModBus.step, ModBus.slot_readyRead_eq, Except.ok.injEq] at h
    subst h
    exact ⟨t.repeatCount, [], hcur, le_refl _, by simp⟩
  | requestContext count dataAddress dataStartAddress =>
    simp only [ModBus.step, Except.ok.injEq] at h
    subst h
    exact ⟨t.repeatCount, [], hcur, le_refl _, by simp⟩
  | openPort openOK =>
    simp only [ModBus.step, ModBus.open, Except.ok.injEq] at h
    subst h
    exact ⟨t.repeatCount, [], hcur, le_refl _, by simp⟩
  | closePort =>
    simp only [ModBus.step, ModBus.close, Except.ok.injEq] at h
    subst h
    exact ⟨t.repeatCount, [], hcur, le_refl _, by simp⟩

theorem ModBus.run_negative_repeat (signedChar : Bool) (ops : List Operation) :
    ∀ (s s' : ModBus) (t : ModBusTelegram), s.m_currentTelegram = some t →
      t.repeatCount < 0 → ModBus.run signedChar s ops = .ok s' →
      ∃ (r : Int) (added : List ModBusTelegram),
        s'.m_currentTelegram = some { t with repeatCount := r } ∧ r ≤ t.repeatCount ∧
        s'.m_telegramQueue = s.m_telegramQueue ++ added := by
  induction ops with
  | nil =>
    intro s s' t hcur _ h
    simp only [ModBus.run, Except.ok.injEq] at h
    subst h
    exact ⟨t.repeatCount, [], hcur, le_refl _, by simp⟩
  | cons op ops ih =>
    intro s s' t hcur hneg h
    cases hs : ModBus.step signedChar s op with
    | error e => simp only [ModBus.run, hs] at h; cases h
    | ok s1 =>
      rw [ModBus.run_cons signedChar s s1 op ops hs] at h
      obtain ⟨r1, a1, hc1, hr1, hq1⟩ := ModBus.step_negative_repeat signedChar s s1 op t hcur
        hneg hs
      obtain ⟨r2, a2, hc2, hr2, hq2⟩ := ih s1 s' { t with repeatCount := r1 } hc1
        (by show r1 < 0; omega) h
      exact ⟨r2, a1 ++ a2, hc2, by simp only [] at hr2; omega,
        by rw [hq2, hq1, List.append_assoc]⟩

/-- C28. A telegram `t` with `repeatCount ≤ 0` (above the point where the 32-bit counter
overflows, and with a payload for which a frame is built) that is at the head of the
queue when no telegram is current: `slot_tryToSendNextTelegram` promotes and transmits
it and leaves it with a negative repeat count.  From then on, after every list of
operations that returns, `t` is still the current telegram with a negative repeat count
and the telegrams that were queued behind it are still in the queue, in place; and
every later `slot_tryToSendNextTelegram` (while the counter does not overflow) returns,
keeps `t` as current, decrements its repeat count and writes its frame again. -/
theorem ModBus.nonpositive_repeat_blocks_queue (signedChar : Bool) (s : ModBus)
    (t : ModBusTelegram) (rest : List ModBusTelegram) (out : QByteArray)
    (hcur : s.m_currentTelegram = none) (hq : s.m_telegramQueue = t :: rest)
    (hrep : t.repeatCount ≤ 0) (hmin : -(2 ^ 31) < t.repeatCount)
    (hout : t.frame = .ok out) :
    ∃ s1, ModBus.slot_tryToSendNextTelegram s = .ok s1 ∧
      s1.m_currentTelegram = some { t with repeatCount := t.repeatCount - 1 } ∧
      s1.m_telegramQueue = rest ∧
      s1.written = (if s.portOpen then s.written ++ [out] else s.written) ∧
      (∀ (ops : List Operation) (s2 : ModBus), ModBus.run signedChar s1 ops = .ok s2 →
        ∃ (r : Int) (added : List ModBusTelegram),
          s2.m_currentTelegram = some { t with repeatCount := r } ∧ r < 0 ∧
          s2.m_telegramQueue = rest ++ added) ∧
      (∀ (s2 : ModBus) (r : Int), s2.m_currentTelegram = some { t with repeatCount := r } →
        r < 0 → -(2 ^ 31) < r →
        ModBus.slot_tryToSendNextTelegram s2
          = .ok { s2 with
              m_transactionPending := true, m_requestTimer := true,
              m_currentTelegram := some { t with repeatCount := r - 1 },
              written := if s2.portOpen then s2.written ++ [out] else s2.written }) := by
  refine ⟨_, ModBus.slot_tryToSendNextTelegram_promote s t rest out hcur hq hmin hout,
    rfl, rfl, rfl, ?_, ?_⟩
  · intro ops s2 h
    obtain ⟨r, added, hc, hr, hq2⟩ := ModBus.run_negative_repeat signedChar ops _ s2
      { t with repeatCount := t.repeatCount - 1 } rfl (by show t.repeatCount - 1 < 0; omega) h
    refine ⟨r, added, hc, ?_, hq2⟩
    simp only [] at hr
    omega
  · intro s2 r hc hr hm
    exact ModBus.slot_tryToSendNextTelegram_repeat s2 { t with repeatCount := r } out hc
      (by show r ≠ 0; omega) hm hout

set_option maxRecDepth 100000 in
/-- C28 at a telegram with `repeatCount = 0` queued in front of a second telegram, on
the engine with its port open: after the promotion, a request-timer expiry and the next
`slot_tryToSendNextTelegram`, the first telegram is still current and the second is
still queued. -/
theorem ModBus.nonpositive_repeat_blocks_queue_witness :
    ∃ s1, ModBus.slot_tryToSendNextTelegram
        { ModBus.ctor.open true with
          m_telegramQueue := [ModBusTelegram.mk 1 3 [0, 16, 0, 1] 0 1,
                              ModBusTelegram.mk 2 3 [0, 0, 0, 1] 1 2] } = .ok s1 ∧
      ∀ s2, ModBus.run true s1 [.requestTimerExpiry, .slot_tryToSendNextTelegram] = .ok s2 →
        ∃ (r : Int) (added : List ModBusTelegram),
          s2.m_currentTelegram = some (ModBusTelegram.mk 1 3 [0, 16, 0, 1] r 1) ∧ r < 0 ∧
          s2.m_telegramQueue = [ModBusTelegram.mk 2 3 [0, 0, 0, 1] 1 2] ++ added := by
  obtain ⟨s1, h1, _, _, _, h2, _⟩ := ModBus.nonpositive_repeat_blocks_queue true
    { ModBus.ctor.open true with
      m_telegramQueue := [ModBusTelegram.mk 1 3 [0, 16, 0, 1] 0 1,
                          ModBusTelegram.mk 2 3 [0, 0, 0, 1] 1 2] }
    (ModBusTelegram.mk 1 3 [0, 16, 0, 1] 0 1) [ModBusTelegram.mk 2 3 [0, 0, 0, 1] 1 2]
    [1, 3, 0, 16, 0, 1, 133, 207] rfl rfl (by decide) (by decide) (by decide!)
  exact ⟨s1, h1, fun s2 hs2 => h2 _ s2 hs2⟩

/-! ### Claim C26: the decoder reads inside the buffer -/

/-- On at least 2 bytes the CRC check reads inside its argument: it returns, or it does
not return because `checksum` does not (more than 65537 bytes). -/
theorem ModBus.checksumOK_in_range (data : QByteArray) (h2 : 2 ≤ data.length) :
    (∃ b, ModBus.checksumOK data = .ok b) ∨
    (ModBus.checksumOK data = .error .noReturn ∧ 65537 < data.length) := by
  by_cases hmax : data.length ≤ 65537
  · exact Or.inl (ModBus.checksumOK_returns data h2 hmax)
  · right
    refine ⟨?_, by omega⟩
    obtain ⟨body, lo, hi, hd, hb⟩ := QByteArray.exists_append_two data h2
    rw [hd]
    unfold ModBus.checksumOK
    rw [QByteArray.at_append_lo, QByteArray.at_append_hi]
    simp only []
    rw [QByteArray.remove_append_two]
    have : ModBus.checksum body = .error .noReturn :=
      checksum_loop_never_returns body (by omega) _ 0 _ (by decide)
    rw [this]

/-- C26. The decoder reads inside its buffers.  For every engine state, with or without
a current telegram, every buffer content and every last-request context,
`tryToParseResponseRaw` never ends in an out-of-range read, a null-pointer read or an
overflow: it returns a state, for every buffer of at most 65537 bytes, or it does not
return because the loop of `checksum` does not end.  The same holds for `checksumOK` on
every input of at least 2 bytes (the decoder calls it on at least 4), and
`parseResponse` returns a state on every PDU, address, function code and context. -/
theorem ModBus.decoder_reads_in_range (signedChar : Bool) (s : ModBus) :
    ((∃ s', ModBus.tryToParseResponseRaw signedChar s = .ok s') ∨
      (ModBus.tryToParseResponseRaw signedChar s = .error .noReturn ∧
        65537 < s.m_readBuffer.length)) ∧
    (∀ data : QByteArray, 2 ≤ data.length →
      (∃ b, ModBus.checksumOK data = .ok b) ∨
      (ModBus.checksumOK data = .error .noReturn ∧ 65537 < data.length)) ∧
    (∀ (telegramID : quint64) (slaveAddress functionCode : quint8) (payload : QByteArray),
      ∃ s', ModBus.parseResponse signedChar s telegramID slaveAddress functionCode payload
        = .ok s') := by
  refine ⟨?_, ModBus.checksumOK_in_range, ?_⟩
  · by_cases hmax : s.m_readBuffer.length ≤ 65537
    · obtain ⟨s', h, _⟩ := ModBus.tryToParseResponseRaw_buffer signedChar s hmax
      exact Or.inl ⟨s', h⟩
    · have hopt : s.m_currentTelegram = none ∨ ∃ cur, s.m_currentTelegram = some cur := by
        cases s.m_currentTelegram with
        | none => exact Or.inl rfl
        | some cur => exact Or.inr ⟨cur, rfl⟩
      rcases hopt with hcur | ⟨cur, hcur⟩
      · exact Or.inl ⟨_, ModBus.tryToParseResponseRaw_stray signedChar s hcur (by omega)⟩
      · by_cases hexc : 128 ≤ (s.m_readBuffer.getD 1 0).val
        · rcases ModBus.checksumOK_in_range s.m_readBuffer (by omega) with ⟨b, hb⟩ | ⟨he, _⟩
          · cases b with
            | false =>
              exact Or.inl ⟨_, ModBus.tryToParseResponseRaw_crc_failed signedChar s cur hcur
                (Or.inr ⟨hexc, by omega⟩) hb⟩
            | true =>
              exact Or.inl ⟨_, ModBus.tryToParseResponseRaw_exception_accepted signedChar s
                cur hcur (by omega) hexc hb⟩
          · exact Or.inr ⟨ModBus.tryToParseResponseRaw_crc_fault signedChar s cur hcur _
              (Or.inr ⟨hexc, by omega⟩) he, by omega⟩
        · exact Or.inl ⟨_, ModBus.tryToParseResponseRaw_overflow signedChar s cur hcur
            (by omega) (by omega)⟩
  · intro telegramID slaveAddress functionCode payload
    obtain ⟨decoded, h, _⟩ := ModBus.parseResponse_emits signedChar s telegramID slaveAddress
      functionCode payload
    exact ⟨_, h⟩

/-! ### Claim C29: the request timer and the current telegram -/

theorem ModBus.timerInv_ctor : ModBus.timerInv ModBus.ctor := by
  refine ⟨?_, ?_, ?_⟩ <;> intro h
  · cases h
  · rfl
  · exact ⟨rfl, rfl⟩

/-- What `slot_tryToSendNextTelegram` leaves behind when the request timer and the delay
timer are inactive before it. -/
theorem ModBus.timerInv_trySend (s s' : ModBus) (hreq : s.m_requestTimer = false)
    (hdel : s.m_delayTxTimer = false)
    (h : ModBus.slot_tryToSendNextTelegram s = .ok s') : ModBus.timerInv s' := by
  rcases ModBus.slot_tryToSendNextTelegram_cases s s' h with h1 | ⟨t, q, w, h1⟩
  · subst h1
    refine ⟨?_, ?_, ?_⟩
    · intro hc
      have hc' : s.m_requestTimer = true := hc
      rw [hreq] at hc'
      cases hc'
    · intro _; exact hreq
    · intro _; exact ⟨rfl, hdel⟩
  · subst h1
    refine ⟨?_, ?_, ?_⟩
    · intro _; rfl
    · intro hc
      have hc' : s.m_delayTxTimer = true := hc
      rw [hdel] at hc'
      cases hc'
    · intro hc; cases hc

/-- Every operation of the event loop that is enabled and returns keeps the timer
bookkeeping. -/
theorem ModBus.timerInv_step (signedChar : Bool) (s s' : ModBus) (op : Operation)
    (hinv : ModBus.timerInv s) (hen : op.enabled s = true)
    (h : ModBus.step signedChar s op = .ok s') : ModBus.timerInv s' := by
  obtain ⟨h1, h2, h3⟩ := hinv
  have hreq_of_none : s.m_currentTelegram = none → s.m_requestTimer = false := by
    intro hn
    cases hr : s.m_requestTimer with
    | false => rfl
    | true => have := h1 hr; rw [hn] at this; cases this
  cases op with
  | writeTelegramToQueue telegram =>
    simp only [ModBus.step] at h
    cases hr : ModBus.writeTelegramToQueue s telegram with
    | error e => rw [hr] at h; cases h
    | ok q =>
      rw [hr] at h
      simp only [Except.ok.injEq] at h
      subst h
      by_cases hp : s.m_transactionPending = true
      · rw [ModBus.writeTelegramToQueue_pending s telegram hp] at hr
        simp only [Except.ok.injEq] at hr
        subst hr
        exact ⟨h1, h2, h3⟩
      · have hpf : s.m_transactionPending = false := by simpa using hp
        rw [ModBus.writeTelegramToQueue_idle s telegram hpf] at hr
        cases hs : ModBus.slot_tryToSendNextTelegram
            { s with m_telegramQueue := s.m_telegramQueue ++ [telegram] } with
        | error e => rw [hs] at hr; cases hr
        | ok s2 =>
          rw [hs] at hr
          simp only [Except.map, Except.ok.injEq] at hr
          subst hr
          exact ModBus.timerInv_trySend { s with m_telegramQueue := s.m_telegramQueue ++ [telegram] }
            s2 (hreq_of_none (h3 hpf).1) (h3 hpf).2 hs
  | slot_tryToSendNextTelegram =>
    simp only [ModBus.step] at h
    simp only [Operation.enabled] at hen
    exact ModBus.timerInv_trySend { s with m_delayTxTimer := false } s' (h2 hen) rfl h
  | requestTimerExpiry =>
    simp only [Operation.enabled] at hen
    have hsome := h1 hen
    obtain ⟨cur, hcur⟩ : ∃ cur, s.m_currentTelegram = some cur := by
      cases hc : s.m_currentTelegram with
      | none => rw [hc] at hsome; cases hsome
      | some cur => exact ⟨cur, rfl⟩
    simp only [ModBus.step] at h
    rw [ModBus.slot_requestTimer_fired_eq { s with m_requestTimer := false } cur hcur] at h
    rw [← Except.ok.inj h]
    refine ⟨?_, ?_, ?_⟩
    · intro hc; cases hc
    · intro _; rfl
    · intro hp
      have := (h3 hp).1
      rw [hcur] at this
      cases this
  | decoderRun =>
    simp only [ModBus.step, ModBus.slot_rxIdleTimer_fired] at h
    rcases ModBus.tryToParseResponseRaw_cases signedChar _ s' h with
      e1 | e1 | e1 | ⟨cur, sigs, hcur, e1, _, _⟩
    · subst e1; exact ⟨h1, h2, h3⟩
    · subst e1; exact ⟨h1, h2, h3⟩
    · subst e1; exact ⟨h1, h2, h3⟩
    · subst e1
      refine ⟨?_, ?_, ?_⟩
      · intro hc; cases hc
      · intro _; rfl
      · intro hp
        have hn := (h3 hp).1
        have hcur' : s.m_currentTelegram = some cur := hcur
        rw [hcur'] at hn
        cases hn
  | readyRead incoming =>
    simp only [ModBus.step, ModBus.slot_readyRead_eq, Except.ok.injEq] at h
    subst h
    exact ⟨h1, h2, h3⟩
  | requestContext count dataAddress dataStartAddress =>
    simp only [ModBus.step, Except.ok.injEq] at h
    subst h
    exact ⟨h1, h2, h3⟩
  | openPort openOK =>
    simp only [ModBus.step, ModBus.open, Except.ok.injEq] at h
    subst h
    exact ⟨h1, h2, h3⟩
  | closePort =>
    simp only [ModBus.step, ModBus.close, Except.ok.injEq] at h
    subst h
    exact ⟨h1, h2, h3⟩

theorem ModBus.timerInv_of_loopReachable (signedChar : Bool) (s : ModBus)
    (h : ModBus.LoopReachable signedChar s) : ModBus.timerInv s := by
  induction h with
  | ctor => exact ModBus.timerInv_ctor
  | step s s' op _ hen hs ih => exact ModBus.timerInv_step signedChar s s' op ih hen hs

/-- C29. In every state that the engine reaches on its event loop, if the request timer
is active then the current-telegram slot holds a telegram; hence the request-timer
handler, which runs only while the timer is active, finds the telegram it reads
(`needsAnswer`, `getID`) and returns. -/
theorem ModBus.requestTimer_has_current (signedChar : Bool) (s : ModBus)
    (hreach : ModBus.LoopReachable signedChar s) (hreq : s.m_requestTimer = true) :
    (∃ cur, s.m_currentTelegram = some cur) ∧
    ∃ s', ModBus.step signedChar s .requestTimerExpiry = .ok s' := by
  have hsome := (ModBus.timerInv_of_loopReachable signedChar s hreach).1 hreq
  obtain ⟨cur, hcur⟩ : ∃ cur, s.m_currentTelegram = some cur := by
    cases hc : s.m_currentTelegram with
    | none => rw [hc] at hsome; cases hsome
    | some cur => exact ⟨cur, rfl⟩
  exact ⟨⟨cur, hcur⟩, _,
    ModBus.slot_requestTimer_fired_eq { s with m_requestTimer := false } cur hcur⟩

set_option maxRecDepth 100000 in
/-- C29 at the state reached by opening the port and submitting one telegram: the
request timer is active and the telegram is current. -/
theorem ModBus.requestTimer_has_current_witness :
    (∃ cur, ({ ModBus.ctor with
        portOpen := true, written := [[1, 3, 0, 16, 0, 1, 133, 207]],
        m_requestTimer := true, m_transactionPending := true,
        m_currentTelegram := some (ModBusTelegram.mk 1 3 [0, 16, 0, 1] 0 1) }
        : ModBus).m_currentTelegram = some cur) ∧
    ∃ s', ModBus.step true
        { ModBus.ctor with
          portOpen := true, written := [[1, 3, 0, 16, 0, 1, 133, 207]],
          m_requestTimer := true, m_transactionPending := true,
          m_currentTelegram := some (ModBusTelegram.mk 1 3 [0, 16, 0, 1] 0 1) }
        .requestTimerExpiry = .ok s' :=
  ModBus.requestTimer_has_current true
    { ModBus.ctor with
      portOpen := true, written := [[1, 3, 0, 16, 0, 1, 133, 207]],
      m_requestTimer := true, m_transactionPending := true,
      m_currentTelegram := some (ModBusTelegram.mk 1 3 [0, 16, 0, 1] 0 1) }
    (ModBus.LoopReachable.step (ModBus.ctor.open true) _
      (.writeTelegramToQueue (ModBusTelegram.mk 1 3 [0, 16, 0, 1] 1 1))
      (ModBus.LoopReachable.step ModBus.ctor _ (.openPort true) ModBus.LoopReachable.ctor
        rfl rfl)
      rfl (by decide!))
    rfl

/-! ### Claim C24: `writeMultipleCoils` -/

set_option maxRecDepth 100000 in
theorem coilsToByte_testBit :
    ∀ (b0 b1 b2 b3 b4 b5 b6 b7 : Bool) (i : Fin 8),
      (coilsToByte b0 b1 b2 b3 b4 b5 b6 b7).val.testBit i.val
        = [b0, b1, b2, b3, b4, b5, b6, b7].getD i.val false := by
  decide!

/-- The result of the loop of `writeMultipleCoils` with the statement
`if (bit != 0) payload += byte;` that follows it. -/
theorem ModBus.writeMultipleCoils_loop_chunk (c0 c1 c2 c3 c4 c5 c6 c7 : Bool)
    (rest : List Bool) (p : QByteArray) :
    ModBus.writeMultipleCoils_loop (c0 :: c1 :: c2 :: c3 :: c4 :: c5 :: c6 :: c7 :: rest) 0 0 p
      = ModBus.writeMultipleCoils_loop rest 0 0 (p ++ [coilsToByte c0 c1 c2 c3 c4 c5 c6 c7]) := by
  cases c0 <;> cases c1 <;> cases c2 <;> cases c3 <;> cases c4 <;> cases c5 <;> cases c6 <;>
    cases c7 <;> rfl

/-- Fewer than 8 coils, at least one: the loop ends inside a byte, which is appended
after the loop. -/
theorem ModBus.writeMultipleCoils_loop_short (l : List Bool) (p : QByteArray)
    (h1 : 1 ≤ l.length) (h8 : l.length < 8) :
    (ModBus.writeMultipleCoils_loop l 0 0 p).1 = l.length ∧
    (ModBus.writeMultipleCoils_loop l 0 0 p).2.2
        ++ [toChar (ModBus.writeMultipleCoils_loop l 0 0 p).2.1]
      = p ++ [coilsByte l 0] := by
  match l, h1, h8 with
  | [c0], _, _ => cases c0 <;> exact ⟨rfl, rfl⟩
  | [c0, c1], _, _ => cases c0 <;> cases c1 <;> exact ⟨rfl, rfl⟩
  | [c0, c1, c2], _, _ => cases c0 <;> cases c1 <;> cases c2 <;> exact ⟨rfl, rfl⟩
  | [c0, c1, c2, c3], _, _ =>
    cases c0 <;> cases c1 <;> cases c2 <;> cases c3 <;> exact ⟨rfl, rfl⟩
  | [c0, c1, c2, c3, c4], _, _ =>
    cases c0 <;> cases c1 <;> cases c2 <;> cases c3 <;> cases c4 <;> exact ⟨rfl, rfl⟩
  | [c0, c1, c2, c3, c4, c5], _, _ =>
    cases c0 <;> cases c1 <;> cases c2 <;> cases c3 <;> cases c4 <;> cases c5 <;>
      exact ⟨rfl, rfl⟩
  | [c0, c1, c2, c3, c4, c5, c6], _, _ =>
    cases c0 <;> cases c1 <;> cases c2 <;> cases c3 <;> cases c4 <;> cases c5 <;>
      cases c6 <;> exact ⟨rfl, rfl⟩
  | _ :: _ :: _ :: _ :: _ :: _ :: _ :: _ :: _, _, h => simp at h; omega

/-- The data bytes that `writeMultipleCoils` appends: one byte per started group of 8
coils, each packed as `coilsByte` says. -/
theorem ModBus.writeMultipleCoils_loop_eq (n : Nat) :
    ∀ (l : List Bool) (p : QByteArray), l.length = n →
      (if (ModBus.writeMultipleCoils_loop l 0 0 p).1 ≠ 0 then
          (ModBus.writeMultipleCoils_loop l 0 0 p).2.2
            ++ [toChar (ModBus.writeMultipleCoils_loop l 0 0 p).2.1]
        else (ModBus.writeMultipleCoils_loop l 0 0 p).2.2)
        = p ++ (List.range ((l.length + 7) / 8)).map (coilsByte l) := by
  induction n using Nat.strong_induction_on with
  | _ n ih =>
    intro l p hn
    by_cases h8 : l.length < 8
    · by_cases h0 : l.length = 0
      · have : l = [] := List.length_eq_zero.mp h0
        subst this
        simp [ModBus.writeMultipleCoils_loop]
      · obtain ⟨hb, he⟩ := ModBus.writeMultipleCoils_loop_short l p (by omega) h8
        rw [if_pos (by rw [hb]; exact h0), he]
        have : (l.length + 7) / 8 = 1 := by omega
        rw [this]
        rfl
    · match l, hn, h8 with
      | c0 :: c1 :: c2 :: c3 :: c4 :: c5 :: c6 :: c7 :: rest, hn, _ =>
        rw [ModBus.writeMultipleCoils_loop_chunk]
        have hlen : rest.length < n := by
          rw [← hn]
          simp only [List.length_cons]
          omega
        rw [ih rest.length hlen rest _ rfl]
        have hk : ((c0 :: c1 :: c2 :: c3 :: c4 :: c5 :: c6 :: c7 :: rest).length + 7) / 8
            = (rest.length + 7) / 8 + 1 := by
          simp only [List.length_cons]
          omega
        rw [hk, List.range_succ_eq_map, List.map_cons, List.map_map, List.append_assoc]
        congr 1
      | [], _, h => simp at h
      | [_], _, h => simp at h
      | [_, _], _, h => simp at h
      | [_, _, _], _, h => simp at h
      | [_, _, _, _], _, h => simp at h
      | [_, _, _, _, _], _, h => simp at h
      | [_, _, _, _, _, _], _, h => simp at h
      | [_, _, _, _, _, _, _], _, h => simp at h

theorem coilsByte_testBit (on_ : List Bool) (j i : Nat) (hi : i < 8) :
    (coilsByte on_ j).val.testBit i = on_.getD (8 * j + i) false := by
  unfold coilsByte
  have h := coilsToByte_testBit (on_.getD (8 * j) false) (on_.getD (8 * j + 1) false)
    (on_.getD (8 * j + 2) false) (on_.getD (8 * j + 3) false) (on_.getD (8 * j + 4) false)
    (on_.getD (8 * j + 5) false) (on_.getD (8 * j + 6) false) (on_.getD (8 * j + 7) false)
    ⟨i, hi⟩
  rw [h]
  interval_cases i <;> rfl

/-- The payload that `writeMultipleCoils` builds, for a list of any length. -/
theorem ModBus.writeMultipleCoils_payload_eq (dataStartAddress : quint16) (on_ : List Bool) :
    ModBus.writeMultipleCoils_payload dataStartAddress on_
      = [toChar (dataStartAddress.val / 256), toChar (dataStartAddress.val % 256),
         toChar (on_.length % 65536 / 256), toChar (on_.length % 65536 % 256),
         (if on_.length % 65536 % 8 ≠ 0 then toChar ((toChar (on_.length % 65536 / 8)).val + 1)
          else toChar (on_.length % 65536 / 8))] ++
        (List.range ((on_.length + 7) / 8)).map (coilsByte on_) := by
  unfold ModBus.writeMultipleCoils_payload
  simp only []
  rw [ModBus.writeMultipleCoils_loop_eq on_.length on_ _ rfl]
  simp only [shiftRight_8_eq_div, and_255_eq_mod]
  rfl

/-- C24, counterexample.  For a list of 2041 coils the payload has `5 + 256` bytes, so
256 data bytes follow the byte-count byte, which is `0`, not `ceil(2041 / 8) = 256`. -/
theorem ModBus.writeMultipleCoils_byte_count_wraps :
    (ModBus.writeMultipleCoils_payload 0 (List.replicate 2041 true)).length = 5 + 256 ∧
    ((ModBus.writeMultipleCoils_payload 0 (List.replicate 2041 true)).getD 4 0).val = 0 ∧
    ((List.replicate 2041 true).length + 7) / 8 = 256 := by
  rw [ModBus.writeMultipleCoils_payload_eq]
  simp only [List.length_replicate, List.length_append, List.length_map, List.length_range,
    List.length_cons, List.length_nil]
  refine ⟨by decide, ?_, by decide⟩
  simp only [List.cons_append, List.getD_cons_succ, List.getD_cons_zero]
  decide

/-- C24, amended.  For every start address and every list of `n` coils the payload is
`start_hi, start_lo, cnt_hi, cnt_lo`, a byte-count byte and then exactly `ceil(n / 8)` data
bytes, in which bit `k mod 8`, counted from the least significant bit, of data byte
`k div 8` is 1 exactly when coil `k` is true, the bits of the last data byte that have no
coil being 0.  The count bytes hold `n mod 2^16` and the byte-count byte holds
`ceil((n mod 2^16) / 8) mod 256`; so for `n ≤ 2040` the count is `n`, big-endian, and the
byte-count byte is `ceil(n / 8)`.  The telegram that `writeMultipleCoils` queues carries
this payload and the given slave address and function code. -/
theorem ModBus.writeMultipleCoils_payload_format (dataStartAddress : quint16)
    (on_ : List Bool) :
    (ModBus.writeMultipleCoils_payload dataStartAddress on_).length
      = 5 + (on_.length + 7) / 8 ∧
    (∃ (cnt_hi cnt_lo byte_count : quint8) (data : QByteArray),
      ModBus.writeMultipleCoils_payload dataStartAddress on_
        = [toChar (dataStartAddress.val / 256), toChar (dataStartAddress.val % 256),
           cnt_hi, cnt_lo, byte_count] ++ data ∧
      data.length = (on_.length + 7) / 8 ∧
      256 * cnt_hi.val + cnt_lo.val = on_.length % 65536 ∧
      byte_count.val = (on_.length % 65536 + 7) / 8 % 256 ∧
      (on_.length ≤ 2040 →
        256 * cnt_hi.val + cnt_lo.val = on_.length ∧
        byte_count.val = (on_.length + 7) / 8) ∧
      (∀ k, k < 8 * ((on_.length + 7) / 8) →
        (data.getD (k / 8) 0).val.testBit (k % 8) = on_.getD k false)) ∧
    (∀ (s : ModBus) (ids : TelegramIds) (slaveAddress functionCode : quint8),
      ModBus.writeMultipleCoils s ids slaveAddress dataStartAddress on_ functionCode
        = (ModBus.writeTelegramToQueue
            { s with m_requestedCount := toQuint16 on_.length,
                     m_requestedDataStartAddress := dataStartAddress }
            (ModBusTelegram.mk slaveAddress functionCode
              (ModBus.writeMultipleCoils_payload dataStartAddress on_) 1 ids.idData)).map
          (fun q => (q.1, q.2, { ids with idData := TelegramIds.advance ids.idData }))) := by
  have hbc : ((if on_.length % 65536 % 8 ≠ 0 then
        toChar ((toChar (on_.length % 65536 / 8)).val + 1)
      else toChar (on_.length % 65536 / 8)) : quint8).val
      = (on_.length % 65536 + 7) / 8 % 256 := by
    split
    · show ((on_.length % 65536 / 8) % 256 + 1) % 256 = _
      omega
    · show (on_.length % 65536 / 8) % 256 = _
      omega
  rw [ModBus.writeMultipleCoils_payload_eq]
  refine ⟨?_, ⟨_, _, _, _, rfl, ?_, ?_, hbc, ?_, ?_⟩, ?_⟩
  · rw [List.length_append, List.length_map, List.length_range]
    rfl
  · rw [List.length_map, List.length_range]
  · show 256 * (on_.length % 65536 / 256 % 256) + on_.length % 65536 % 256 % 256 = _
    omega
  · intro h
    constructor
    · show 256 * (on_.length % 65536 / 256 % 256) + on_.length % 65536 % 256 % 256 = _
      omega
    · rw [hbc]
      omega
  · intro k hk
    have hj : k / 8 < (on_.length + 7) / 8 := by omega
    have hget : ((List.range ((on_.length + 7) / 8)).map (coilsByte on_)).getD (k / 8) 0
        = coilsByte on_ (k / 8) := by
      rw [List.getD_eq_getElem _ _ (by rw [List.length_map, List.length_range]; exact hj)]
      simp
    rw [hget, coilsByte_testBit on_ (k / 8) (k % 8) (Nat.mod_lt _ (by decide))]
    congr 1
    omega
  · intro s ids slaveAddress functionCode
    unfold ModBus.writeMultipleCoils ModBusTelegram.ctor_data
    simp only [← ModBus.writeMultipleCoils_payload_eq]
    cases ModBus.writeTelegramToQueue _ _ <;> rfl

/-- C24 amended at start address `0x0013` and the ten coils
`1 0 1 1 0 0 1 1, 1 0`: the data bytes are `CD 01`. -/
theorem ModBus.writeMultipleCoils_payload_format_witness :
    ∃ (cnt_hi cnt_lo byte_count : quint8) (data : QByteArray),
      ModBus.writeMultipleCoils_payload 0x0013
          [true, false, true, true, false, false, true, true, true, false]
        = [0x00, 0x13, cnt_hi, cnt_lo, byte_count] ++ data ∧
      data.length = 2 ∧ 256 * cnt_hi.val + cnt_lo.val = 10 ∧ byte_count.val = 2 := by
  obtain ⟨_, ⟨cnt_hi, cnt_lo, byte_count, data, hp, hl, _, _, h, _⟩, _⟩ :=
    ModBus.writeMultipleCoils_payload_format 0x0013
      [true, false, true, true, false, false, true, true, true, false]
  exact ⟨cnt_hi, cnt_lo, byte_count, data, hp, hl, h (by decide)⟩
